import Mathlib

/-!
# Friends-of-friends cluster finder: linking predicates, driver and post-processing

A shallow embedding of `src/src/fof_class.cpp` (class `FoF`) and of the two
constructors and the comparison operators of
`src/fof_cluster_finder/src/galaxy_class.hpp` (class `Galaxy`).

Conventions of the embedding.

* `double` is the field of rational numbers with exact arithmetic. Rounding,
  infinities and NaN are outside the model, and so is a quotient by zero (an
  infinity or NaN in the source, `0` for the rationals); `fabs` is the absolute
  value.
* `int` and `std::size_t` values are integers or naturals; the only place where
  a conversion between the two matters (`FoF::remove`) reduces modulo `2 ^ w`.
* `std::vector` is `List`. An element access `v[i]` outside `0 ≤ i < v.size()`
  has no defined behaviour in the source; every function that performs such an
  access is fallible and reports `Fault.out_of_range` there.
* The member loop of the growth phase runs over a vector that grows while it is
  scanned. It is embedded with a fuel argument bounding the number of members
  scanned; `Fault.out_of_fuel` reports exhaustion.
* `Astro::angsep`, `Zbin`, `Cluster`, `Kdtree` and `BadArgumentException` are
  declared in files outside `src/`. `angsep` is a parameter (field of `Astro`);
  the record types carry the fields that the source reads or writes.
-/

namespace SFoF

/-! ## Data model -/

/-- Reasons for which a run of the embedded code breaks off. -/
inductive Fault where
  | out_of_range
  | out_of_fuel
  deriving DecidableEq, Repr

/-- Class `Galaxy` of `galaxy_class.hpp`, public data members. -/
structure Galaxy where
  num : Int
  bin : Int
  ra : ℚ
  dec : ℚ
  z : ℚ
  dz : ℚ
  da : ℚ
  v : ℚ
  id : Nat
  in_cluster : List Bool
  deriving DecidableEq

/-- Exception thrown by the `Galaxy` constructors: the class, the offending
argument and the violated constraint. -/
structure BadArgumentException where
  cls : String
  arg : String
  constraint : String
  deriving DecidableEq, Repr

/-- Redshift bin descriptor: the members of `Zbin` read by `FoF`. -/
structure Zbin where
  num : Int
  z : ℚ
  link_r : ℚ
  rfriend : ℚ

/-- Entry of `Kdtree_node::members`; the driver reads its `num` only. -/
structure Kdtree_member where
  num : Int

/-- Node of the spatial index: centroid, bounding radius and members. -/
structure Kdtree_node where
  ra : ℚ
  dec : ℚ
  radius : ℚ
  members : List Kdtree_member

/-- The spatial index as seen by the driver: a flat list of nodes. -/
structure Kdtree where
  node_list : List Kdtree_node

/-- Modelled from the spec: class `Cluster` (its header is not under `src/`),
with identity `num` and the ordered member sequence `mem` of galaxy copies. -/
structure Cluster where
  num : Int
  mem : List Galaxy

/-- The collaborator `Astro`: the great-circle separation
`angsep ra1 dec1 ra2 dec2`. -/
structure Astro where
  angsep : ℚ → ℚ → ℚ → ℚ → ℚ

/-- Data members of class `FoF` used by `fof_class.cpp`. -/
structure FoF where
  mode : String
  link_z : ℚ
  astro : Astro
  list_of_clusters : List Cluster

/-! ## Vector access -/

/-- Read `v[i]` for a signed index; `none` outside the vector. -/
def vec_get {α : Type} (xs : List α) (i : Int) : Option α :=
  if 0 ≤ i then xs[i.toNat]? else none

/-- Overwrite `v[i]` by `f v[i]` for a signed index; `none` outside the vector. -/
def vec_update {α : Type} (xs : List α) (i : Int) (f : α → α) : Option (List α) :=
  match vec_get xs i with
  | none => none
  | some x => some (xs.set i.toNat (f x))

/-- Sequential loop over the elements of a vector with a fallible body. -/
def loopM {σ α : Type} (body : σ → α → Except Fault σ) : List α → σ → Except Fault σ
  | [], s => .ok s
  | a :: rest, s =>
    match body s a with
    | .error e => .error e
    | .ok s1 => loopM body rest s1

/-! ## Galaxy: constructors and comparison operators -/

/-- Constructor `Galaxy(num, id, ra, dec, z)` (mode "spec"). The members `dz`
and `in_cluster` are not assigned by the constructor: `dz` keeps an
indeterminate value `dz0`, `in_cluster` is the empty vector. -/
def Galaxy.new_spec (num_val : Int) (id_val : Nat) (ra_val dec_val z_val : ℚ) (dz0 : ℚ) :
    Except BadArgumentException Galaxy :=
  if z_val < 0 then
    .error ⟨"Galaxy", "z_val", ">= 0.0"⟩
  else
    .ok { num := num_val, id := id_val, ra := ra_val, dec := dec_val, z := z_val,
          v := z_val / (1 + z_val), da := 0, bin := 0, dz := dz0, in_cluster := [] }

/-- Constructor `Galaxy(num, id, ra, dec, z, dz)` (mode "phot"). The member `v`
is not assigned by the constructor and keeps an indeterminate value `v0`. -/
def Galaxy.new_phot (num_val : Int) (id_val : Nat) (ra_val dec_val z_val dz_val : ℚ) (v0 : ℚ) :
    Except BadArgumentException Galaxy :=
  if z_val ≤ 0 then
    .error ⟨"Galaxy", "z_val", "> 0.0"⟩
  else if dz_val ≤ 0 then
    .error ⟨"Galaxy", "dz_val", "> 0.0"⟩
  else
    .ok { num := num_val, id := id_val, ra := ra_val, dec := dec_val, z := z_val,
          dz := dz_val, da := 0, bin := 0, v := v0, in_cluster := [] }

/-- The `operator==` of `Galaxy`: equal `id`. -/
def Galaxy.eq (gal1 gal2 : Galaxy) : Bool :=
  gal1.id == gal2.id

/-- The `operator<` of `Galaxy`: smaller `id`. -/
def Galaxy.lt (gal1 gal2 : Galaxy) : Bool :=
  decide (gal1.id < gal2.id)

/-! ## Cluster -/

/-- Modelled from the spec: `Cluster::add_gal` (not under `src/`) appends the
galaxy to the member sequence, so that insertion order is discovery order. -/
def Cluster.add_gal (c : Cluster) (gal : Galaxy) : Cluster :=
  { c with mem := c.mem ++ [gal] }

/-- Modelled from the spec: the member sequence collapsed to unique identities
(identity is `operator==` of `Galaxy`), preserving first-occurrence order. -/
def unique_mem : List Galaxy → List Galaxy
  | [] => []
  | gal :: rest => gal :: (unique_mem rest).filter (fun h => !(Galaxy.eq gal h))

/-- Modelled from the spec: `Cluster::unique` (not under `src/`), the
deduplication of the member sequence. -/
def Cluster.unique (c : Cluster) : Cluster :=
  { c with mem := unique_mem c.mem }

/-! ## Linking predicates (`fof_class.cpp`, lines 5-34) -/

/-- `FoF::bin_check`. -/
def FoF.bin_check (F : FoF) (zbin : Zbin) (gal : Galaxy) : Bool :=
  if F.mode == "spec" then
    true
  else
    decide (|gal.z - zbin.z| ≤ F.link_z * gal.dz)

/-- `FoF::node_check`. -/
def FoF.node_check (F : FoF) (gal : Galaxy) (node : Kdtree_node) (rfriend : ℚ) : Bool :=
  let dist := F.astro.angsep gal.ra gal.dec node.ra node.dec - node.radius
  decide (dist ≤ rfriend)

/-- `FoF::friendship`. The read `gal2.in_cluster[zbin.num]` is the only access
that can leave its vector. -/
def FoF.friendship (F : FoF) (zbin : Zbin) (gal1 gal2 : Galaxy) (rfriend : ℚ) :
    Except Fault Bool :=
  let check0 := gal1.num != gal2.num
  let check1 := F.bin_check zbin gal2
  match vec_get gal2.in_cluster zbin.num with
  | none => .error .out_of_range
  | some flag =>
    let check2 := !flag
    let dist := F.astro.angsep gal1.ra gal1.dec gal2.ra gal2.dec
    let check3 := decide (dist ≤ rfriend)
    if F.mode == "spec" then
      let check4 := decide (|gal1.v - gal2.v| ≤ F.link_z / (1 + gal1.z))
      .ok (check0 && check1 && check2 && check3 && check4)
    else
      .ok (check0 && check1 && check2 && check3)

/-! ## Post-processing (`fof_class.cpp`, lines 36-49) -/

/-- Body of the first loop of `FoF::remove` at position `i`: deduplicate cluster
`i` and record `i` when the cluster is too small. The comparison is between the
unsigned size and `min_ngal` converted to an unsigned type of `w` bits. -/
def remove_mark (w : Nat) (min_ngal : Int) (st : List Cluster × List Nat) (i : Nat) :
    List Cluster × List Nat :=
  match st.1[i]? with
  | none => st
  | some c =>
    let c1 := c.unique
    let clusters := st.1.set i c1
    if (c1.mem.length : Int) < min_ngal % (2 : Int) ^ w then
      (clusters, st.2 ++ [i])
    else
      (clusters, st.2)

/-- Second loop of `FoF::remove`: erase the recorded positions, last one first. -/
def remove_erase (clusters : List Cluster) (remove_list : List Nat) : List Cluster :=
  remove_list.reverse.foldl (fun cl i => cl.eraseIdx i) clusters

/-- `FoF::remove`, with `w` the width of `std::size_t`. -/
def FoF.remove (F : FoF) (w : Nat) (min_ngal : Int) : FoF :=
  let st := (List.range F.list_of_clusters.length).foldl (remove_mark w min_ngal)
    (F.list_of_clusters, [])
  { F with list_of_clusters := remove_erase st.1 st.2 }

/-! ## Clustering driver (`fof_class.cpp`, lines 51-116) -/

/-- Mutable state of `FoF::friends_of_friends`: the galaxy list (only its
membership flags change), the cluster list and the local `cluster_count`. -/
structure DriverState where
  gal_list : List Galaxy
  list_of_clusters : List Cluster
  cluster_count : Int

/-- The assignment `gal_list[g].in_cluster[b] = true`. -/
def set_in_cluster (gal_list : List Galaxy) (g : Int) (b : Int) : Option (List Galaxy) :=
  match vec_get gal_list g with
  | none => none
  | some gal =>
    match vec_update gal.in_cluster b (fun _ => true) with
    | none => none
    | some flags => vec_update gal_list g (fun x => { x with in_cluster := flags })

/-- The statement pair `list_of_clusters[cluster_count].add_gal(gal_list[gal_now]);
gal_list[gal_now].in_cluster[zbin.num] = true;` (lines 84-85 and 105-106). -/
def append_member (zbin : Zbin) (s : DriverState) (gal_now : Int) (gal : Galaxy) :
    Except Fault DriverState :=
  match vec_update s.list_of_clusters s.cluster_count (fun c => c.add_gal gal) with
  | none => .error .out_of_range
  | some clusters =>
    match set_in_cluster s.gal_list gal_now zbin.num with
    | none => .error .out_of_range
    | some gals => .ok { s with gal_list := gals, list_of_clusters := clusters }

/-- Creation of a new cluster from the seed `gal_list[i]` and its first friend
`gal_list[gal_now]` (lines 74-80). -/
def create_cluster (zbin : Zbin) (s : DriverState) (i : Nat) (gal_now : Int)
    (gal_i gal_n : Galaxy) : Except Fault DriverState :=
  let cluster_count := s.cluster_count + 1
  let cluster_here := ((Cluster.mk cluster_count []).add_gal gal_i).add_gal gal_n
  match set_in_cluster s.gal_list i zbin.num with
  | none => .error .out_of_range
  | some gals1 =>
    match set_in_cluster gals1 gal_now zbin.num with
    | none => .error .out_of_range
    | some gals2 =>
      .ok { gal_list := gals2,
            list_of_clusters := s.list_of_clusters ++ [cluster_here],
            cluster_count := cluster_count }

/-- Body of the member loop of the seed phase (lines 70-87). -/
def seed_member (F : FoF) (zbin : Zbin) (i : Nat) (rfriend : ℚ) (s : DriverState)
    (m : Kdtree_member) : Except Fault DriverState :=
  let gal_now := m.num
  match vec_get s.gal_list i, vec_get s.gal_list gal_now with
  | some gal_i, some gal_n =>
    match F.friendship zbin gal_i gal_n rfriend with
    | .error e => .error e
    | .ok false => .ok s
    | .ok true =>
      match vec_get gal_i.in_cluster zbin.num with
      | none => .error .out_of_range
      | some false => create_cluster zbin s i gal_now gal_i gal_n
      | some true => append_member zbin s gal_now gal_n
  | _, _ => .error .out_of_range

/-- Body of the node loop of the seed phase (lines 66-89). -/
def seed_node (F : FoF) (zbin : Zbin) (i : Nat) (rfriend : ℚ) (s : DriverState)
    (node : Kdtree_node) : Except Fault DriverState :=
  match vec_get s.gal_list i with
  | none => .error .out_of_range
  | some gal_i =>
    if F.node_check gal_i node rfriend then
      loopM (seed_member F zbin i rfriend) node.members s
    else
      .ok s

/-- The member `list_of_clusters[cluster_count].mem[ii]`. -/
def current_member (s : DriverState) (ii : Nat) : Option Galaxy :=
  match vec_get s.list_of_clusters s.cluster_count with
  | none => none
  | some c => c.mem[ii]?

/-- Body of the member loop of the growth phase (lines 102-107). -/
def growth_member (F : FoF) (zbin : Zbin) (ii : Nat) (rfriend : ℚ) (s : DriverState)
    (m : Kdtree_member) : Except Fault DriverState :=
  let gal_now := m.num
  match current_member s ii, vec_get s.gal_list gal_now with
  | some gal_m, some gal_n =>
    match F.friendship zbin gal_m gal_n rfriend with
    | .error e => .error e
    | .ok false => .ok s
    | .ok true => append_member zbin s gal_now gal_n
  | _, _ => .error .out_of_range

/-- Body of the node loop of the growth phase (lines 98-109). -/
def growth_node (F : FoF) (zbin : Zbin) (ii : Nat) (rfriend : ℚ) (s : DriverState)
    (node : Kdtree_node) : Except Fault DriverState :=
  match current_member s ii with
  | none => .error .out_of_range
  | some gal_m =>
    if F.node_check gal_m node rfriend then
      loopM (growth_member F zbin ii rfriend) node.members s
    else
      .ok s

/-- The cluster member loop of the growth phase (lines 94-111), from position
`ii` on: as long as `ii < list_of_clusters[cluster_count].mem.size()` the node
loop is run for member `ii`. `fuel` bounds the number of members still to be
scanned; the loop condition is evaluated before fuel is consumed. -/
def growth_loop (F : FoF) (tree : Kdtree) (zbin : Zbin) (rfriend : ℚ) :
    Nat → Nat → DriverState → Except Fault DriverState
  | 0, ii, s =>
    match vec_get s.list_of_clusters s.cluster_count with
    | none => .error .out_of_range
    | some c => if ii < c.mem.length then .error .out_of_fuel else .ok s
  | fuel + 1, ii, s =>
    match vec_get s.list_of_clusters s.cluster_count with
    | none => .error .out_of_range
    | some c =>
      if ii < c.mem.length then
        match loopM (growth_node F zbin ii rfriend) tree.node_list s with
        | .error e => .error e
        | .ok s1 => growth_loop F tree zbin rfriend fuel (ii + 1) s1
      else
        .ok s

/-- Body of the galaxy loop (lines 57-114) for the galaxy at position `i`; the
second component of the state is the local `rfriend`. In mode "spec" it is the
quotient `zbin.link_r / gal_i.da` of exact arithmetic, which is the quotient of
line 58 for `da ≠ 0`; for `da = 0` the source computes an infinity or NaN, which
the embedding does not represent, and the statements that depend on the value
of the radius assume `da ≠ 0`. -/
def seed_step (F : FoF) (tree : Kdtree) (zbin : Zbin) (fuel : Nat)
    (st : DriverState × ℚ) (i : Nat) : Except Fault (DriverState × ℚ) :=
  match vec_get st.1.gal_list i with
  | none => .error .out_of_range
  | some gal_i =>
    let rfriend := if F.mode == "spec" then zbin.link_r / gal_i.da else st.2
    match vec_get gal_i.in_cluster zbin.num with
    | none => .error .out_of_range
    | some true => .ok (st.1, rfriend)
    | some false =>
      if F.bin_check zbin gal_i then
        match loopM (seed_node F zbin i rfriend) tree.node_list st.1 with
        | .error e => .error e
        | .ok s1 =>
          match vec_get s1.gal_list i with
          | none => .error .out_of_range
          | some gal_i1 =>
            match vec_get gal_i1.in_cluster zbin.num with
            | none => .error .out_of_range
            | some false => .ok (s1, rfriend)
            | some true =>
              match growth_loop F tree zbin rfriend fuel 0 s1 with
              | .error e => .error e
              | .ok s2 => .ok (s2, rfriend)
      else
        .ok (st.1, rfriend)

/-- `FoF::friends_of_friends`. The galaxy loop runs over the positions
`0 .. gal_list.size() - 1`; the size of `gal_list` never changes during the
call. `fuel` is handed to the growth loop of every pass. The result is the
updated `FoF` object and the updated galaxy list. -/
def FoF.friends_of_friends (F : FoF) (fuel : Nat) (tree : Kdtree) (zbin : Zbin)
    (gal_list : List Galaxy) : Except Fault (FoF × List Galaxy) :=
  let s0 : DriverState :=
    { gal_list := gal_list, list_of_clusters := F.list_of_clusters, cluster_count := -1 }
  match loopM (seed_step F tree zbin fuel) (List.range gal_list.length) (s0, zbin.rfriend) with
  | .error e => .error e
  | .ok st => .ok ({ F with list_of_clusters := st.1.list_of_clusters }, st.1.gal_list)

/-! ## Concrete inputs used to instantiate the theorems -/

/-- A separation on the plane that is symmetric and satisfies the triangle
inequality: the sum of the coordinate distances. -/
def plane_astro : Astro :=
  ⟨fun ra1 dec1 ra2 dec2 => |ra1 - ra2| + |dec1 - dec2|⟩

/-- A galaxy at `(ra, 0)` with redshift `z`, one membership flag (false), unit
angular diameter distance and `id = 100 + num`. -/
def gal_at (num : Nat) (ra z dz : ℚ) : Galaxy :=
  { num := num, bin := 0, ra := ra, dec := 0, z := z, dz := dz, da := 1,
    v := z / (1 + z), id := 100 + num, in_cluster := [false] }

/-- A finder in mode "spec" with `link_z = 1/100` and no clusters. -/
def spec_fof : FoF :=
  { mode := "spec", link_z := 1 / 100, astro := plane_astro, list_of_clusters := [] }

/-- A finder in mode "phot" with `link_z = 3` and no clusters. -/
def phot_fof : FoF :=
  { mode := "phot", link_z := 3, astro := plane_astro, list_of_clusters := [] }

/-- Four galaxies in mode "spec": number 0 lies 10 away from the three
coincident galaxies 1, 2 and 3. -/
def scen_gals : List Galaxy :=
  [gal_at 0 10 (1 / 10) 0, gal_at 1 0 (1 / 10) 0, gal_at 2 0 (1 / 10) 0, gal_at 3 0 (1 / 10) 0]

/-- An index over `scen_gals` with three overlapping nodes. -/
def scen_tree : Kdtree :=
  ⟨[⟨0, 0, 1, [⟨1⟩, ⟨2⟩, ⟨3⟩]⟩, ⟨10, 0, 1, [⟨0⟩]⟩, ⟨5, 0, 6, [⟨0⟩, ⟨1⟩, ⟨2⟩, ⟨3⟩]⟩]⟩

/-- Bin 0 with `z = 1/10`, `link_r = 1/2` and `rfriend = 1/2`. -/
def scen_zbin : Zbin :=
  { num := 0, z := 1 / 10, link_r := 1 / 2, rfriend := 1 / 2 }

/-- Three galaxies in mode "phot" at one position with redshifts 0.10, 0.50 and
0.12 and redshift error 0.02 each. -/
def phot_gals : List Galaxy :=
  [gal_at 0 0 (1 / 10) (2 / 100), gal_at 1 0 (1 / 2) (2 / 100), gal_at 2 0 (12 / 100) (2 / 100)]

/-- An index over `phot_gals` with a single node. -/
def phot_tree : Kdtree :=
  ⟨[⟨0, 0, 1, [⟨0⟩, ⟨1⟩, ⟨2⟩]⟩]⟩

/-- Bin 0 with `z = 1/10` and angular linking radius 1 for mode "phot". -/
def phot_zbin : Zbin :=
  { num := 0, z := 1 / 10, link_r := 1, rfriend := 1 }

/-- The galaxy that `Galaxy(0, 7, 0, 0, 0.1, 0.02)` constructs: its flag vector
is empty until `set_cluster_status` sizes it. -/
def fresh_gal : Galaxy :=
  { num := 0, bin := 0, ra := 0, dec := 0, z := 1 / 10, dz := 2 / 100, da := 0,
    v := 0, id := 7, in_cluster := [] }

/-- An index without nodes. -/
def empty_tree : Kdtree :=
  ⟨[]⟩

/-- Summary of a run of the driver: for each cluster its `num` and the `num`s
of its members, and the flags of the galaxies; `none` when the run broke off. -/
def run_summary (r : Except Fault (FoF × List Galaxy)) :
    Option (List (Int × List Int) × List (List Bool)) :=
  match r with
  | .error _ => none
  | .ok (F, G) =>
    some (F.list_of_clusters.map (fun c => (c.num, c.mem.map (fun g => g.num))),
      G.map (fun g => g.in_cluster))

/-- A galaxy as `gal_at` whose flag is already true. -/
def flagged_at (num : Nat) (ra z dz : ℚ) : Galaxy :=
  { gal_at num ra z dz with in_cluster := [true] }

/-- Seven galaxies: 0 and 1 coincide at `ra = 0`; 2, 3 and 4 coincide at
`ra = 10`; 5 and 6 coincide at `ra = 50` and their flag is already true. -/
def lag_gals : List Galaxy :=
  [gal_at 0 0 (1 / 10) 0, gal_at 1 0 (1 / 10) 0, gal_at 2 10 (1 / 10) 0,
    gal_at 3 10 (1 / 10) 0, gal_at 4 10 (1 / 10) 0, flagged_at 5 50 (1 / 10) 0,
    flagged_at 6 50 (1 / 10) 0]

/-- An index over `lag_gals` with one node for each of the three positions. -/
def lag_tree : Kdtree :=
  ⟨[⟨0, 0, 1, [⟨0⟩, ⟨1⟩]⟩, ⟨10, 0, 1, [⟨2⟩, ⟨3⟩, ⟨4⟩]⟩, ⟨50, 0, 1, [⟨5⟩, ⟨6⟩]⟩]⟩

/-- A finder in mode "spec" whose cluster list is not empty on entry: it holds
one cluster with the galaxies 5 and 6. -/
def lag_fof : FoF :=
  { mode := "spec", link_z := 1 / 100, astro := plane_astro,
    list_of_clusters := [⟨0, [gal_at 5 50 (1 / 10) 0, gal_at 6 50 (1 / 10) 0]⟩] }

/-- The member sequences of the clusters of a run; `none` when the run broke
off. -/
def run_members (r : Except Fault (FoF × List Galaxy)) : Option (List (List Galaxy)) :=
  match r with
  | .error _ => none
  | .ok (F, _) => some (F.list_of_clusters.map (fun c => c.mem))

/-- Four galaxies in a row, each 2/5 from the next: with radius 1/2 each is a
friend of its neighbours only. -/
def chain_gals : List Galaxy :=
  [gal_at 0 0 (1 / 10) 0, gal_at 1 (2 / 5) (1 / 10) 0, gal_at 2 (4 / 5) (1 / 10) 0,
    gal_at 3 (6 / 5) (1 / 10) 0]

/-- An index over `chain_gals` with a single node. -/
def chain_tree : Kdtree :=
  ⟨[⟨3 / 5, 0, 1, [⟨0⟩, ⟨1⟩, ⟨2⟩, ⟨3⟩]⟩]⟩

/-- A galaxy at the origin with redshift `z`, redshift error 0.02 and two
membership flags (false), one for each of two bins. -/
def two_bin_at (num : Nat) (z : ℚ) : Galaxy :=
  { gal_at num 0 z (2 / 100) with in_cluster := [false, false] }

/-- Five galaxies at one position: 0 and 1 at redshift 0.10, 2 at redshift
0.11, 3 and 4 at redshift 0.50. -/
def reuse_gals : List Galaxy :=
  [two_bin_at 0 (1 / 10), two_bin_at 1 (1 / 10), two_bin_at 2 (11 / 100),
    two_bin_at 3 (1 / 2), two_bin_at 4 (1 / 2)]

/-- An index over `reuse_gals` with a single node. -/
def reuse_tree : Kdtree :=
  ⟨[⟨0, 0, 1, [⟨0⟩, ⟨1⟩, ⟨2⟩, ⟨3⟩, ⟨4⟩]⟩]⟩

/-- Bin 0 with `z = 1/2` and angular linking radius 1. -/
def far_zbin : Zbin :=
  { num := 0, z := 1 / 2, link_r := 1, rfriend := 1 }

/-- Bin 1 with `z = 1/10` and angular linking radius 1. -/
def near_zbin : Zbin :=
  { num := 1, z := 1 / 10, link_r := 1, rfriend := 1 }

/-- Two calls of `friends_of_friends` on the same finder and galaxy list, for
the bin `zbin1` and then for the bin `zbin2`. -/
def run_twice (F : FoF) (fuel : Nat) (tree : Kdtree) (zbin1 zbin2 : Zbin)
    (gal_list : List Galaxy) : Except Fault (FoF × List Galaxy) :=
  match F.friends_of_friends fuel tree zbin1 gal_list with
  | .error e => .error e
  | .ok (F1, G1) => F1.friends_of_friends fuel tree zbin2 G1

/-! ## Auxiliary notions for the statements and proofs -/

/-- The test of line 43 of `fof_class.cpp` on an already deduplicated cluster. -/
def too_small (w : Nat) (min_ngal : Int) (c : Cluster) : Bool :=
  decide ((c.mem.length : Int) < min_ngal % (2 : Int) ^ w)

/-- Positions recorded by the first loop of `FoF::remove` for clusters that sit
at positions `start, start + 1, ...` of the cluster list. -/
def marked_from (w : Nat) (min_ngal : Int) : Nat → List Cluster → List Nat
  | _, [] => []
  | start, c :: rest =>
    (if too_small w min_ngal c.unique then [start] else []) ++
      marked_from w min_ngal (start + 1) rest

/-- All member galaxies of all clusters of a list, cluster by cluster. -/
def all_members (clusters : List Cluster) : List Galaxy :=
  clusters.flatMap (fun c => c.mem)

/-- Galaxy `h` is galaxy `g`, possibly with the membership flag of bin `b` set
to true; nothing else differs. -/
def Galaxy.raised (b : Int) (g h : Galaxy) : Prop :=
  h = g ∨ h = { g with in_cluster := g.in_cluster.set b.toNat true }

/-- The galaxy list `G1` arises from `G` by raising flags of bin `b` only. -/
def frame (b : Int) (G G1 : List Galaxy) : Prop :=
  G1.length = G.length ∧
  ∀ (k : Nat) (g : Galaxy), G[k]? = some g → ∃ h, G1[k]? = some h ∧ Galaxy.raised b g h

/-- The field `num` of every galaxy is its position in the list. -/
def dense (G : List Galaxy) : Prop :=
  ∀ (k : Nat) (g : Galaxy), G[k]? = some g → g.num = (k : Int)

/-- The membership flag `G[k].in_cluster[b]`, when both accesses are in range. -/
def flag_of (G : List Galaxy) (b : Int) (k : Int) : Option Bool :=
  match vec_get G k with
  | none => none
  | some g => vec_get g.in_cluster b

/-- The predicate `P` on driver states is preserved by the two updates that the
driver performs: the creation of a cluster from a seed that passed `bin_check`
together with a friend, and the insertion of a friend of the seed or of a
member of the current cluster. -/
def update_stable (F : FoF) (zbin : Zbin) (P : DriverState → Prop) : Prop :=
  (∀ (s s1 : DriverState) (i : Nat) (gal_now : Int) (gal_i gal_n : Galaxy) (rfriend : ℚ),
    P s → vec_get s.gal_list i = some gal_i → vec_get s.gal_list gal_now = some gal_n →
    F.bin_check zbin gal_i = true →
    vec_get gal_i.in_cluster zbin.num = some false →
    F.friendship zbin gal_i gal_n rfriend = .ok true →
    create_cluster zbin s i gal_now gal_i gal_n = .ok s1 → P s1) ∧
  (∀ (s s1 : DriverState) (gal_now : Int) (gal_m gal_n : Galaxy) (rfriend : ℚ),
    P s → vec_get s.gal_list gal_now = some gal_n →
    ((∃ i : Nat, vec_get s.gal_list i = some gal_m) ∨
      (∃ ii : Nat, current_member s ii = some gal_m)) →
    F.friendship zbin gal_m gal_n rfriend = .ok true →
    append_member zbin s gal_now gal_n = .ok s1 → P s1)

/-- Invariant of the driver for bin `b`: positions and `num` agree, no `num`
occurs twice among the members of all clusters, and every member is a copy of
the galaxy of the list with its `num`, taken before or after the flag of the
bin was raised, that flag being true in the list. -/
def core_inv (b : Int) (s : DriverState) : Prop :=
  dense s.gal_list ∧
  ((all_members s.list_of_clusters).map (fun g => g.num)).Nodup ∧
  ∀ m ∈ all_members s.list_of_clusters,
    ∃ g, vec_get s.gal_list m.num = some g ∧ Galaxy.raised b m g ∧
      vec_get g.in_cluster b = some true

/-- Every member of every cluster passes `bin_check` for the bin. -/
def members_checked (F : FoF) (zbin : Zbin) (s : DriverState) : Prop :=
  ∀ m ∈ all_members s.list_of_clusters, F.bin_check zbin m = true

/-- The scenario of one group and isolated galaxies in mode "spec". `S` holds
of the `num`s of the group.

* `mode_spec`, `no_clusters`: the mode is "spec" and the cluster list of the
  finder is empty.
* `nums`, `ids`, `flags`: the galaxy list has dense `num`s, distinct `id`s and
  all flags of the bin false.
* `da_ne`, `z_ne`: no galaxy has `da = 0` or `1 + z = 0`, so that every linking
  radius `link_r / da` and every velocity bound `link_z / (1 + z)` is a
  quotient of exact arithmetic (for a divisor 0 the source computes an infinity
  or NaN, which the embedding does not represent).
* `cover`: every galaxy is a member of some node.
* `sound`: the node bounds are sound. Every member of a node is a galaxy `B` of
  the list, and `node_check` accepts the node for every galaxy `A` and radius
  `r` with `angsep(A, B) ≤ r`. (For a separation that is symmetric and satisfies
  the triangle inequality this follows from a radius that bounds the separation
  from the centroid to the members, see `node_check_of_triangle`.)
* `group`, `two`, `close`: the group consists of at least two galaxies of the
  list; any two of them are within the linking radius `link_r / A.da` of the
  pass of the first and velocity-compatible.
* `far`: a galaxy outside the group is farther than the linking radius
  `link_r / K.da` of every pass from every other galaxy, in both orders of the
  arguments of `angsep`. -/
structure Scenario (F : FoF) (tree : Kdtree) (zbin : Zbin) (G : List Galaxy)
    (S : Int → Prop) : Prop where
  mode_spec : F.mode = "spec"
  no_clusters : F.list_of_clusters = []
  nums : dense G
  ids : (G.map (fun g => g.id)).Nodup
  flags : ∀ g ∈ G, vec_get g.in_cluster zbin.num = some false
  da_ne : ∀ g ∈ G, g.da ≠ 0
  z_ne : ∀ g ∈ G, 1 + g.z ≠ 0
  cover : ∀ g ∈ G, ∃ node ∈ tree.node_list, ∃ m ∈ node.members, m.num = g.num
  sound : ∀ node ∈ tree.node_list, ∀ m ∈ node.members,
    ∃ B, vec_get G m.num = some B ∧
      ∀ A ∈ G, ∀ r : ℚ, F.astro.angsep A.ra A.dec B.ra B.dec ≤ r →
        F.node_check A node r = true
  group : ∀ k, S k → ∃ g ∈ G, g.num = k
  two : ∃ a b, S a ∧ S b ∧ a ≠ b
  close : ∀ A ∈ G, ∀ B ∈ G, S A.num → S B.num → A.num ≠ B.num →
    F.astro.angsep A.ra A.dec B.ra B.dec ≤ zbin.link_r / A.da ∧
    |A.v - B.v| ≤ F.link_z / (1 + A.z)
  far : ∀ X ∈ G, ¬ S X.num → ∀ Y ∈ G, Y.num ≠ X.num → ∀ K ∈ G,
    zbin.link_r / K.da < F.astro.angsep X.ra X.dec Y.ra Y.dec ∧
    zbin.link_r / K.da < F.astro.angsep Y.ra Y.dec X.ra X.dec

/-- Invariant of the driver in a `Scenario`: the galaxy list stems from `G` by
raised flags, `core_inv` holds, a raised flag belongs to a galaxy of the group
that is a member of a cluster, and there is no cluster yet or one cluster with
`num = 0` at position `cluster_count = 0`. -/
def scen_inv (zbin : Zbin) (G : List Galaxy) (S : Int → Prop) (s : DriverState) : Prop :=
  frame zbin.num G s.gal_list ∧ core_inv zbin.num s ∧
  (∀ (k : Int) (g : Galaxy), vec_get s.gal_list k = some g →
    vec_get g.in_cluster zbin.num = some true →
    S k ∧ k ∈ (all_members s.list_of_clusters).map (fun x => x.num)) ∧
  ((s.list_of_clusters = [] ∧ s.cluster_count = -1) ∨
    (∃ c, s.list_of_clusters = [c] ∧ s.cluster_count = 0 ∧ c.num = 0))

/-- State of the driver in a `Scenario` once the group has been collected: the
invariant holds and the flag of every galaxy of the group is raised. -/
def scen_done (zbin : Zbin) (G : List Galaxy) (S : Int → Prop) (s : DriverState) : Prop :=
  scen_inv zbin G S s ∧ ∀ k, S k → flag_of s.gal_list zbin.num k = some true

/-- Number of galaxies of the list whose flag for bin `b` is false. -/
def unflagged (b : Int) (G : List Galaxy) : Nat :=
  G.countP (fun g => decide (vec_get g.in_cluster b = some false))

/-- Every index member refers to a position of the galaxy list. -/
def index_valid (tree : Kdtree) (G : List Galaxy) : Prop :=
  ∀ node ∈ tree.node_list, ∀ m ∈ node.members, 0 ≤ m.num ∧ m.num < (G.length : Int)

/-- The flag of bin `b` can be read in every galaxy of the list: `0 ≤ b` and
every `in_cluster` vector is longer than `b`. -/
def flags_readable (b : Int) (G : List Galaxy) : Prop :=
  ∀ g ∈ G, ∃ x, vec_get g.in_cluster b = some x

/-- Invariant of the driver that keeps every access in range, for a run that
started from the galaxy list `G0` with an empty cluster list: the list stems
from `G0` by raised flags, `cluster_count` is the last position of the cluster
list, no flag was raised while there is no cluster, and the members of all
clusters are at most as many as the flags raised so far. -/
def safe_inv (b : Int) (G0 : List Galaxy) (s : DriverState) : Prop :=
  frame b G0 s.gal_list ∧
  s.cluster_count + 1 = (s.list_of_clusters.length : Int) ∧
  (s.list_of_clusters = [] → s.gal_list = G0) ∧
  (all_members s.list_of_clusters).length + unflagged b s.gal_list ≤ unflagged b G0

/-- Cluster numbering: `cluster_count` is the last position of the cluster list
and the cluster at position `k` has `num = k`. -/
def numbered (s : DriverState) : Prop :=
  s.cluster_count + 1 = (s.list_of_clusters.length : Int) ∧
  ∀ (k : Nat) (c : Cluster), s.list_of_clusters[k]? = some c → c.num = (k : Int)

/-- A raised flag of bin `b` belongs to a galaxy whose `num` occurs among the
members of the clusters. -/
def flagged_member (b : Int) (s : DriverState) : Prop :=
  ∀ (k : Int) (g : Galaxy), vec_get s.gal_list k = some g →
    vec_get g.in_cluster b = some true →
    k ∈ (all_members s.list_of_clusters).map (fun x => x.num)

/-- Counting invariant of the driver: the cluster list has at least `n0`
clusters, and the members of the clusters from position `n0` on together with
the galaxies whose flag of bin `b` is false are at most `K`. -/
def count_inv (b : Int) (n0 K : Nat) (s : DriverState) : Prop :=
  n0 ≤ s.list_of_clusters.length ∧
  (all_members (s.list_of_clusters.drop n0)).length + unflagged b s.gal_list ≤ K

/-- Every index member is a galaxy of the list, and the radius of its node
bounds the separation from the centroid of the node to that galaxy. -/
def node_bounds (F : FoF) (tree : Kdtree) (G : List Galaxy) : Prop :=
  ∀ node ∈ tree.node_list, ∀ m ∈ node.members,
    ∃ g, vec_get G m.num = some g ∧
      F.astro.angsep node.ra node.dec g.ra g.dec ≤ node.radius

/-- Variant of `seed_node` in which `node_check` is replaced by the constant
true: the members of every node are examined by `friendship`. -/
def seed_node_all (F : FoF) (zbin : Zbin) (i : Nat) (rfriend : ℚ) (s : DriverState)
    (node : Kdtree_node) : Except Fault DriverState :=
  loopM (seed_member F zbin i rfriend) node.members s

/-- Variant of `growth_node` in which `node_check` is replaced by the constant
true. -/
def growth_node_all (F : FoF) (zbin : Zbin) (ii : Nat) (rfriend : ℚ) (s : DriverState)
    (node : Kdtree_node) : Except Fault DriverState :=
  loopM (growth_member F zbin ii rfriend) node.members s

/-- Variant of `growth_loop` that examines the members of every node. -/
def growth_loop_all (F : FoF) (tree : Kdtree) (zbin : Zbin) (rfriend : ℚ) :
    Nat → Nat → DriverState → Except Fault DriverState
  | 0, ii, s =>
    match vec_get s.list_of_clusters s.cluster_count with
    | none => .error .out_of_range
    | some c => if ii < c.mem.length then .error .out_of_fuel else .ok s
  | fuel + 1, ii, s =>
    match vec_get s.list_of_clusters s.cluster_count with
    | none => .error .out_of_range
    | some c =>
      if ii < c.mem.length then
        match loopM (growth_node_all F zbin ii rfriend) tree.node_list s with
        | .error e => .error e
        | .ok s1 => growth_loop_all F tree zbin rfriend fuel (ii + 1) s1
      else
        .ok s

/-- Variant of `seed_step` that examines the members of every node. -/
def seed_step_all (F : FoF) (tree : Kdtree) (zbin : Zbin) (fuel : Nat)
    (st : DriverState × ℚ) (i : Nat) : Except Fault (DriverState × ℚ) :=
  match vec_get st.1.gal_list i with
  | none => .error .out_of_range
  | some gal_i =>
    let rfriend := if F.mode == "spec" then zbin.link_r / gal_i.da else st.2
    match vec_get gal_i.in_cluster zbin.num with
    | none => .error .out_of_range
    | some true => .ok (st.1, rfriend)
    | some false =>
      if F.bin_check zbin gal_i then
        match loopM (seed_node_all F zbin i rfriend) tree.node_list st.1 with
        | .error e => .error e
        | .ok s1 =>
          match vec_get s1.gal_list i with
          | none => .error .out_of_range
          | some gal_i1 =>
            match vec_get gal_i1.in_cluster zbin.num with
            | none => .error .out_of_range
            | some false => .ok (s1, rfriend)
            | some true =>
              match growth_loop_all F tree zbin rfriend fuel 0 s1 with
              | .error e => .error e
              | .ok s2 => .ok (s2, rfriend)
      else
        .ok (st.1, rfriend)

/-- Variant of `FoF::friends_of_friends` in which `node_check` is replaced by
the constant true, so that the members of every node are examined by
`friendship` in both phases. -/
def FoF.friends_of_friends_all (F : FoF) (fuel : Nat) (tree : Kdtree) (zbin : Zbin)
    (gal_list : List Galaxy) : Except Fault (FoF × List Galaxy) :=
  let s0 : DriverState :=
    { gal_list := gal_list, list_of_clusters := F.list_of_clusters, cluster_count := -1 }
  match loopM (seed_step_all F tree zbin fuel) (List.range gal_list.length)
      (s0, zbin.rfriend) with
  | .error e => .error e
  | .ok st => .ok ({ F with list_of_clusters := st.1.list_of_clusters }, st.1.gal_list)

/-- Linking radius of the pass whose seed is `A`: `zbin.link_r / A.da` in mode
"spec", `zbin.rfriend` otherwise (lines 54 and 58). The quotient is the one of
the source for `A.da ≠ 0` only: for `A.da = 0` the source computes an infinity
or NaN. -/
def pass_radius (F : FoF) (zbin : Zbin) (A : Galaxy) : ℚ :=
  if F.mode == "spec" then zbin.link_r / A.da else zbin.rfriend

/-- The conditions of `friendship` for `B` relative to `M` with radius `r`,
apart from the membership flag of `B`: distinct `num`, `bin_check`, separation
within the radius, and the velocity test in mode "spec". -/
def accepted (F : FoF) (zbin : Zbin) (r : ℚ) (M B : Galaxy) : Prop :=
  M.num ≠ B.num ∧ F.bin_check zbin B = true ∧
  F.astro.angsep M.ra M.dec B.ra B.dec ≤ r ∧
  (F.mode = "spec" → |M.v - B.v| ≤ F.link_z / (1 + M.z))

/-- Every galaxy of `rest` satisfies the conditions of `friendship` relative to
a galaxy placed before it in the member sequence `A :: rest`. -/
def link_rest (F : FoF) (zbin : Zbin) (r : ℚ) (A : Galaxy) (rest : List Galaxy) : Prop :=
  ∀ (j : Nat) (B : Galaxy), rest[j]? = some B →
    ∃ (k : Nat) (M : Galaxy), k ≤ j ∧ (A :: rest)[k]? = some M ∧ accepted F zbin r M B

/-- Linkage of a cluster for a run on the galaxy list `G`: the first member is a
galaxy `A = G[i]`, there is a second member, and every later member satisfies
the conditions of `friendship` relative to an earlier member, with the radius
of the pass of `A`. -/
def linked (F : FoF) (zbin : Zbin) (G : List Galaxy) (c : Cluster) : Prop :=
  ∃ (i : Nat) (A : Galaxy) (rest : List Galaxy), G[i]? = some A ∧ c.mem = A :: rest ∧
    rest ≠ [] ∧ link_rest F zbin (pass_radius F zbin A) A rest

/-- State of the pass of the seed `gi = gal_list[i]` with radius `r`, started in
state `s0`, once the cluster of the pass exists: the cluster list is the one of
`s0` followed by the cluster of the pass, which is the current cluster; its
first member is the seed, the flag of the seed is raised, and its later members
are linked to earlier ones. -/
def pass_inv (F : FoF) (zbin : Zbin) (i : Nat) (r : ℚ) (gi : Galaxy) (s0 s : DriverState) :
    Prop :=
  ∃ rest : List Galaxy, rest ≠ [] ∧
    s.list_of_clusters = s0.list_of_clusters ++ [⟨s0.cluster_count + 1, gi :: rest⟩] ∧
    s.cluster_count = s0.cluster_count + 1 ∧
    flag_of s.gal_list zbin.num i = some true ∧
    frame zbin.num s0.gal_list s.gal_list ∧
    link_rest F zbin r gi rest

/-- The predicate `Q` is preserved by the two updates of the seed phase of the
pass of galaxy `i` with radius `r`: creation of the cluster while the flag of
the seed is false, insertion of a friend of the seed once it is true. -/
def seed_stable (F : FoF) (zbin : Zbin) (i : Nat) (r : ℚ) (Q : DriverState → Prop) : Prop :=
  (∀ (s s1 : DriverState) (gal_now : Int) (gal_i gal_n : Galaxy),
    Q s → vec_get s.gal_list i = some gal_i → vec_get s.gal_list gal_now = some gal_n →
    vec_get gal_i.in_cluster zbin.num = some false →
    F.friendship zbin gal_i gal_n r = .ok true →
    create_cluster zbin s i gal_now gal_i gal_n = .ok s1 → Q s1) ∧
  (∀ (s s1 : DriverState) (gal_now : Int) (gal_i gal_n : Galaxy),
    Q s → vec_get s.gal_list i = some gal_i → vec_get s.gal_list gal_now = some gal_n →
    vec_get gal_i.in_cluster zbin.num = some true →
    F.friendship zbin gal_i gal_n r = .ok true →
    append_member zbin s gal_now gal_n = .ok s1 → Q s1)

/-- The predicate `Q` is preserved by the update of the growth phase with
radius `r`: insertion of a friend of a member of the current cluster. -/
def growth_stable (F : FoF) (zbin : Zbin) (r : ℚ) (Q : DriverState → Prop) : Prop :=
  ∀ (s s1 : DriverState) (ii : Nat) (gal_now : Int) (gal_m gal_n : Galaxy),
    Q s → current_member s ii = some gal_m → vec_get s.gal_list gal_now = some gal_n →
    F.friendship zbin gal_m gal_n r = .ok true →
    append_member zbin s gal_now gal_n = .ok s1 → Q s1

/-- Invariant of the galaxy loop between two passes, for a run on the galaxy
list `G0`: the list stems from `G0` by raised flags, `P` holds, `cluster_count`
is the last position of the cluster list, the local `rfriend` is `zbin.rfriend`
outside mode "spec", and every cluster is `Good` for the present list. -/
def between_passes (F : FoF) (zbin : Zbin) (G0 : List Galaxy) (P : DriverState → Prop)
    (Good : List Galaxy → Cluster → Prop) (st : DriverState × ℚ) : Prop :=
  frame zbin.num G0 st.1.gal_list ∧ P st.1 ∧
  st.1.cluster_count + 1 = (st.1.list_of_clusters.length : Int) ∧
  (F.mode ≠ "spec" → st.2 = zbin.rfriend) ∧
  ∀ c ∈ st.1.list_of_clusters, Good st.1.gal_list c

/-- What is known when the pass of the seed `gi = gal_list[i]` ends with a new
cluster `gi :: rest`: the pass started in `s0` between two passes, its seed
phase led to `s1`, its growth loop from `s1` to `s2`, and `s2` holds the
clusters of `s0` followed by the new cluster. -/
structure PassRun (F : FoF) (tree : Kdtree) (zbin : Zbin) (fuel : Nat) (G0 : List Galaxy)
    (P : DriverState → Prop) (Good : List Galaxy → Cluster → Prop)
    (i : Nat) (gi : Galaxy) (s0 s1 s2 : DriverState) (rest : List Galaxy) : Prop where
  start : between_passes F zbin G0 P Good (s0, zbin.rfriend)
  final : P s2
  entry : G0[i]? = some gi
  seed : vec_get s0.gal_list i = some gi
  flag : vec_get gi.in_cluster zbin.num = some false
  bin : F.bin_check zbin gi = true
  seed_phase : loopM (seed_node F zbin i (pass_radius F zbin gi)) tree.node_list s0 = .ok s1
  growth_phase : growth_loop F tree zbin (pass_radius F zbin gi) fuel 0 s1 = .ok s2
  after_seed : pass_inv F zbin i (pass_radius F zbin gi) gi s0 s1
  clusters : s2.list_of_clusters
    = s0.list_of_clusters ++ [⟨s0.cluster_count + 1, gi :: rest⟩]
  count : s2.cluster_count = s0.cluster_count + 1
  flags : frame zbin.num s0.gal_list s2.gal_list
  links : link_rest F zbin (pass_radius F zbin gi) gi rest
  second : rest ≠ []

/-- Every galaxy of the list is a member of some index node. -/
def index_cover (tree : Kdtree) (G : List Galaxy) : Prop :=
  ∀ g ∈ G, ∃ node ∈ tree.node_list, ∃ m ∈ node.members, m.num = g.num

/-- The node bounds are sound: every index member is a galaxy `B` of the list,
and `node_check` accepts its node for every galaxy `A` of the list and radius
`r` with `angsep(A, B) ≤ r`. -/
def index_sound (F : FoF) (tree : Kdtree) (G : List Galaxy) : Prop :=
  ∀ node ∈ tree.node_list, ∀ m ∈ node.members,
    ∃ B, vec_get G m.num = some B ∧
      ∀ A ∈ G, ∀ r : ℚ, F.astro.angsep A.ra A.dec B.ra B.dec ≤ r →
        F.node_check A node r = true

/-- The cluster `c` is complete in the galaxy list `G`, for a run on the list
`G0`: every galaxy of `G0` that satisfies the conditions of `friendship`
relative to a member of `c`, with the radius of the pass of the first member,
has its flag raised in `G`. -/
def complete (F : FoF) (zbin : Zbin) (G0 G : List Galaxy) (c : Cluster) : Prop :=
  ∀ A ∈ c.mem.head?, ∀ M ∈ c.mem, ∀ B ∈ G0,
    accepted F zbin (pass_radius F zbin A) M B → flag_of G zbin.num B.num = some true

/-- Edge of the friendship graph of the bin outside mode "spec": two galaxies
of the list that pass `bin_check` and lie within `zbin.rfriend` of each other. -/
def phot_edge (F : FoF) (zbin : Zbin) (G : List Galaxy) (g h : Galaxy) : Prop :=
  g ∈ G ∧ h ∈ G ∧ F.bin_check zbin g = true ∧ F.bin_check zbin h = true ∧
  F.astro.angsep g.ra g.dec h.ra h.dec ≤ zbin.rfriend

/-- Two galaxies are joined by a chain of galaxies of the list passing
`bin_check` in which consecutive galaxies are within `zbin.rfriend`. -/
def phot_chain (F : FoF) (zbin : Zbin) (G : List Galaxy) (g h : Galaxy) : Prop :=
  Relation.ReflTransGen (phot_edge F zbin G) g h

/-- The galaxies with the `num`s `k1` and `k2` are members of one cluster. -/
def same_cluster (clusters : List Cluster) (k1 k2 : Int) : Prop :=
  ∃ c ∈ clusters, (∃ m ∈ c.mem, m.num = k1) ∧ (∃ m ∈ c.mem, m.num = k2)

/-- The cluster `c` is closed, for a run on the list `G0`: every galaxy of `G0`
that satisfies the conditions of `friendship` with radius `zbin.rfriend`
relative to a member of `c` is a member of `c`. -/
def closed (F : FoF) (zbin : Zbin) (G0 : List Galaxy) (c : Cluster) : Prop :=
  ∀ M ∈ c.mem, ∀ B ∈ G0, accepted F zbin zbin.rfriend M B → ∃ m ∈ c.mem, m.num = B.num

/-- Invariant of the driver used for the closure of the clusters: `core_inv`,
every raised flag belongs to a member, and every member passes `bin_check`. -/
def closure_inv (F : FoF) (zbin : Zbin) (s : DriverState) : Prop :=
  (core_inv zbin.num s ∧ flagged_member zbin.num s) ∧ members_checked F zbin s

/-- The galaxy list stems from `G0` by raised flags of bin `b`, and every member
of every cluster is a galaxy of `G0`, as it was on entry. -/
def members_entry (G0 : List Galaxy) (b : Int) (s : DriverState) : Prop :=
  frame b G0 s.gal_list ∧ ∀ m ∈ all_members s.list_of_clusters, m ∈ G0

/-- A cluster list with one cluster of two and one cluster of three members
(the cluster of two holds the same galaxy a second time). -/
def two_and_three : List Cluster :=
  [⟨0, [gal_at 0 0 0 0, gal_at 1 0 0 0, gal_at 0 0 0 0]⟩,
   ⟨1, [gal_at 2 0 0 0, gal_at 3 0 0 0, gal_at 4 0 0 0]⟩]

/-! ## Linking predicates: theorems -/

theorem mode_beq_iff (F : FoF) : (F.mode == "spec") = true ↔ F.mode = "spec" := by
  simp

theorem friendship_ok_true_iff (F : FoF) (zbin : Zbin) (A B : Galaxy) (radius : ℚ) :
    F.friendship zbin A B radius = .ok true ↔
      A.num ≠ B.num ∧ F.bin_check zbin B = true ∧
      vec_get B.in_cluster zbin.num = some false ∧
      F.astro.angsep A.ra A.dec B.ra B.dec ≤ radius ∧
      (F.mode = "spec" → |A.v - B.v| ≤ F.link_z / (1 + A.z)) := by
  unfold FoF.friendship
  cases hflag : vec_get B.in_cluster zbin.num with
  | none => simp
  | some flag =>
    by_cases hm : F.mode = "spec"
    · cases flag
      · simp [hm]; tauto
      · simp [hm]
    · cases flag
      · simp [hm]; tauto
      · simp [hm]

theorem friendship_readable (F : FoF) (zbin : Zbin) (A B : Galaxy) (radius : ℚ) (x : Bool)
    (hx : vec_get B.in_cluster zbin.num = some x) :
    ∃ r, F.friendship zbin A B radius = .ok r := by
  unfold FoF.friendship
  simp only [hx]
  by_cases hm : (F.mode == "spec") = true
  · simp only [hm, if_true]; exact ⟨_, rfl⟩
  · simp only [hm, if_false]; exact ⟨_, rfl⟩

/-- C1: `friendship zbin A B radius` returns true exactly when `A.num ≠ B.num`,
`bin_check zbin B` holds, the flag `B.in_cluster[zbin.num]` is false, the
separation of `A` and `B` is at most `radius` and, in mode "spec" only, the
velocity test `|A.v - B.v| ≤ link_z / (1 + A.z)` holds. In every other mode the
result does not depend on the velocities. The call breaks off exactly when the
flag of `B` for the bin cannot be read. -/
theorem friendship_true_iff (F : FoF) (zbin : Zbin) (A B : Galaxy) (radius : ℚ) :
    (F.friendship zbin A B radius = .ok true ↔
      A.num ≠ B.num ∧ F.bin_check zbin B = true ∧
      vec_get B.in_cluster zbin.num = some false ∧
      F.astro.angsep A.ra A.dec B.ra B.dec ≤ radius ∧
      (F.mode = "spec" → |A.v - B.v| ≤ F.link_z / (1 + A.z))) ∧
    (F.mode ≠ "spec" → ∀ va vb : ℚ,
      F.friendship zbin { A with v := va } { B with v := vb } radius =
        F.friendship zbin A B radius) ∧
    ((∃ e, F.friendship zbin A B radius = .error e) ↔
      vec_get B.in_cluster zbin.num = none) := by
  refine ⟨friendship_ok_true_iff F zbin A B radius, ?_, ?_⟩
  · intro hm va vb
    unfold FoF.friendship FoF.bin_check
    simp [hm]
  · unfold FoF.friendship
    cases hflag : vec_get B.in_cluster zbin.num with
    | none => simp
    | some flag =>
      by_cases hm : F.mode = "spec" <;> simp [hm]

/-- C2: in mode "spec" `bin_check` is true for every bin and galaxy; in every
other mode it is true exactly when `|g.z - zbin.z| ≤ link_z * g.dz`, hence false
when the distance exceeds that window, and of the bin only `zbin.z` matters. -/
theorem bin_check_by_mode (F : FoF) (zbin : Zbin) (g : Galaxy) :
    (F.mode = "spec" → F.bin_check zbin g = true) ∧
    (F.mode ≠ "spec" →
      (F.bin_check zbin g = true ↔ |g.z - zbin.z| ≤ F.link_z * g.dz)) ∧
    (F.mode ≠ "spec" → |g.z - zbin.z| > F.link_z * g.dz → F.bin_check zbin g = false) ∧
    (∀ zbin1 : Zbin, zbin1.z = zbin.z → F.bin_check zbin1 g = F.bin_check zbin g) := by
  refine ⟨?_, ?_, ?_, ?_⟩
  · intro hm
    simp [FoF.bin_check, hm]
  · intro hm
    simp [FoF.bin_check, hm]
  · intro hm hgt
    simp [FoF.bin_check, hm, hgt]
  · intro zbin1 hz
    simp [FoF.bin_check, hz]

theorem node_check_of_triangle (F : FoF) (node : Kdtree_node) (A B : Galaxy) (r : ℚ)
    (hsymm : ∀ a b c d : ℚ, F.astro.angsep a b c d = F.astro.angsep c d a b)
    (htri : ∀ a b c d e f : ℚ,
      F.astro.angsep a b e f ≤ F.astro.angsep a b c d + F.astro.angsep c d e f)
    (hbound : F.astro.angsep node.ra node.dec B.ra B.dec ≤ node.radius)
    (hAB : F.astro.angsep A.ra A.dec B.ra B.dec ≤ r) :
    F.astro.angsep A.ra A.dec node.ra node.dec - node.radius ≤ r := by
  have h1 := htri A.ra A.dec B.ra B.dec node.ra node.dec
  have h2 := hsymm B.ra B.dec node.ra node.dec
  linarith

/-- C3: pruning soundness of `node_check`. If the separation is symmetric and
satisfies the triangle inequality, and the radius of the node bounds the
separation from its centroid to the member `B`, then `node_check A node r` is
true, and equals the test `angsep(A, centroid) - node.radius ≤ r`, whenever
`angsep(A, B) ≤ r`. -/
theorem node_check_sound (F : FoF) (node : Kdtree_node) (A B : Galaxy) (r : ℚ)
    (hsymm : ∀ a b c d : ℚ, F.astro.angsep a b c d = F.astro.angsep c d a b)
    (htri : ∀ a b c d e f : ℚ,
      F.astro.angsep a b e f ≤ F.astro.angsep a b c d + F.astro.angsep c d e f)
    (hbound : F.astro.angsep node.ra node.dec B.ra B.dec ≤ node.radius)
    (hAB : F.astro.angsep A.ra A.dec B.ra B.dec ≤ r) :
    F.node_check A node r = true ∧
    (F.node_check A node r = true ↔
      F.astro.angsep A.ra A.dec node.ra node.dec - node.radius ≤ r) := by
  have hle := node_check_of_triangle F node A B r hsymm htri hbound hAB
  simp [FoF.node_check, hle]

theorem plane_astro_symm (a b c d : ℚ) :
    plane_astro.angsep a b c d = plane_astro.angsep c d a b := by
  simp [plane_astro, abs_sub_comm]

theorem plane_astro_triangle (a b c d e f : ℚ) :
    plane_astro.angsep a b e f ≤ plane_astro.angsep a b c d + plane_astro.angsep c d e f := by
  have h1 := abs_sub_le a c e
  have h2 := abs_sub_le b d f
  simp only [plane_astro]
  linarith

/-- Instance of `node_check_sound`: a node centred at the origin with radius 1
holding a member at distance 1, queried from distance 3 with radius 2. -/
theorem node_check_sound_witness :
    spec_fof.node_check (gal_at 0 3 0 0) ⟨0, 0, 1, [⟨1⟩]⟩ 2 = true ∧
    (spec_fof.node_check (gal_at 0 3 0 0) ⟨0, 0, 1, [⟨1⟩]⟩ 2 = true ↔
      spec_fof.astro.angsep (gal_at 0 3 0 0).ra (gal_at 0 3 0 0).dec 0 0 - 1 ≤ 2) :=
  node_check_sound spec_fof ⟨0, 0, 1, [⟨1⟩]⟩ (gal_at 0 3 0 0) (gal_at 1 1 0 0) 2
    plane_astro_symm plane_astro_triangle
    (by norm_num [spec_fof, plane_astro, gal_at])
    (by norm_num [spec_fof, plane_astro, gal_at])

/-! ## Galaxy construction -/

/-- C9: the constructor of mode "spec" fails exactly when `z < 0`, naming
"z_val" and ">= 0.0"; the constructor of mode "phot" fails exactly when `z ≤ 0`
or `dz ≤ 0`, naming "z_val" and "> 0.0" when `z ≤ 0` and otherwise "dz_val" and
"> 0.0". A constructed galaxy carries the given redshift (and error), so that
`z ≥ 0`, respectively `z > 0` and `dz > 0`. -/
theorem galaxy_construction_validation (num_val : Int) (id_val : Nat)
    (ra_val dec_val z_val dz_val junk : ℚ) :
    ((∃ e, Galaxy.new_spec num_val id_val ra_val dec_val z_val junk = .error e) ↔ z_val < 0) ∧
    (∀ e, Galaxy.new_spec num_val id_val ra_val dec_val z_val junk = .error e →
      e = ⟨"Galaxy", "z_val", ">= 0.0"⟩) ∧
    (∀ g, Galaxy.new_spec num_val id_val ra_val dec_val z_val junk = .ok g →
      g.z = z_val ∧ 0 ≤ g.z) ∧
    ((∃ e, Galaxy.new_phot num_val id_val ra_val dec_val z_val dz_val junk = .error e) ↔
      (z_val ≤ 0 ∨ dz_val ≤ 0)) ∧
    (∀ e, Galaxy.new_phot num_val id_val ra_val dec_val z_val dz_val junk = .error e →
      (z_val ≤ 0 → e = ⟨"Galaxy", "z_val", "> 0.0"⟩) ∧
      (¬ z_val ≤ 0 → e = ⟨"Galaxy", "dz_val", "> 0.0"⟩)) ∧
    (∀ g, Galaxy.new_phot num_val id_val ra_val dec_val z_val dz_val junk = .ok g →
      g.z = z_val ∧ g.dz = dz_val ∧ 0 < g.z ∧ 0 < g.dz) := by
  refine ⟨?_, ?_, ?_, ?_, ?_, ?_⟩
  · unfold Galaxy.new_spec
    by_cases hz : z_val < 0 <;> simp [hz]
  · intro e
    unfold Galaxy.new_spec
    by_cases hz : z_val < 0
    · simp only [hz, if_true, Except.error.injEq]
      intro h
      exact h.symm
    · simp [hz]
  · intro g
    unfold Galaxy.new_spec
    by_cases hz : z_val < 0
    · simp [hz]
    · simp only [hz, if_false, Except.ok.injEq]
      intro h
      subst h
      exact ⟨rfl, not_lt.mp hz⟩
  · unfold Galaxy.new_phot
    by_cases hz : z_val ≤ 0
    · simp [hz]
    · by_cases hdz : dz_val ≤ 0 <;> simp [hz, hdz]
  · intro e
    unfold Galaxy.new_phot
    by_cases hz : z_val ≤ 0
    · simp only [hz, if_true, Except.error.injEq]
      intro h
      exact ⟨fun _ => h.symm, fun hn => absurd trivial hn⟩
    · by_cases hdz : dz_val ≤ 0
      · simp only [hz, hdz, if_true, if_false, Except.error.injEq]
        intro h
        exact ⟨fun hf => absurd hf (by simp), fun _ => h.symm⟩
      · simp [hz, hdz]
  · intro g
    unfold Galaxy.new_phot
    by_cases hz : z_val ≤ 0
    · simp [hz]
    · by_cases hdz : dz_val ≤ 0
      · simp [hz, hdz]
      · simp only [hz, hdz, if_false, Except.ok.injEq]
        intro h
        subst h
        exact ⟨rfl, rfl, not_le.mp hz, not_le.mp hdz⟩

/-! ## Deduplication -/

theorem unique_mem_sublist (l : List Galaxy) : (unique_mem l).Sublist l := by
  induction l with
  | nil => exact List.Sublist.refl _
  | cons gal rest ih =>
    simp only [unique_mem]
    exact ((List.filter_sublist _).trans ih).cons₂ gal

theorem unique_mem_pairwise (l : List Galaxy) :
    (unique_mem l).Pairwise (fun a b => Galaxy.eq a b = false) := by
  induction l with
  | nil => simp [unique_mem]
  | cons gal rest ih =>
    simp only [unique_mem, List.pairwise_cons]
    refine ⟨?_, ih.filter _⟩
    intro b hb
    have := (List.mem_filter.mp hb).2
    simpa using this

theorem unique_mem_fixed (l : List Galaxy)
    (h : l.Pairwise (fun a b => Galaxy.eq a b = false)) : unique_mem l = l := by
  induction l with
  | nil => rfl
  | cons gal rest ih =>
    rw [List.pairwise_cons] at h
    simp only [unique_mem, ih h.2, List.cons.injEq, true_and]
    rw [List.filter_eq_self]
    intro b hb
    simp [h.1 b hb]

theorem unique_mem_length_le (l : List Galaxy) : (unique_mem l).length ≤ l.length :=
  (unique_mem_sublist l).length_le

/-- C6: deduplicating a cluster twice gives the same member sequence as
deduplicating it once, and after deduplication no two members at different
positions are equal under `operator==` (equal `id`). -/
theorem unique_idempotent (c : Cluster) :
    c.unique.unique = c.unique ∧
    c.unique.mem.Pairwise (fun a b => Galaxy.eq a b = false) := by
  refine ⟨?_, unique_mem_pairwise c.mem⟩
  simp only [Cluster.unique]
  rw [unique_mem_fixed _ (unique_mem_pairwise c.mem)]

/-! ## Post-processing -/

theorem remove_mark_fold (w : Nat) (min_ngal : Int) (todo : List Cluster) :
    ∀ (pre : List Cluster) (rl : List Nat),
      (List.range' pre.length todo.length).foldl (remove_mark w min_ngal) (pre ++ todo, rl) =
        (pre ++ todo.map Cluster.unique, rl ++ marked_from w min_ngal pre.length todo) := by
  induction todo with
  | nil => intro pre rl; simp [marked_from]
  | cons c rest ih =>
    intro pre rl
    have hget : (pre ++ c :: rest)[pre.length]? = some c := by
      rw [List.getElem?_append_right (le_refl _)]
      simp
    have hset : (pre ++ c :: rest).set pre.length c.unique = (pre ++ [c.unique]) ++ rest := by
      rw [List.set_append_right _ _ (le_refl _)]
      simp
    have hlen : (pre ++ [c.unique]).length = pre.length + 1 := by simp
    simp only [List.length_cons, List.range'_succ, List.foldl_cons]
    have hstep : remove_mark w min_ngal (pre ++ c :: rest, rl) pre.length =
        ((pre ++ [c.unique]) ++ rest,
          rl ++ (if too_small w min_ngal c.unique then [pre.length] else [])) := by
      simp only [remove_mark, hget, hset, too_small]
      by_cases hs : (c.unique.mem.length : Int) < min_ngal % (2 : Int) ^ w <;> simp [hs]
    rw [hstep, ← hlen, ih (pre ++ [c.unique]), hlen]
    simp [marked_from]

theorem remove_erase_marked (w : Nat) (min_ngal : Int) (todo : List Cluster) :
    ∀ pre : List Cluster,
      remove_erase (pre ++ todo.map Cluster.unique) (marked_from w min_ngal pre.length todo) =
        pre ++ (todo.map Cluster.unique).filter (fun c => !(too_small w min_ngal c)) := by
  induction todo with
  | nil => intro pre; simp [marked_from, remove_erase]
  | cons c rest ih =>
    intro pre
    have hlen : (pre ++ [c.unique]).length = pre.length + 1 := by simp
    have ih1 := ih (pre ++ [c.unique])
    rw [hlen] at ih1
    simp only [remove_erase] at ih1 ⊢
    simp only [marked_from, List.reverse_append, List.foldl_append, List.map_cons]
    have hreassoc : pre ++ c.unique :: rest.map Cluster.unique =
        (pre ++ [c.unique]) ++ rest.map Cluster.unique := by simp
    rw [hreassoc, ih1]
    by_cases hs : too_small w min_ngal c.unique = true
    · simp only [hs, if_true, List.reverse_cons, List.reverse_nil, List.nil_append,
        List.foldl_cons, List.foldl_nil, List.append_assoc, List.singleton_append]
      rw [List.eraseIdx_append_of_length_le (le_refl _)]
      simp [List.filter_cons, hs]
    · simp [List.filter_cons, hs]

theorem remove_eq_filter (F : FoF) (w : Nat) (min_ngal : Int) :
    (F.remove w min_ngal).list_of_clusters =
      (F.list_of_clusters.map Cluster.unique).filter (fun c => !(too_small w min_ngal c)) := by
  have h1 := remove_mark_fold w min_ngal F.list_of_clusters [] []
  have h2 := remove_erase_marked w min_ngal F.list_of_clusters []
  simp only [List.nil_append, List.length_nil] at h1 h2
  simp only [FoF.remove, List.range_eq_range', h1, h2]

/-- C5: for `0 < min_ngal < 2 ^ w`, `remove` leaves the original clusters, each
deduplicated, of which exactly those with at least `min_ngal` members after
deduplication are kept, in their original order. No cluster is added, every
kept cluster is the deduplication of an original one (so none grows) and has at
least `min_ngal` members. -/
theorem remove_keeps_large (F : FoF) (w : Nat) (min_ngal : Int)
    (hpos : 0 < min_ngal) (hfit : min_ngal < (2 : Int) ^ w) :
    (F.remove w min_ngal).list_of_clusters =
      (F.list_of_clusters.map Cluster.unique).filter
        (fun c => decide (min_ngal ≤ (c.mem.length : Int))) ∧
    ((F.remove w min_ngal).list_of_clusters).Sublist (F.list_of_clusters.map Cluster.unique) ∧
    (F.remove w min_ngal).list_of_clusters.length ≤ F.list_of_clusters.length ∧
    (∀ c ∈ (F.remove w min_ngal).list_of_clusters,
      min_ngal ≤ (c.mem.length : Int) ∧
      ∃ c0 ∈ F.list_of_clusters, c = c0.unique ∧ c.num = c0.num ∧ c.mem.Sublist c0.mem ∧
        c.mem.length ≤ c0.mem.length) ∧
    (∀ c0 ∈ F.list_of_clusters, (c0.unique.mem.length : Int) < min_ngal →
      ∀ c ∈ (F.remove w min_ngal).list_of_clusters, c.mem ≠ c0.unique.mem) := by
  have hmod : min_ngal % (2 : Int) ^ w = min_ngal := Int.emod_eq_of_lt (le_of_lt hpos) hfit
  have hfun : (fun c : Cluster => !(too_small w min_ngal c)) =
      (fun c => decide (min_ngal ≤ (c.mem.length : Int))) := by
    funext c
    by_cases h : min_ngal ≤ (c.mem.length : Int)
    · simp [too_small, hmod, h, not_lt.mpr h]
    · simp [too_small, hmod, h, not_le.mp h]
  have heq := remove_eq_filter F w min_ngal
  rw [hfun] at heq
  have hmem : ∀ c ∈ (F.remove w min_ngal).list_of_clusters,
      min_ngal ≤ (c.mem.length : Int) ∧ ∃ c0 ∈ F.list_of_clusters, c = c0.unique := by
    intro c hc
    rw [heq, List.mem_filter, List.mem_map] at hc
    obtain ⟨⟨c0, hc0, rfl⟩, hsz⟩ := hc
    exact ⟨by simpa using hsz, c0, hc0, rfl⟩
  refine ⟨heq, ?_, ?_, ?_, ?_⟩
  · rw [heq]
    exact List.filter_sublist _
  · rw [heq]
    calc (List.filter _ (F.list_of_clusters.map Cluster.unique)).length
        ≤ (F.list_of_clusters.map Cluster.unique).length := List.length_filter_le _ _
      _ = F.list_of_clusters.length := List.length_map _ _
  · intro c hc
    obtain ⟨hsz, c0, hc0, rfl⟩ := hmem c hc
    exact ⟨hsz, c0, hc0, rfl, rfl, unique_mem_sublist c0.mem, unique_mem_length_le c0.mem⟩
  · intro c0 _ hsmall c hc hmemeq
    have hsz := (hmem c hc).1
    rw [hmemeq] at hsz
    omega

/-- Instance of `remove_keeps_large` with `min_ngal = 3` on a list holding a
cluster of deduplicated size 2 and a cluster of size 3: only the latter stays. -/
theorem remove_keeps_large_witness :
    (({ spec_fof with list_of_clusters := two_and_three } : FoF).remove 64 3).list_of_clusters.map
        (fun c => (c.num, c.mem.map (fun g => g.num))) = [(1, [2, 3, 4])] := by
  rw [(remove_keeps_large { spec_fof with list_of_clusters := two_and_three } 64 3
    (by decide) (by decide)).1]
  decide

/-! ## Vector access: basic facts -/

theorem vec_get_some_iff {α : Type} (xs : List α) (i : Int) (x : α) :
    vec_get xs i = some x ↔ 0 ≤ i ∧ xs[i.toNat]? = some x := by
  unfold vec_get
  by_cases h : 0 ≤ i <;> simp [h]

theorem vec_get_nat {α : Type} (xs : List α) (k : Nat) : vec_get xs (k : Int) = xs[k]? := by
  simp [vec_get]

theorem vec_get_lt {α : Type} {xs : List α} {i : Int} {x : α} (h : vec_get xs i = some x) :
    0 ≤ i ∧ i.toNat < xs.length ∧ ((i.toNat : Nat) : Int) = i := by
  rw [vec_get_some_iff] at h
  obtain ⟨h0, h1⟩ := h
  obtain ⟨hlt, _⟩ := List.getElem?_eq_some_iff.mp h1
  exact ⟨h0, hlt, Int.toNat_of_nonneg h0⟩

theorem vec_get_of_lt {α : Type} (xs : List α) (i : Int) (h0 : 0 ≤ i) (h1 : i < xs.length) :
    ∃ x, vec_get xs i = some x := by
  have hlt : i.toNat < xs.length := by omega
  exact ⟨xs[i.toNat], by rw [vec_get_some_iff]; exact ⟨h0, List.getElem?_eq_getElem hlt⟩⟩

theorem vec_update_some_iff {α : Type} (xs ys : List α) (i : Int) (f : α → α) :
    vec_update xs i f = some ys ↔ ∃ x, vec_get xs i = some x ∧ ys = xs.set i.toNat (f x) := by
  unfold vec_update
  cases h : vec_get xs i with
  | none => simp
  | some x =>
    simp only [Option.some.injEq, exists_eq_left']
    exact eq_comm

theorem loopM_nil {σ α : Type} (body : σ → α → Except Fault σ) (s : σ) :
    loopM body [] s = .ok s := rfl

theorem loopM_cons_ok {σ α : Type} (body : σ → α → Except Fault σ) (a : α) (rest : List α)
    (s s1 : σ) (h : body s a = .ok s1) : loopM body (a :: rest) s = loopM body rest s1 := by
  simp [loopM, h]

theorem loopM_cons_inv {σ α : Type} (body : σ → α → Except Fault σ) (a : α) (rest : List α)
    (s s2 : σ) (h : loopM body (a :: rest) s = .ok s2) :
    ∃ s1, body s a = .ok s1 ∧ loopM body rest s1 = .ok s2 := by
  unfold loopM at h
  cases hb : body s a with
  | error e => rw [hb] at h; cases h
  | ok s1 => rw [hb] at h; exact ⟨s1, rfl, h⟩

/-- Partial-correctness rule for `loopM`: a predicate preserved by every
successful execution of the body holds after the loop if it held before. -/
theorem loopM_invariant {σ α : Type} (P : σ → Prop) (body : σ → α → Except Fault σ)
    (l : List α)
    (hstep : ∀ s a s1, a ∈ l → P s → body s a = .ok s1 → P s1) :
    ∀ s s1, P s → loopM body l s = .ok s1 → P s1 := by
  induction l with
  | nil =>
    intro s s1 hP h
    simp only [loopM, Except.ok.injEq] at h
    exact h ▸ hP
  | cons a rest ih =>
    intro s s2 hP h
    obtain ⟨s1, hb, hrest⟩ := loopM_cons_inv body a rest s s2 h
    exact ih (fun t b t1 hb1 => hstep t b t1 (List.mem_cons_of_mem a hb1)) s1 s2
      (hstep s a s1 (List.mem_cons_self a rest) hP hb) hrest

/-- Total-correctness rule for `loopM` with a predicate indexed by the part of
the vector already processed. -/
theorem loopM_total {σ α : Type} (P : List α → σ → Prop) (body : σ → α → Except Fault σ)
    (l : List α)
    (hstep : ∀ pre a s, (∃ post, l = pre ++ a :: post) → P pre s →
      ∃ s1, body s a = .ok s1 ∧ P (pre ++ [a]) s1) :
    ∀ s, P [] s → ∃ s1, loopM body l s = .ok s1 ∧ P l s1 := by
  suffices hgen : ∀ (todo pre : List α) (s : σ), l = pre ++ todo → P pre s →
      ∃ s1, loopM body todo s = .ok s1 ∧ P l s1 from
    fun s hP => hgen l [] s rfl hP
  intro todo
  induction todo with
  | nil =>
    intro pre s hl hP
    rw [List.append_nil] at hl
    exact ⟨s, rfl, hl ▸ hP⟩
  | cons a rest ih =>
    intro pre s hl hP
    obtain ⟨s1, hb, hP1⟩ := hstep pre a s ⟨rest, hl⟩ hP
    obtain ⟨s2, hloop, hP2⟩ := ih (pre ++ [a]) s1 (by rw [hl]; simp) hP1
    exact ⟨s2, by rw [loopM_cons_ok body a rest s s1 hb]; exact hloop, hP2⟩

/-! ## Membership flags: effect of the assignments -/

theorem raised_refl (b : Int) (g : Galaxy) : Galaxy.raised b g g := Or.inl rfl

theorem raised_trans (b : Int) (g h k : Galaxy) (h1 : Galaxy.raised b g h)
    (h2 : Galaxy.raised b h k) : Galaxy.raised b g k := by
  rcases h1 with rfl | rfl
  · exact h2
  · rcases h2 with rfl | rfl
    · exact Or.inr rfl
    · exact Or.inr (by simp [List.set_set])

theorem raised_fields (b : Int) (g h : Galaxy) (hr : Galaxy.raised b g h) :
    h.num = g.num ∧ h.bin = g.bin ∧ h.ra = g.ra ∧ h.dec = g.dec ∧ h.z = g.z ∧ h.dz = g.dz ∧
    h.da = g.da ∧ h.v = g.v ∧ h.id = g.id ∧ h.in_cluster.length = g.in_cluster.length := by
  rcases hr with rfl | rfl <;> simp

theorem raised_flag_true (b : Int) (g h : Galaxy) (hr : Galaxy.raised b g h)
    (hf : vec_get g.in_cluster b = some true) : vec_get h.in_cluster b = some true := by
  rcases hr with rfl | rfl
  · exact hf
  · rw [vec_get_some_iff] at hf ⊢
    obtain ⟨h0, h1⟩ := hf
    obtain ⟨hlt, _⟩ := List.getElem?_eq_some_iff.mp h1
    exact ⟨h0, List.getElem?_set_self hlt⟩

theorem raised_flag_readable (b : Int) (g h : Galaxy) (hr : Galaxy.raised b g h) (j : Int)
    (x : Bool) (hf : vec_get g.in_cluster j = some x) : ∃ y, vec_get h.in_cluster j = some y := by
  obtain ⟨h0, hlt, _⟩ := vec_get_lt hf
  have hlen := (raised_fields b g h hr).2.2.2.2.2.2.2.2.2
  exact vec_get_of_lt _ _ h0 (by omega)

theorem bin_check_raised (F : FoF) (zbin : Zbin) (b : Int) (g h : Galaxy)
    (hr : Galaxy.raised b g h) : F.bin_check zbin h = F.bin_check zbin g := by
  obtain ⟨_, _, _, _, hz, hdz, _⟩ := raised_fields b g h hr
  simp [FoF.bin_check, hz, hdz]

theorem frame_refl (b : Int) (G : List Galaxy) : frame b G G :=
  ⟨rfl, fun _ g hg => ⟨g, hg, raised_refl b g⟩⟩

theorem frame_trans (b : Int) (G G1 G2 : List Galaxy) (h1 : frame b G G1)
    (h2 : frame b G1 G2) : frame b G G2 := by
  refine ⟨h2.1.trans h1.1, ?_⟩
  intro k g hg
  obtain ⟨h, hh, hr1⟩ := h1.2 k g hg
  obtain ⟨h', hh', hr2⟩ := h2.2 k h hh
  exact ⟨h', hh', raised_trans b g h h' hr1 hr2⟩

theorem frame_vec_get (b : Int) (G G1 : List Galaxy) (hf : frame b G G1) (k : Int)
    (g : Galaxy) (hg : vec_get G k = some g) :
    ∃ h, vec_get G1 k = some h ∧ Galaxy.raised b g h := by
  rw [vec_get_some_iff] at hg
  obtain ⟨h, hh, hr⟩ := hf.2 k.toNat g hg.2
  exact ⟨h, by rw [vec_get_some_iff]; exact ⟨hg.1, hh⟩, hr⟩

theorem frame_vec_get_back (b : Int) (G G1 : List Galaxy) (hf : frame b G G1) (k : Int)
    (h : Galaxy) (hh : vec_get G1 k = some h) :
    ∃ g, vec_get G k = some g ∧ Galaxy.raised b g h := by
  obtain ⟨h0, hlt, _⟩ := vec_get_lt hh
  obtain ⟨g, hg⟩ := vec_get_of_lt G k h0 (by have := hf.1; omega)
  obtain ⟨h', hh', hr⟩ := frame_vec_get b G G1 hf k g hg
  rw [hh] at hh'
  cases hh'
  exact ⟨g, hg, hr⟩

theorem frame_dense (b : Int) (G G1 : List Galaxy) (hf : frame b G G1) (hd : dense G) :
    dense G1 := by
  intro k h hh
  have hh' : vec_get G1 (k : Int) = some h := by rw [vec_get_nat]; exact hh
  obtain ⟨g, hg, hr⟩ := frame_vec_get_back b G G1 hf k h hh'
  rw [vec_get_nat] at hg
  rw [(raised_fields b g h hr).1]
  exact hd k g hg

theorem set_in_cluster_some {G G1 : List Galaxy} {g b : Int}
    (h : set_in_cluster G g b = some G1) :
    ∃ gal, vec_get G g = some gal ∧ (∃ x, vec_get gal.in_cluster b = some x) ∧
      G1 = G.set g.toNat { gal with in_cluster := gal.in_cluster.set b.toNat true } := by
  unfold set_in_cluster at h
  cases hg : vec_get G g with
  | none => rw [hg] at h; cases h
  | some gal =>
    rw [hg] at h
    simp only at h
    cases hu : vec_update gal.in_cluster b (fun _ => true) with
    | none => rw [hu] at h; cases h
    | some flags =>
      rw [hu] at h
      simp only at h
      obtain ⟨x, hx, rfl⟩ := (vec_update_some_iff _ _ _ _).mp hu
      obtain ⟨gal', hg', hG1⟩ := (vec_update_some_iff _ _ _ _).mp h
      rw [hg] at hg'
      cases hg'
      exact ⟨gal, rfl, ⟨x, hx⟩, hG1⟩

theorem set_in_cluster_of_readable {G : List Galaxy} {g b : Int} {gal : Galaxy} {x : Bool}
    (hg : vec_get G g = some gal) (hx : vec_get gal.in_cluster b = some x) :
    ∃ G1, set_in_cluster G g b = some G1 := by
  simp [set_in_cluster, vec_update, hg, hx]

theorem set_in_cluster_frame {G G1 : List Galaxy} {g b : Int}
    (h : set_in_cluster G g b = some G1) : frame b G G1 := by
  obtain ⟨gal, hg, _, rfl⟩ := set_in_cluster_some h
  refine ⟨by simp, ?_⟩
  intro k x hx
  by_cases hk : g.toNat = k
  · subst hk
    have hgx : G[g.toNat]? = some gal := ((vec_get_some_iff _ _ _).mp hg).2
    rw [hgx] at hx
    cases hx
    obtain ⟨hlt, _⟩ := List.getElem?_eq_some_iff.mp hgx
    exact ⟨_, List.getElem?_set_self hlt, Or.inr rfl⟩
  · exact ⟨x, by rw [List.getElem?_set_ne hk]; exact hx, raised_refl b x⟩

theorem set_in_cluster_flag {G G1 : List Galaxy} {g b : Int}
    (h : set_in_cluster G g b = some G1) : flag_of G1 b g = some true := by
  obtain ⟨gal, hg, ⟨x, hx⟩, rfl⟩ := set_in_cluster_some h
  obtain ⟨h0, hlt, _⟩ := vec_get_lt hg
  obtain ⟨hb0, hblt, _⟩ := vec_get_lt hx
  have h1 : vec_get (G.set g.toNat { gal with in_cluster := gal.in_cluster.set b.toNat true }) g
      = some { gal with in_cluster := gal.in_cluster.set b.toNat true } := by
    rw [vec_get_some_iff]
    exact ⟨h0, List.getElem?_set_self hlt⟩
  simp only [flag_of, h1]
  rw [vec_get_some_iff]
  exact ⟨hb0, List.getElem?_set_self hblt⟩

theorem set_in_cluster_other {G G1 : List Galaxy} {g b : Int}
    (h : set_in_cluster G g b = some G1) (k : Int) (hk : k ≠ g) :
    vec_get G1 k = vec_get G k := by
  obtain ⟨gal, hg, _, rfl⟩ := set_in_cluster_some h
  obtain ⟨h0, _, _⟩ := vec_get_lt hg
  unfold vec_get
  by_cases hk0 : 0 ≤ k
  · simp only [hk0, if_true]
    rw [List.getElem?_set_ne]
    intro heq
    apply hk
    have h1 := Int.toNat_of_nonneg h0
    have h2 := Int.toNat_of_nonneg hk0
    omega
  · simp [hk0]

theorem flag_of_frame_true (b : Int) (G G1 : List Galaxy) (hf : frame b G G1) (k : Int)
    (h : flag_of G b k = some true) : flag_of G1 b k = some true := by
  unfold flag_of at h ⊢
  cases hg : vec_get G k with
  | none => rw [hg] at h; cases h
  | some g =>
    rw [hg] at h
    obtain ⟨g1, hg1, hr⟩ := frame_vec_get b G G1 hf k g hg
    rw [hg1]
    exact raised_flag_true b g g1 hr h

/-! ## Effect of cluster creation and member insertion -/

theorem all_members_set_add (g : Galaxy) (clusters : List Cluster) :
    ∀ (k : Nat) (c : Cluster), clusters[k]? = some c →
      (all_members (clusters.set k (c.add_gal g))).Perm (all_members clusters ++ [g]) := by
  induction clusters with
  | nil => intro k c h; simp at h
  | cons c0 rest ih =>
    intro k c h
    cases k with
    | zero =>
      simp only [List.getElem?_cons_zero, Option.some.injEq] at h
      subst h
      simp only [List.set_cons_zero, all_members, List.flatMap_cons, Cluster.add_gal,
        List.append_assoc]
      exact List.Perm.append_left _ List.perm_append_comm
    | succ k =>
      simp only [List.getElem?_cons_succ] at h
      have := ih k c h
      simp only [List.set_cons_succ, all_members, List.flatMap_cons, List.append_assoc] at this ⊢
      exact List.Perm.append_left _ this

theorem all_members_append (l1 l2 : List Cluster) :
    all_members (l1 ++ l2) = all_members l1 ++ all_members l2 := by
  simp [all_members, List.flatMap_append]

theorem create_cluster_ok {zbin : Zbin} {s s1 : DriverState} {i : Nat} {gal_now : Int}
    {gal_i gal_n : Galaxy} (h : create_cluster zbin s i gal_now gal_i gal_n = .ok s1) :
    s1.list_of_clusters = s.list_of_clusters ++ [⟨s.cluster_count + 1, [gal_i, gal_n]⟩] ∧
    s1.cluster_count = s.cluster_count + 1 ∧
    frame zbin.num s.gal_list s1.gal_list ∧
    flag_of s1.gal_list zbin.num i = some true ∧
    flag_of s1.gal_list zbin.num gal_now = some true ∧
    (∀ k : Int, k ≠ i → k ≠ gal_now → vec_get s1.gal_list k = vec_get s.gal_list k) := by
  unfold create_cluster at h
  cases h1 : set_in_cluster s.gal_list i zbin.num with
  | none => rw [h1] at h; cases h
  | some gals1 =>
    rw [h1] at h
    simp only at h
    cases h2 : set_in_cluster gals1 gal_now zbin.num with
    | none => rw [h2] at h; cases h
    | some gals2 =>
      rw [h2] at h
      simp only [Except.ok.injEq] at h
      subst h
      refine ⟨by simp [Cluster.add_gal], rfl, ?_, ?_, set_in_cluster_flag h2, ?_⟩
      · exact frame_trans _ _ _ _ (set_in_cluster_frame h1) (set_in_cluster_frame h2)
      · exact flag_of_frame_true _ _ _ (set_in_cluster_frame h2) _ (set_in_cluster_flag h1)
      · intro k hk1 hk2
        simp only
        rw [set_in_cluster_other h2 k hk2, set_in_cluster_other h1 k hk1]

theorem append_member_ok {zbin : Zbin} {s s1 : DriverState} {gal_now : Int} {gal_n : Galaxy}
    (h : append_member zbin s gal_now gal_n = .ok s1) :
    (∃ c, vec_get s.list_of_clusters s.cluster_count = some c ∧
      s1.list_of_clusters = s.list_of_clusters.set s.cluster_count.toNat (c.add_gal gal_n)) ∧
    s1.cluster_count = s.cluster_count ∧
    frame zbin.num s.gal_list s1.gal_list ∧
    flag_of s1.gal_list zbin.num gal_now = some true ∧
    (∀ k : Int, k ≠ gal_now → vec_get s1.gal_list k = vec_get s.gal_list k) := by
  unfold append_member at h
  cases h1 : vec_update s.list_of_clusters s.cluster_count (fun c => c.add_gal gal_n) with
  | none => rw [h1] at h; cases h
  | some clusters =>
    rw [h1] at h
    simp only at h
    cases h2 : set_in_cluster s.gal_list gal_now zbin.num with
    | none => rw [h2] at h; cases h
    | some gals =>
      rw [h2] at h
      simp only [Except.ok.injEq] at h
      subst h
      obtain ⟨c, hc, hcl⟩ := (vec_update_some_iff _ _ _ _).mp h1
      exact ⟨⟨c, hc, hcl⟩, rfl, set_in_cluster_frame h2, set_in_cluster_flag h2,
        fun k hk => set_in_cluster_other h2 k hk⟩

theorem append_member_members {zbin : Zbin} {s s1 : DriverState} {gal_now : Int}
    {gal_n : Galaxy} (h : append_member zbin s gal_now gal_n = .ok s1) :
    (all_members s1.list_of_clusters).Perm (all_members s.list_of_clusters ++ [gal_n]) := by
  obtain ⟨⟨c, hc, hcl⟩, _⟩ := append_member_ok h
  rw [hcl]
  exact all_members_set_add gal_n _ _ c ((vec_get_some_iff _ _ _).mp hc).2

theorem create_cluster_members {zbin : Zbin} {s s1 : DriverState} {i : Nat} {gal_now : Int}
    {gal_i gal_n : Galaxy} (h : create_cluster zbin s i gal_now gal_i gal_n = .ok s1) :
    all_members s1.list_of_clusters = all_members s.list_of_clusters ++ [gal_i, gal_n] := by
  rw [(create_cluster_ok h).1, all_members_append]
  simp [all_members]

/-! ## Invariants of the driver: partial correctness -/

theorem seed_member_frame (F : FoF) (zbin : Zbin) (i : Nat) (rfriend : ℚ)
    (s s1 : DriverState) (m : Kdtree_member)
    (h : seed_member F zbin i rfriend s m = .ok s1) :
    frame zbin.num s.gal_list s1.gal_list := by
  unfold seed_member at h
  cases hgi : vec_get s.gal_list i with
  | none => simp [hgi] at h
  | some gal_i =>
    cases hgn : vec_get s.gal_list m.num with
    | none => simp [hgi, hgn] at h
    | some gal_n =>
      simp only [hgi, hgn] at h
      cases hfr : F.friendship zbin gal_i gal_n rfriend with
      | error e => simp [hfr] at h
      | ok fr =>
        cases fr with
        | false =>
          simp only [hfr, Except.ok.injEq] at h
          subst h
          exact frame_refl _ _
        | true =>
          simp only [hfr] at h
          cases hfl : vec_get gal_i.in_cluster zbin.num with
          | none => simp [hfl] at h
          | some fl =>
            cases fl with
            | false =>
              simp only [hfl] at h
              exact (create_cluster_ok h).2.2.1
            | true =>
              simp only [hfl] at h
              exact (append_member_ok h).2.2.1

theorem seed_member_invariant (F : FoF) (zbin : Zbin) (P : DriverState → Prop)
    (hP : update_stable F zbin P) (i : Nat) (rfriend : ℚ)
    (s s1 : DriverState) (m : Kdtree_member)
    (hbin : ∀ g, vec_get s.gal_list i = some g → F.bin_check zbin g = true)
    (hs : P s) (h : seed_member F zbin i rfriend s m = .ok s1) : P s1 := by
  unfold seed_member at h
  cases hgi : vec_get s.gal_list i with
  | none => simp [hgi] at h
  | some gal_i =>
    cases hgn : vec_get s.gal_list m.num with
    | none => simp [hgi, hgn] at h
    | some gal_n =>
      simp only [hgi, hgn] at h
      cases hfr : F.friendship zbin gal_i gal_n rfriend with
      | error e => simp [hfr] at h
      | ok fr =>
        cases fr with
        | false =>
          simp only [hfr, Except.ok.injEq] at h
          exact h ▸ hs
        | true =>
          simp only [hfr] at h
          cases hfl : vec_get gal_i.in_cluster zbin.num with
          | none => simp [hfl] at h
          | some fl =>
            cases fl with
            | false =>
              simp only [hfl] at h
              exact hP.1 s s1 i m.num gal_i gal_n rfriend hs hgi hgn (hbin gal_i hgi) hfl hfr h
            | true =>
              simp only [hfl] at h
              exact hP.2 s s1 m.num gal_i gal_n rfriend hs hgn (Or.inl ⟨i, hgi⟩) hfr h

theorem bin_check_frame (F : FoF) (zbin : Zbin) (G G1 : List Galaxy)
    (hf : frame zbin.num G G1) (i : Nat)
    (hbin : ∀ g, vec_get G i = some g → F.bin_check zbin g = true) :
    ∀ g, vec_get G1 i = some g → F.bin_check zbin g = true := by
  intro g1 hg1
  obtain ⟨g, hg, hr⟩ := frame_vec_get_back _ G G1 hf i g1 hg1
  rw [bin_check_raised F zbin _ g g1 hr]
  exact hbin g hg

theorem seed_node_invariant (F : FoF) (zbin : Zbin) (P : DriverState → Prop)
    (hP : update_stable F zbin P) (i : Nat) (rfriend : ℚ) (G0 : List Galaxy)
    (hbin : ∀ g, vec_get G0 i = some g → F.bin_check zbin g = true)
    (s s1 : DriverState) (node : Kdtree_node)
    (hs : P s ∧ frame zbin.num G0 s.gal_list)
    (h : seed_node F zbin i rfriend s node = .ok s1) :
    P s1 ∧ frame zbin.num G0 s1.gal_list := by
  unfold seed_node at h
  cases hgi : vec_get s.gal_list i with
  | none => simp [hgi] at h
  | some gal_i =>
    simp only [hgi] at h
    by_cases hn : F.node_check gal_i node rfriend = true
    · simp only [hn, if_true] at h
      refine loopM_invariant (fun t => P t ∧ frame zbin.num G0 t.gal_list) _ node.members
        ?_ s s1 hs h
      intro t m t1 _ ht hstep
      exact ⟨seed_member_invariant F zbin P hP i rfriend t t1 m
          (bin_check_frame F zbin G0 t.gal_list ht.2 i hbin) ht.1 hstep,
        frame_trans _ _ _ _ ht.2 (seed_member_frame F zbin i rfriend t t1 m hstep)⟩
    · simp only [hn, Bool.false_eq_true, if_false, Except.ok.injEq] at h
      exact h ▸ hs

theorem growth_member_invariant (F : FoF) (zbin : Zbin) (P : DriverState → Prop)
    (hP : update_stable F zbin P) (ii : Nat) (rfriend : ℚ) (G0 : List Galaxy)
    (s s1 : DriverState) (m : Kdtree_member)
    (hs : P s ∧ frame zbin.num G0 s.gal_list)
    (h : growth_member F zbin ii rfriend s m = .ok s1) :
    P s1 ∧ frame zbin.num G0 s1.gal_list := by
  unfold growth_member at h
  cases hgm : current_member s ii with
  | none => simp [hgm] at h
  | some gal_m =>
    cases hgn : vec_get s.gal_list m.num with
    | none => simp [hgm, hgn] at h
    | some gal_n =>
      simp only [hgm, hgn] at h
      cases hfr : F.friendship zbin gal_m gal_n rfriend with
      | error e => simp [hfr] at h
      | ok fr =>
        cases fr with
        | false =>
          simp only [hfr, Except.ok.injEq] at h
          exact h ▸ hs
        | true =>
          simp only [hfr] at h
          exact ⟨hP.2 s s1 m.num gal_m gal_n rfriend hs.1 hgn (Or.inr ⟨ii, hgm⟩) hfr h,
            frame_trans _ _ _ _ hs.2 (append_member_ok h).2.2.1⟩

theorem growth_node_invariant (F : FoF) (zbin : Zbin) (P : DriverState → Prop)
    (hP : update_stable F zbin P) (ii : Nat) (rfriend : ℚ) (G0 : List Galaxy)
    (s s1 : DriverState) (node : Kdtree_node)
    (hs : P s ∧ frame zbin.num G0 s.gal_list)
    (h : growth_node F zbin ii rfriend s node = .ok s1) :
    P s1 ∧ frame zbin.num G0 s1.gal_list := by
  unfold growth_node at h
  cases hgm : current_member s ii with
  | none => simp [hgm] at h
  | some gal_m =>
    simp only [hgm] at h
    by_cases hn : F.node_check gal_m node rfriend = true
    · simp only [hn, if_true] at h
      exact loopM_invariant (fun t => P t ∧ frame zbin.num G0 t.gal_list) _ node.members
        (fun t m t1 _ ht hstep =>
          growth_member_invariant F zbin P hP ii rfriend G0 t t1 m ht hstep) s s1 hs h
    · simp only [hn, Bool.false_eq_true, if_false, Except.ok.injEq] at h
      exact h ▸ hs

/-- Partial-correctness rule for the growth loop. -/
theorem growth_loop_invariant (F : FoF) (tree : Kdtree) (zbin : Zbin) (rfriend : ℚ)
    (Q : DriverState → Prop)
    (hnode : ∀ ii s s1, Q s →
      loopM (growth_node F zbin ii rfriend) tree.node_list s = .ok s1 → Q s1) :
    ∀ fuel ii s s1, Q s → growth_loop F tree zbin rfriend fuel ii s = .ok s1 → Q s1 := by
  intro fuel
  induction fuel with
  | zero =>
    intro ii s s1 hs h
    unfold growth_loop at h
    cases hc : vec_get s.list_of_clusters s.cluster_count with
    | none => simp [hc] at h
    | some c =>
      simp only [hc] at h
      by_cases hlt : ii < c.mem.length
      · simp [hlt] at h
      · simp only [hlt, if_false, Except.ok.injEq] at h
        exact h ▸ hs
  | succ fuel ih =>
    intro ii s s1 hs h
    unfold growth_loop at h
    cases hc : vec_get s.list_of_clusters s.cluster_count with
    | none => simp [hc] at h
    | some c =>
      simp only [hc] at h
      by_cases hlt : ii < c.mem.length
      · simp only [hlt, if_true] at h
        cases hl : loopM (growth_node F zbin ii rfriend) tree.node_list s with
        | error e => simp [hl] at h
        | ok s2 =>
          simp only [hl] at h
          exact ih (ii + 1) s2 s1 (hnode ii s s2 hs hl) h
      · simp only [hlt, if_false, Except.ok.injEq] at h
        exact h ▸ hs

theorem seed_step_invariant (F : FoF) (tree : Kdtree) (zbin : Zbin)
    (P : DriverState → Prop) (hP : update_stable F zbin P) (fuel : Nat)
    (st st1 : DriverState × ℚ) (i : Nat) (hs : P st.1)
    (h : seed_step F tree zbin fuel st i = .ok st1) :
    P st1.1 ∧ frame zbin.num st.1.gal_list st1.1.gal_list := by
  have hrefl : P st.1 ∧ frame zbin.num st.1.gal_list st.1.gal_list := ⟨hs, frame_refl _ _⟩
  unfold seed_step at h
  cases hgi : vec_get st.1.gal_list i with
  | none => simp [hgi] at h
  | some gal_i =>
    simp only [hgi] at h
    cases hfl : vec_get gal_i.in_cluster zbin.num with
    | none => simp [hfl] at h
    | some fl =>
      cases fl with
      | true =>
        simp only [hfl, Except.ok.injEq] at h
        subst h
        exact hrefl
      | false =>
        simp only [hfl] at h
        by_cases hb : F.bin_check zbin gal_i = true
        · simp only [hb, if_true] at h
          have hbin : ∀ g, vec_get st.1.gal_list i = some g → F.bin_check zbin g = true := by
            intro g hg
            rw [hgi] at hg
            cases hg
            exact hb
          generalize hr : (if (F.mode == "spec") = true then zbin.link_r / gal_i.da else st.2)
            = rfriend at h
          cases hl : loopM (seed_node F zbin i rfriend) tree.node_list st.1 with
          | error e => simp [hl] at h
          | ok s1 =>
            simp only [hl] at h
            have hs1 : P s1 ∧ frame zbin.num st.1.gal_list s1.gal_list :=
              loopM_invariant (fun t => P t ∧ frame zbin.num st.1.gal_list t.gal_list) _
                tree.node_list
                (fun t node t1 _ ht hstep =>
                  seed_node_invariant F zbin P hP i rfriend st.1.gal_list hbin t t1 node ht hstep)
                st.1 s1 hrefl hl
            cases hgi1 : vec_get s1.gal_list i with
            | none => simp [hgi1] at h
            | some gal_i1 =>
              simp only [hgi1] at h
              cases hfl1 : vec_get gal_i1.in_cluster zbin.num with
              | none => simp [hfl1] at h
              | some fl1 =>
                cases fl1 with
                | false =>
                  simp only [hfl1, Except.ok.injEq] at h
                  subst h
                  exact hs1
                | true =>
                  simp only [hfl1] at h
                  cases hg : growth_loop F tree zbin rfriend fuel 0 s1 with
                  | error e => simp [hg] at h
                  | ok s2 =>
                    simp only [hg, Except.ok.injEq] at h
                    subst h
                    exact growth_loop_invariant F tree zbin rfriend
                      (fun t => P t ∧ frame zbin.num st.1.gal_list t.gal_list)
                      (fun ii t t1 ht hloop =>
                        loopM_invariant
                          (fun u => P u ∧ frame zbin.num st.1.gal_list u.gal_list) _
                          tree.node_list
                          (fun u node u1 _ hu hstep =>
                            growth_node_invariant F zbin P hP ii rfriend st.1.gal_list
                              u u1 node hu hstep)
                          t t1 ht hloop)
                      fuel 0 s1 s2 hs1 hg
        · simp only [hb, Bool.false_eq_true, if_false, Except.ok.injEq] at h
          subst h
          exact hrefl

/-- Invariant rule for `friends_of_friends`: a predicate on driver states that
holds on entry and is preserved by cluster creation and member insertion holds
for the final cluster list and galaxy list; the galaxy list changes by raised
flags of the bin only, and the parameters of the finder are unchanged. -/
theorem driver_invariant (F : FoF) (tree : Kdtree) (zbin : Zbin)
    (P : DriverState → Prop) (hP : update_stable F zbin P) (fuel : Nat)
    (gal_list : List Galaxy) (F1 : FoF) (G1 : List Galaxy)
    (h0 : P ⟨gal_list, F.list_of_clusters, -1⟩)
    (h : F.friends_of_friends fuel tree zbin gal_list = .ok (F1, G1)) :
    (∃ cc, P ⟨G1, F1.list_of_clusters, cc⟩) ∧ frame zbin.num gal_list G1 ∧
    F1.mode = F.mode ∧ F1.link_z = F.link_z ∧ F1.astro = F.astro := by
  unfold FoF.friends_of_friends at h
  simp only at h
  cases hl : loopM (seed_step F tree zbin fuel) (List.range gal_list.length)
      (⟨gal_list, F.list_of_clusters, -1⟩, zbin.rfriend) with
  | error e => simp [hl] at h
  | ok st =>
    simp only [hl, Except.ok.injEq, Prod.mk.injEq] at h
    obtain ⟨hF, hG⟩ := h
    have hinv : P st.1 ∧ frame zbin.num gal_list st.1.gal_list :=
      loopM_invariant (fun t : DriverState × ℚ => P t.1 ∧ frame zbin.num gal_list t.1.gal_list)
        _ (List.range gal_list.length)
        (fun t i t1 _ ht hstep =>
          have := seed_step_invariant F tree zbin P hP fuel t t1 i ht.1 hstep
          ⟨this.1, frame_trans _ _ _ _ ht.2 this.2⟩)
        _ st ⟨h0, frame_refl _ _⟩ hl
    subst hF hG
    exact ⟨⟨st.1.cluster_count, hinv.1⟩, hinv.2, rfl, rfl, rfl⟩

/-! ## Disjointness of the clusters -/

theorem dense_vec_get (G : List Galaxy) (hd : dense G) (k : Int) (g : Galaxy)
    (hg : vec_get G k = some g) : g.num = k := by
  obtain ⟨h0, _, hcast⟩ := vec_get_lt hg
  rw [vec_get_some_iff] at hg
  rw [hd k.toNat g hg.2, hcast]

theorem flag_of_some (G : List Galaxy) (b k : Int) (g : Galaxy) (x : Bool)
    (hg : vec_get G k = some g) (hx : vec_get g.in_cluster b = some x) :
    flag_of G b k = some x := by
  simp [flag_of, hg, hx]

theorem flag_of_cases (G : List Galaxy) (b k : Int) (x : Bool) (h : flag_of G b k = some x) :
    ∃ g, vec_get G k = some g ∧ vec_get g.in_cluster b = some x := by
  unfold flag_of at h
  cases hg : vec_get G k with
  | none => rw [hg] at h; cases h
  | some g => rw [hg] at h; exact ⟨g, rfl, h⟩

theorem core_inv_member_flag (b : Int) (s : DriverState) (hs : core_inv b s) (m : Galaxy)
    (hm : m ∈ all_members s.list_of_clusters) : flag_of s.gal_list b m.num = some true := by
  obtain ⟨g, hg, _, hf⟩ := hs.2.2 m hm
  exact flag_of_some _ _ _ g true hg hf

theorem core_inv_fresh (b : Int) (s : DriverState) (hs : core_inv b s) (k : Int) (g : Galaxy)
    (hg : vec_get s.gal_list k = some g) (hf : vec_get g.in_cluster b = some false) :
    g.num ∉ (all_members s.list_of_clusters).map (fun x => x.num) := by
  intro hmem
  obtain ⟨m, hm, hnum⟩ := List.mem_map.mp hmem
  have h1 := core_inv_member_flag b s hs m hm
  rw [hnum, dense_vec_get _ hs.1 k g hg, flag_of_some _ b k g false hg hf] at h1
  cases h1

theorem core_inv_frame_old (b : Int) (s s1 : DriverState) (hs : core_inv b s)
    (hf : frame b s.gal_list s1.gal_list) (m : Galaxy)
    (hm : m ∈ all_members s.list_of_clusters) :
    ∃ g, vec_get s1.gal_list m.num = some g ∧ Galaxy.raised b m g ∧
      vec_get g.in_cluster b = some true := by
  obtain ⟨g, hg, hr, hfl⟩ := hs.2.2 m hm
  obtain ⟨g1, hg1, hr1⟩ := frame_vec_get b _ _ hf _ g hg
  exact ⟨g1, hg1, raised_trans b m g g1 hr hr1, raised_flag_true b g g1 hr1 hfl⟩

theorem core_inv_new (b : Int) (s s1 : DriverState) (hd : dense s.gal_list)
    (hf : frame b s.gal_list s1.gal_list) (k : Int) (g : Galaxy)
    (hg : vec_get s.gal_list k = some g) (hfl : flag_of s1.gal_list b k = some true) :
    ∃ g1, vec_get s1.gal_list g.num = some g1 ∧ Galaxy.raised b g g1 ∧
      vec_get g1.in_cluster b = some true := by
  obtain ⟨g1, hg1, hr1⟩ := frame_vec_get b _ _ hf _ g hg
  obtain ⟨g2, hg2, hfl2⟩ := flag_of_cases _ _ _ _ hfl
  rw [hg1] at hg2
  cases hg2
  rw [dense_vec_get _ hd k g hg]
  exact ⟨g1, hg1, hr1, hfl2⟩

theorem core_inv_stable (F : FoF) (zbin : Zbin) : update_stable F zbin (core_inv zbin.num) := by
  constructor
  · intro s s1 i gal_now gal_i gal_n rfriend hs hgi hgn _ hfl hfr hc
    obtain ⟨hne, _, hfln, _, _⟩ := (friendship_ok_true_iff F zbin gal_i gal_n rfriend).mp hfr
    obtain ⟨_, _, hframe, hfi, hfn, _⟩ := create_cluster_ok hc
    have hmem := create_cluster_members hc
    refine ⟨frame_dense _ _ _ hframe hs.1, ?_, ?_⟩
    · rw [hmem, List.map_append, List.nodup_append]
      refine ⟨hs.2.1, ?_, ?_⟩
      · simp only [List.map_cons, List.map_nil, List.nodup_cons, List.mem_singleton,
          List.not_mem_nil, not_false_eq_true, List.nodup_nil, and_true]
        exact hne
      · intro x hx1 hx2
        simp only [List.map_cons, List.map_nil, List.mem_cons, List.mem_singleton,
          List.not_mem_nil, or_false] at hx2
        rcases hx2 with rfl | rfl
        · exact core_inv_fresh _ s hs i gal_i hgi hfl hx1
        · exact core_inv_fresh _ s hs gal_now gal_n hgn hfln hx1
    · intro m hm
      rw [hmem, List.mem_append] at hm
      rcases hm with hm | hm
      · exact core_inv_frame_old _ s s1 hs hframe m hm
      · simp only [List.mem_cons, List.mem_singleton, List.not_mem_nil, or_false] at hm
        rcases hm with rfl | rfl
        · exact core_inv_new _ s s1 hs.1 hframe i m hgi hfi
        · exact core_inv_new _ s s1 hs.1 hframe gal_now m hgn hfn
  · intro s s1 gal_now gal_m gal_n rfriend hs hgn _ hfr ha
    obtain ⟨_, _, hfln, _, _⟩ := (friendship_ok_true_iff F zbin gal_m gal_n rfriend).mp hfr
    obtain ⟨_, _, hframe, hfn, _⟩ := append_member_ok ha
    have hperm := append_member_members ha
    refine ⟨frame_dense _ _ _ hframe hs.1, ?_, ?_⟩
    · rw [(hperm.map _).nodup_iff, List.map_append, List.nodup_append]
      refine ⟨hs.2.1, by simp, ?_⟩
      intro x hx1 hx2
      simp only [List.map_cons, List.map_nil, List.mem_singleton] at hx2
      subst hx2
      exact core_inv_fresh _ s hs gal_now gal_n hgn hfln hx1
    · intro m hm
      rw [hperm.mem_iff, List.mem_append] at hm
      rcases hm with hm | hm
      · exact core_inv_frame_old _ s s1 hs hframe m hm
      · simp only [List.mem_singleton] at hm
        subst hm
        exact core_inv_new _ s s1 hs.1 hframe gal_now m hgn hfn

theorem run_summary_ok (r : Except Fault (FoF × List Galaxy))
    (x : List (Int × List Int) × List (List Bool)) (h : run_summary r = some x) :
    ∃ F1 G1, r = .ok (F1, G1) := by
  cases r with
  | error e => simp [run_summary] at h
  | ok v => exact ⟨v.1, v.2, rfl⟩

theorem nodup_members_pairwise (clusters : List Cluster)
    (h : ((all_members clusters).map (fun g => g.num)).Nodup) :
    clusters.Pairwise (fun c1 c2 => ∀ g1 ∈ c1.mem, ∀ g2 ∈ c2.mem, g1.num ≠ g2.num) := by
  induction clusters with
  | nil => exact List.Pairwise.nil
  | cons c rest ih =>
    simp only [all_members, List.flatMap_cons, List.map_append] at h
    rw [List.nodup_append] at h
    rw [List.pairwise_cons]
    refine ⟨?_, ih h.2.1⟩
    intro c2 hc2 g1 hg1 g2 hg2 heq
    apply h.2.2 (List.mem_map_of_mem _ hg1)
    rw [heq]
    exact List.mem_map_of_mem _ (List.mem_flatMap.mpr ⟨c2, hc2, hg2⟩)

theorem all_members_filter_unique_sublist (p : Cluster → Bool) (clusters : List Cluster) :
    (all_members ((clusters.map Cluster.unique).filter p)).Sublist (all_members clusters) := by
  induction clusters with
  | nil => exact List.Sublist.refl _
  | cons c rest ih =>
    simp only [List.map_cons, List.filter_cons]
    by_cases hp : p c.unique = true
    · simp only [hp, if_true, all_members, List.flatMap_cons]
      exact List.Sublist.append (unique_mem_sublist c.mem) ih
    · simp only [hp, if_false, all_members, List.flatMap_cons]
      exact List.sublist_append_of_sublist_right ih

theorem core_inv_initial (b : Int) (gal_list : List Galaxy) (hd : dense gal_list) (cc : Int) :
    core_inv b ⟨gal_list, [], cc⟩ := by
  refine ⟨hd, ?_, ?_⟩
  · simp [all_members]
  · intro m hm
    simp [all_members] at hm

theorem scen_gals_dense : dense scen_gals := by
  intro k g hg
  match k, hg with
  | 0, hg => simp only [scen_gals, List.getElem?_cons_zero, Option.some.injEq] at hg; subst hg; rfl
  | 1, hg => simp [scen_gals] at hg; subst hg; rfl
  | 2, hg => simp [scen_gals] at hg; subst hg; rfl
  | 3, hg => simp [scen_gals] at hg; subst hg; rfl
  | k + 4, hg => simp [scen_gals] at hg

theorem scen_run :
    run_summary (spec_fof.friends_of_friends 4 scen_tree scen_zbin scen_gals) =
      some ([(0, [1, 2, 3])], [[false], [true], [true], [true]]) := by
  decide!

/-! ## Bin compatibility of the members -/

theorem update_stable_and (F : FoF) (zbin : Zbin) (P Q : DriverState → Prop)
    (hP : update_stable F zbin P) (hQ : update_stable F zbin Q) :
    update_stable F zbin (fun s => P s ∧ Q s) :=
  ⟨fun s s1 i gal_now gal_i gal_n rfriend hs hgi hgn hb hfl hfr hc =>
      ⟨hP.1 s s1 i gal_now gal_i gal_n rfriend hs.1 hgi hgn hb hfl hfr hc,
        hQ.1 s s1 i gal_now gal_i gal_n rfriend hs.2 hgi hgn hb hfl hfr hc⟩,
    fun s s1 gal_now gal_m gal_n rfriend hs hgn hm hfr ha =>
      ⟨hP.2 s s1 gal_now gal_m gal_n rfriend hs.1 hgn hm hfr ha,
        hQ.2 s s1 gal_now gal_m gal_n rfriend hs.2 hgn hm hfr ha⟩⟩

theorem members_checked_stable (F : FoF) (zbin : Zbin) :
    update_stable F zbin (members_checked F zbin) := by
  constructor
  · intro s s1 i gal_now gal_i gal_n rfriend hs _ _ hb _ hfr hc m hm
    obtain ⟨_, hbn, _⟩ := (friendship_ok_true_iff F zbin gal_i gal_n rfriend).mp hfr
    rw [create_cluster_members hc, List.mem_append] at hm
    rcases hm with hm | hm
    · exact hs m hm
    · simp only [List.mem_cons, List.mem_singleton, List.not_mem_nil, or_false] at hm
      rcases hm with rfl | rfl
      · exact hb
      · exact hbn
  · intro s s1 gal_now gal_m gal_n rfriend hs _ _ hfr ha m hm
    obtain ⟨_, hbn, _⟩ := (friendship_ok_true_iff F zbin gal_m gal_n rfriend).mp hfr
    rw [(append_member_members ha).mem_iff, List.mem_append] at hm
    rcases hm with hm | hm
    · exact hs m hm
    · simp only [List.mem_singleton] at hm
      subst hm
      exact hbn

theorem bin_check_phot (F : FoF) (zbin : Zbin) (g : Galaxy) (hmode : F.mode ≠ "spec") :
    F.bin_check zbin g = true ↔ |g.z - zbin.z| ≤ F.link_z * g.dz := by
  simp [FoF.bin_check, hmode]

theorem window_triangle (zc lz z1 dz1 z2 dz2 : ℚ) (h1 : |z1 - zc| ≤ lz * dz1)
    (h2 : |z2 - zc| ≤ lz * dz2) : |z1 - z2| ≤ lz * (dz1 + dz2) := by
  have h3 := abs_sub_le z1 zc z2
  have h4 := abs_sub_comm zc z2
  rw [mul_add]
  linarith

/-! ## Degenerate inputs -/

theorem seed_step_no_nodes (F : FoF) (tree : Kdtree) (zbin : Zbin) (fuel : Nat)
    (s : DriverState) (rf : ℚ) (i : Nat) (hnodes : tree.node_list = [])
    (hread : ∀ g ∈ s.gal_list, ∃ x, vec_get g.in_cluster zbin.num = some x)
    (hi : i < s.gal_list.length) :
    ∃ rf1, seed_step F tree zbin fuel (s, rf) i = .ok (s, rf1) := by
  have hgi : vec_get s.gal_list i = some s.gal_list[i] := by
    rw [vec_get_nat]
    exact List.getElem?_eq_getElem hi
  obtain ⟨x, hx⟩ := hread s.gal_list[i] (List.getElem_mem hi)
  unfold seed_step
  simp only [hgi, hx, hnodes, loopM]
  cases x with
  | true => exact ⟨_, rfl⟩
  | false =>
    by_cases hb : F.bin_check zbin s.gal_list[i] = true
    · simp only [hb, if_true, hgi, hx]
      exact ⟨_, rfl⟩
    · simp only [hb, Bool.false_eq_true, if_false]
      exact ⟨_, rfl⟩

/-- C10 (amended): `friends_of_friends` on an empty galaxy list returns with
the finder and the list unchanged, for every index and bin; on an index without
nodes it returns with the finder and the galaxy list unchanged provided that
the flag of the bin can be read in every galaxy; `remove` on an empty cluster
list changes nothing. -/
theorem degenerate_inputs (F : FoF) (tree : Kdtree) (zbin : Zbin) (fuel : Nat) (w : Nat)
    (min_ngal : Int) :
    F.friends_of_friends fuel tree zbin [] = .ok (F, []) ∧
    (∀ gal_list : List Galaxy, tree.node_list = [] →
      (∀ g ∈ gal_list, ∃ x, vec_get g.in_cluster zbin.num = some x) →
      F.friends_of_friends fuel tree zbin gal_list = .ok (F, gal_list)) ∧
    (F.list_of_clusters = [] → F.remove w min_ngal = F) := by
  refine ⟨rfl, ?_, ?_⟩
  · intro gal_list hnodes hread
    have hloop := loopM_total
      (fun (_ : List Nat) (t : DriverState × ℚ) =>
        t.1 = (⟨gal_list, F.list_of_clusters, -1⟩ : DriverState))
      (seed_step F tree zbin fuel) (List.range gal_list.length)
      (by
        intro pre i t hmem ht
        obtain ⟨post, hpost⟩ := hmem
        have hi : i < gal_list.length := by
          have : i ∈ List.range gal_list.length := by rw [hpost]; simp
          exact List.mem_range.mp this
        obtain ⟨t1, t2⟩ := t
        simp only at ht
        subst ht
        obtain ⟨rf1, hstep⟩ := seed_step_no_nodes F tree zbin fuel
          ⟨gal_list, F.list_of_clusters, -1⟩ t2 i hnodes hread hi
        exact ⟨_, hstep, rfl⟩)
      (⟨gal_list, F.list_of_clusters, -1⟩, zbin.rfriend) rfl
    obtain ⟨st, hst, hP⟩ := hloop
    unfold FoF.friends_of_friends
    simp only [hst, hP]
  · intro hempty
    cases F with
    | mk mode link_z astro clusters =>
      simp only at hempty
      subst hempty
      rfl

/-- Counterexample to C10 as stated: on an index without nodes the driver
still reads `gal_list[0].in_cluster[zbin.num]`; for a galaxy as the constructor
leaves it (empty flag vector) this access is out of range. -/
theorem no_nodes_out_of_range :
    Galaxy.new_phot 0 7 0 0 (1 / 10) (2 / 100) 0 = .ok fresh_gal ∧
    empty_tree.node_list = [] ∧
    phot_fof.friends_of_friends 0 empty_tree phot_zbin [fresh_gal] =
      .error Fault.out_of_range := by
  refine ⟨?_, rfl, rfl⟩
  norm_num [Galaxy.new_phot, fresh_gal]

/-! ## Passes that leave the state unchanged -/

theorem loopM_unchanged {σ α : Type} (body : σ → α → Except Fault σ) (l : List α) (s : σ)
    (h : ∀ a ∈ l, body s a = .ok s) : loopM body l s = .ok s := by
  induction l with
  | nil => rfl
  | cons a rest ih =>
    rw [loopM_cons_ok body a rest s s (h a (List.mem_cons_self a rest))]
    exact ih (fun x hx => h x (List.mem_cons_of_mem a hx))

theorem vec_get_mem {α : Type} {xs : List α} {i : Int} {x : α} (h : vec_get xs i = some x) :
    x ∈ xs :=
  List.getElem?_mem ((vec_get_some_iff xs i x).mp h).2

theorem mem_vec_get {α : Type} {xs : List α} {x : α} (h : x ∈ xs) :
    ∃ k : Nat, vec_get xs (k : Int) = some x := by
  obtain ⟨k, hk⟩ := List.mem_iff_getElem?.mp h
  exact ⟨k, by rw [vec_get_nat]; exact hk⟩

theorem friendship_far (F : FoF) (zbin : Zbin) (A B : Galaxy) (r : ℚ) (x : Bool)
    (hread : vec_get B.in_cluster zbin.num = some x)
    (hfar : A.num ≠ B.num → r < F.astro.angsep A.ra A.dec B.ra B.dec) :
    F.friendship zbin A B r = .ok false := by
  obtain ⟨fr, hfr⟩ := friendship_readable F zbin A B r x hread
  cases fr with
  | false => exact hfr
  | true =>
    obtain ⟨hne, _, _, hle, _⟩ := (friendship_ok_true_iff F zbin A B r).mp hfr
    exact absurd hle (not_le.mpr (hfar hne))

theorem friendship_flagged (F : FoF) (zbin : Zbin) (A B : Galaxy) (r : ℚ)
    (hread : vec_get B.in_cluster zbin.num = some true) :
    F.friendship zbin A B r = .ok false := by
  obtain ⟨fr, hfr⟩ := friendship_readable F zbin A B r true hread
  cases fr with
  | false => exact hfr
  | true =>
    obtain ⟨_, _, hfl, _⟩ := (friendship_ok_true_iff F zbin A B r).mp hfr
    rw [hread] at hfl
    cases hfl

theorem seed_step_skip (F : FoF) (tree : Kdtree) (zbin : Zbin) (fuel : Nat)
    (s : DriverState) (rf : ℚ) (i : Nat) (g : Galaxy)
    (hg : vec_get s.gal_list i = some g)
    (hfl : vec_get g.in_cluster zbin.num = some true) :
    seed_step F tree zbin fuel (s, rf) i =
      .ok (s, if (F.mode == "spec") = true then zbin.link_r / g.da else rf) := by
  unfold seed_step
  simp only [hg, hfl]

theorem seed_member_no_friend (F : FoF) (zbin : Zbin) (i : Nat) (r : ℚ) (s : DriverState)
    (m : Kdtree_member) (g gn : Galaxy) (hg : vec_get s.gal_list i = some g)
    (hgn : vec_get s.gal_list m.num = some gn)
    (hfr : F.friendship zbin g gn r = .ok false) :
    seed_member F zbin i r s m = .ok s := by
  unfold seed_member
  simp only [hg, hgn, hfr]

theorem seed_step_no_friend (F : FoF) (tree : Kdtree) (zbin : Zbin) (fuel : Nat)
    (s : DriverState) (rf : ℚ) (i : Nat) (g : Galaxy)
    (hg : vec_get s.gal_list i = some g)
    (hfl : vec_get g.in_cluster zbin.num = some false)
    (hnone : ∀ node ∈ tree.node_list, ∀ m ∈ node.members,
      ∃ gn, vec_get s.gal_list m.num = some gn ∧
        F.friendship zbin g gn
          (if (F.mode == "spec") = true then zbin.link_r / g.da else rf) = .ok false) :
    seed_step F tree zbin fuel (s, rf) i =
      .ok (s, if (F.mode == "spec") = true then zbin.link_r / g.da else rf) := by
  have hloop : loopM (seed_node F zbin i
      (if (F.mode == "spec") = true then zbin.link_r / g.da else rf)) tree.node_list s
      = .ok s := by
    apply loopM_unchanged
    intro node hnode
    unfold seed_node
    simp only [hg]
    by_cases hn : F.node_check g node
        (if (F.mode == "spec") = true then zbin.link_r / g.da else rf) = true
    · simp only [hn, if_true]
      apply loopM_unchanged
      intro m hm
      obtain ⟨gn, hgn, hfr⟩ := hnone node hnode m hm
      exact seed_member_no_friend F zbin i _ s m g gn hg hgn hfr
    · simp only [hn, Bool.false_eq_true, if_false]
  unfold seed_step
  simp only [hg, hfl]
  by_cases hb : F.bin_check zbin g = true
  · simp only [hb, if_true, hloop, hg, hfl]
  · simp only [hb, Bool.false_eq_true, if_false]

theorem current_member_of_lt (s : DriverState) (c : Cluster) (ii : Nat)
    (hc : vec_get s.list_of_clusters s.cluster_count = some c) (hlt : ii < c.mem.length) :
    current_member s ii = some c.mem[ii] := by
  unfold current_member
  simp only [hc]
  exact List.getElem?_eq_getElem hlt

theorem current_member_mem (s : DriverState) (ii : Nat) (gm : Galaxy)
    (h : current_member s ii = some gm) : gm ∈ all_members s.list_of_clusters := by
  unfold current_member at h
  cases hc : vec_get s.list_of_clusters s.cluster_count with
  | none => rw [hc] at h; cases h
  | some c =>
    rw [hc] at h
    exact List.mem_flatMap.mpr ⟨c, vec_get_mem hc, List.getElem?_mem h⟩

theorem growth_loop_unchanged (F : FoF) (tree : Kdtree) (zbin : Zbin) (r : ℚ)
    (s : DriverState) (c : Cluster)
    (hc : vec_get s.list_of_clusters s.cluster_count = some c)
    (hnone : ∀ ii gm, current_member s ii = some gm →
      ∀ node ∈ tree.node_list, ∀ m ∈ node.members,
        ∃ gn, vec_get s.gal_list m.num = some gn ∧ F.friendship zbin gm gn r = .ok false) :
    ∀ fuel ii, c.mem.length ≤ fuel + ii → growth_loop F tree zbin r fuel ii s = .ok s := by
  intro fuel
  induction fuel with
  | zero =>
    intro ii hle
    unfold growth_loop
    have hlt : ¬ ii < c.mem.length := by omega
    simp only [hc, hlt, if_false]
  | succ fuel ih =>
    intro ii hle
    unfold growth_loop
    simp only [hc]
    by_cases hlt : ii < c.mem.length
    · have hcur := current_member_of_lt s c ii hc hlt
      have hloop : loopM (growth_node F zbin ii r) tree.node_list s = .ok s := by
        apply loopM_unchanged
        intro node hnode
        unfold growth_node
        simp only [hcur]
        by_cases hn : F.node_check c.mem[ii] node r = true
        · simp only [hn, if_true]
          apply loopM_unchanged
          intro m hm
          obtain ⟨gn, hgn, hfr⟩ := hnone ii _ hcur node hnode m hm
          unfold growth_member
          simp only [hcur, hgn, hfr]
        · simp only [hn, Bool.false_eq_true, if_false]
      simp only [hlt, if_true, hloop]
      exact ih (ii + 1) (by omega)
    · simp only [hlt, if_false]

/-! ## The scenario of one group and isolated galaxies -/

theorem frame_origin (b : Int) (G G1 : List Galaxy) (hd : dense G) (hf : frame b G G1)
    (k : Int) (g : Galaxy) (hg : vec_get G1 k = some g) :
    ∃ g0, vec_get G k = some g0 ∧ g0 ∈ G ∧ Galaxy.raised b g0 g ∧ g0.num = k ∧ g.num = k := by
  obtain ⟨g0, hg0, hr⟩ := frame_vec_get_back b G G1 hf k g hg
  have hn := dense_vec_get G hd k g0 hg0
  exact ⟨g0, hg0, vec_get_mem hg0, hr, hn, by rw [(raised_fields b g0 g hr).1, hn]⟩

theorem frame_readable (b : Int) (G G1 : List Galaxy)
    (hflags : ∀ g ∈ G, vec_get g.in_cluster b = some false) (hf : frame b G G1)
    (k : Int) (g : Galaxy) (hg : vec_get G1 k = some g) :
    ∃ x, vec_get g.in_cluster b = some x := by
  obtain ⟨g0, hg0, hr⟩ := frame_vec_get_back b G G1 hf k g hg
  exact raised_flag_readable b g0 g hr b false (hflags g0 (vec_get_mem hg0))

theorem scen_members (F : FoF) (tree : Kdtree) (zbin : Zbin) (G : List Galaxy)
    (S : Int → Prop) (hsc : Scenario F tree zbin G S) (node : Kdtree_node)
    (hnode : node ∈ tree.node_list) (m : Kdtree_member) (hm : m ∈ node.members) :
    ∃ g, vec_get G m.num = some g := by
  obtain ⟨B, hB, _⟩ := hsc.sound node hnode m hm
  exact ⟨B, hB⟩

theorem scen_pruning (F : FoF) (tree : Kdtree) (zbin : Zbin) (G : List Galaxy)
    (S : Int → Prop) (hsc : Scenario F tree zbin G S) (node : Kdtree_node)
    (hnode : node ∈ tree.node_list) (m : Kdtree_member) (hm : m ∈ node.members)
    (A : Galaxy) (hA : A ∈ G) (B : Galaxy) (hB : vec_get G m.num = some B) (r : ℚ)
    (hr : F.astro.angsep A.ra A.dec B.ra B.dec ≤ r) : F.node_check A node r = true := by
  obtain ⟨B1, hB1, hs⟩ := hsc.sound node hnode m hm
  rw [hB] at hB1
  cases hB1
  exact hs A hA r hr

theorem scen_inv_initial (F : FoF) (tree : Kdtree) (zbin : Zbin) (G : List Galaxy)
    (S : Int → Prop) (hsc : Scenario F tree zbin G S) : scen_inv zbin G S ⟨G, [], -1⟩ := by
  refine ⟨frame_refl _ _, core_inv_initial _ _ hsc.nums _, ?_, Or.inl ⟨rfl, rfl⟩⟩
  intro k g hg hfl
  have := hsc.flags g (vec_get_mem hg)
  rw [this] at hfl
  cases hfl

theorem scen_member_origin (F : FoF) (tree : Kdtree) (zbin : Zbin) (G : List Galaxy)
    (S : Int → Prop) (hsc : Scenario F tree zbin G S) (s : DriverState)
    (hs : scen_inv zbin G S s) (m : Galaxy) (hm : m ∈ all_members s.list_of_clusters) :
    ∃ g0, vec_get G m.num = some g0 ∧ g0 ∈ G ∧ S m.num ∧ g0.num = m.num ∧
      g0.ra = m.ra ∧ g0.dec = m.dec ∧ g0.id = m.id := by
  obtain ⟨g, hg, hr, hfl⟩ := hs.2.1.2.2 m hm
  obtain ⟨g0, hg0, hmem, hr0, hn0, _⟩ := frame_origin _ G _ hsc.nums hs.1 _ g hg
  have f1 := raised_fields _ _ _ hr
  have f0 := raised_fields _ _ _ hr0
  exact ⟨g0, hg0, hmem, (hs.2.2.1 _ g hg hfl).1, hn0,
    f0.2.2.1.symm.trans f1.2.2.1, f0.2.2.2.1.symm.trans f1.2.2.2.1,
    f0.2.2.2.2.2.2.2.2.1.symm.trans f1.2.2.2.2.2.2.2.2.1⟩

/-- In a `Scenario` the pass of a seed outside the group changes nothing. -/
theorem seed_step_isolated (F : FoF) (tree : Kdtree) (zbin : Zbin) (G : List Galaxy)
    (S : Int → Prop) (hsc : Scenario F tree zbin G S) (fuel : Nat) (s : DriverState)
    (rf : ℚ) (i : Nat) (hs : scen_inv zbin G S s) (hi : i < G.length) (hS : ¬ S i) :
    ∃ rf1, seed_step F tree zbin fuel (s, rf) i = .ok (s, rf1) := by
  obtain ⟨X0, hX0⟩ := vec_get_of_lt G (i : Int) (by omega) (by omega)
  obtain ⟨X, hX, hrX⟩ := frame_vec_get _ _ _ hs.1 _ X0 hX0
  have hX0n := dense_vec_get G hsc.nums _ X0 hX0
  have fX := raised_fields _ _ _ hrX
  obtain ⟨x, hx⟩ := frame_readable _ G _ hsc.flags hs.1 _ X hX
  cases x with
  | true => exact ⟨_, seed_step_skip F tree zbin fuel s rf i X hX hx⟩
  | false =>
    refine ⟨_, seed_step_no_friend F tree zbin fuel s rf i X hX hx ?_⟩
    intro node hnode m hm
    obtain ⟨Y0, hY0⟩ := scen_members F tree zbin G S hsc node hnode m hm
    obtain ⟨Y, hY, hrY⟩ := frame_vec_get _ _ _ hs.1 _ Y0 hY0
    have hY0n := dense_vec_get G hsc.nums _ Y0 hY0
    have fY := raised_fields _ _ _ hrY
    obtain ⟨y, hy⟩ := frame_readable _ G _ hsc.flags hs.1 _ Y hY
    refine ⟨Y, hY, friendship_far F zbin X Y _ y hy ?_⟩
    intro hne
    have hmode : (F.mode == "spec") = true := by simp [hsc.mode_spec]
    simp only [hmode, if_true]
    have hfar := (hsc.far X0 (vec_get_mem hX0) (by rw [hX0n]; exact hS) Y0 (vec_get_mem hY0)
      (by rw [← fX.1, ← fY.1]; exact fun h => hne h.symm) X0 (vec_get_mem hX0)).1
    rw [fX.2.2.2.2.2.2.1, fX.2.2.1, fX.2.2.2.1, fY.2.2.1, fY.2.2.2.1]
    exact hfar

theorem scen_flags_new (zbin : Zbin) (S : Int → Prop) (s s1 : DriverState)
    (hold : ∀ (k : Int) (g : Galaxy), vec_get s.gal_list k = some g →
      vec_get g.in_cluster zbin.num = some true →
      S k ∧ k ∈ (all_members s.list_of_clusters).map (fun x => x.num))
    (hsub : ∀ k, k ∈ (all_members s.list_of_clusters).map (fun x => x.num) →
      k ∈ (all_members s1.list_of_clusters).map (fun x => x.num))
    (news : List Int)
    (hnew : ∀ k ∈ news, S k ∧ k ∈ (all_members s1.list_of_clusters).map (fun x => x.num))
    (hother : ∀ k : Int, k ∉ news → vec_get s1.gal_list k = vec_get s.gal_list k) :
    ∀ (k : Int) (g : Galaxy), vec_get s1.gal_list k = some g →
      vec_get g.in_cluster zbin.num = some true →
      S k ∧ k ∈ (all_members s1.list_of_clusters).map (fun x => x.num) := by
  intro k g hg hfl
  by_cases hk : k ∈ news
  · exact hnew k hk
  · rw [hother k hk] at hg
    obtain ⟨h1, h2⟩ := hold k g hg hfl
    exact ⟨h1, hsub k h2⟩

/-- One step of the member loop in the pass of a seed `a` of the group: the
step returns, keeps the invariant, and leaves the flag of the examined galaxy
raised when that galaxy belongs to the group and is not the seed. -/
theorem seed_member_main (F : FoF) (tree : Kdtree) (zbin : Zbin) (G : List Galaxy)
    (S : Int → Prop) (hsc : Scenario F tree zbin G S) (a : Nat) (A0 : Galaxy)
    (hA0 : vec_get G a = some A0) (hSa : S a) (s : DriverState)
    (hs : scen_inv zbin G S s)
    (hs2 : s.list_of_clusters ≠ [] → flag_of s.gal_list zbin.num a = some true)
    (node : Kdtree_node) (hnode : node ∈ tree.node_list) (m : Kdtree_member)
    (hm : m ∈ node.members) :
    ∃ s1, seed_member F zbin a (zbin.link_r / A0.da) s m = .ok s1 ∧
      scen_inv zbin G S s1 ∧
      (s1.list_of_clusters ≠ [] → flag_of s1.gal_list zbin.num a = some true) ∧
      frame zbin.num s.gal_list s1.gal_list ∧
      (S m.num → m.num ≠ a → flag_of s1.gal_list zbin.num m.num = some true) := by
  obtain ⟨gi, hgi, hri⟩ := frame_vec_get _ _ _ hs.1 _ A0 hA0
  obtain ⟨B0, hB0⟩ := scen_members F tree zbin G S hsc node hnode m hm
  obtain ⟨gn, hgn, hrn⟩ := frame_vec_get _ _ _ hs.1 _ B0 hB0
  have hA0n := dense_vec_get G hsc.nums _ A0 hA0
  have hB0n := dense_vec_get G hsc.nums _ B0 hB0
  have hA0m := vec_get_mem hA0
  have hB0m := vec_get_mem hB0
  obtain ⟨fi_num, _, fi_ra, fi_dec, fi_z, _, _, fi_v, _, _⟩ := raised_fields _ _ _ hri
  obtain ⟨fn_num, _, fn_ra, fn_dec, _, _, _, fn_v, _, _⟩ := raised_fields _ _ _ hrn
  obtain ⟨x, hx⟩ := frame_readable _ G _ hsc.flags hs.1 _ gn hgn
  obtain ⟨y, hy⟩ := frame_readable _ G _ hsc.flags hs.1 _ gi hgi
  have hbin : ∀ g : Galaxy, F.bin_check zbin g = true := by
    intro g
    simp [FoF.bin_check, hsc.mode_spec]
  obtain ⟨fr, hfr⟩ := friendship_readable F zbin gi gn (zbin.link_r / A0.da) x hx
  cases fr with
  | false =>
    refine ⟨s, seed_member_no_friend F zbin a _ s m gi gn hgi hgn hfr, hs, hs2,
      frame_refl _ _, ?_⟩
    intro hSm hne
    cases x with
    | true => exact flag_of_some _ _ _ gn true hgn hx
    | false =>
      have hcl := hsc.close A0 hA0m B0 hB0m (by rw [hA0n]; exact hSa) (by rw [hB0n]; exact hSm)
        (by rw [hA0n, hB0n]; exact fun h => hne h.symm)
      have htrue : F.friendship zbin gi gn (zbin.link_r / A0.da) = .ok true := by
        rw [friendship_ok_true_iff]
        refine ⟨?_, hbin gn, hx, ?_, ?_⟩
        · rw [fi_num, fn_num, hA0n, hB0n]
          exact fun h => hne h.symm
        · rw [fi_ra, fi_dec, fn_ra, fn_dec]
          exact hcl.1
        · intro _
          rw [fi_v, fn_v, fi_z]
          exact hcl.2
      rw [htrue] at hfr
      cases hfr
  | true =>
    obtain ⟨hne, _, hfln, hle, _⟩ := (friendship_ok_true_iff F zbin gi gn _).mp hfr
    rw [hx] at hfln
    cases hfln
    have hne0 : A0.num ≠ B0.num := by rw [← fi_num, ← fn_num]; exact hne
    have hSm : S m.num := by
      by_contra hnS
      have hfar := (hsc.far B0 hB0m (by rw [hB0n]; exact hnS) A0 hA0m hne0 A0 hA0m).2
      rw [fi_ra, fi_dec, fn_ra, fn_dec] at hle
      exact absurd hle (not_le.mpr hfar)
    have hgin : gi.num = (a : Int) := by rw [fi_num, hA0n]
    have hgnn : gn.num = m.num := by rw [fn_num, hB0n]
    cases y with
    | false =>
      have hcl : s.list_of_clusters = [] := by
        by_contra hne1
        have := hs2 hne1
        rw [flag_of_some _ _ _ gi false hgi hy] at this
        cases this
      have hcc : s.cluster_count = -1 := by
        rcases hs.2.2.2 with h | ⟨c, h, _⟩
        · exact h.2
        · rw [hcl] at h; cases h
      obtain ⟨gals1, h1⟩ := set_in_cluster_of_readable hgi hy
      obtain ⟨gn1, hgn1, hrn1⟩ := frame_vec_get _ _ _ (set_in_cluster_frame h1) _ gn hgn
      obtain ⟨x1, hx1⟩ := raised_flag_readable _ gn gn1 hrn1 _ false hx
      obtain ⟨gals2, h2⟩ := set_in_cluster_of_readable hgn1 hx1
      have hc : create_cluster zbin s a m.num gi gn =
          .ok ⟨gals2, s.list_of_clusters ++ [⟨s.cluster_count + 1, [gi, gn]⟩],
            s.cluster_count + 1⟩ := by
        simp [create_cluster, h1, h2, Cluster.add_gal]
      have hstep : seed_member F zbin a (zbin.link_r / A0.da) s m =
          .ok ⟨gals2, s.list_of_clusters ++ [⟨s.cluster_count + 1, [gi, gn]⟩],
            s.cluster_count + 1⟩ := by
        unfold seed_member
        simp only [hgi, hgn, hfr, hy]
        exact hc
      obtain ⟨_, _, hframe, hfa, hfm, hoth⟩ := create_cluster_ok hc
      have hmem := create_cluster_members hc
      refine ⟨_, hstep, ⟨frame_trans _ _ _ _ hs.1 hframe, ?_, ?_, ?_⟩, fun _ => hfa, hframe,
        fun _ _ => hfm⟩
      · exact (core_inv_stable F zbin).1 s _ a m.num gi gn _ hs.2.1 hgi hgn (hbin gi) hy hfr hc
      · refine scen_flags_new zbin S s _ hs.2.2.1 ?_ [(a : Int), m.num] ?_ ?_
        · intro k hk
          rw [hmem, List.map_append]
          exact List.mem_append_left _ hk
        · intro k hk
          simp only [List.mem_cons, List.mem_singleton, List.not_mem_nil, or_false] at hk
          rw [hmem]
          rcases hk with rfl | rfl
          · exact ⟨hSa, by simp [hgin]⟩
          · exact ⟨hSm, by simp [hgnn]⟩
        · intro k hk
          simp only [List.mem_cons, List.mem_singleton, List.not_mem_nil, or_false,
            not_or] at hk
          exact hoth k hk.1 hk.2
      · exact Or.inr ⟨⟨s.cluster_count + 1, [gi, gn]⟩, by simp [hcl], by simp [hcc],
          by simp [hcc]⟩
    | true =>
      obtain ⟨_, hamem⟩ := hs.2.2.1 _ gi hgi hy
      have hne1 : s.list_of_clusters ≠ [] := by
        intro h
        rw [h] at hamem
        simp [all_members] at hamem
      obtain ⟨c, hcl, hcc, hcnum⟩ : ∃ c, s.list_of_clusters = [c] ∧ s.cluster_count = 0 ∧
          c.num = 0 := by
        rcases hs.2.2.2 with h | h
        · exact absurd h.1 hne1
        · exact h
      obtain ⟨gals, h1⟩ := set_in_cluster_of_readable hgn hx
      have ha : append_member zbin s m.num gn =
          .ok { s with gal_list := gals, list_of_clusters := [c.add_gal gn] } := by
        simp [append_member, vec_update, vec_get, hcl, hcc, h1]
      have hstep : seed_member F zbin a (zbin.link_r / A0.da) s m =
          .ok { s with gal_list := gals, list_of_clusters := [c.add_gal gn] } := by
        unfold seed_member
        simp only [hgi, hgn, hfr, hy]
        exact ha
      obtain ⟨_, _, hframe, hfm, hoth⟩ := append_member_ok ha
      have hperm := append_member_members ha
      refine ⟨_, hstep, ⟨frame_trans _ _ _ _ hs.1 hframe, ?_, ?_, ?_⟩,
        fun _ => flag_of_frame_true _ _ _ hframe _ (hs2 hne1), hframe, fun _ _ => hfm⟩
      · exact (core_inv_stable F zbin).2 s _ m.num gi gn _ hs.2.1 hgn (Or.inl ⟨a, hgi⟩) hfr ha
      · refine scen_flags_new zbin S s _ hs.2.2.1 ?_ [m.num] ?_ ?_
        · intro k hk
          rw [(hperm.map _).mem_iff, List.map_append]
          exact List.mem_append_left _ hk
        · intro k hk
          simp only [List.mem_singleton] at hk
          subst hk
          refine ⟨hSm, ?_⟩
          rw [(hperm.map _).mem_iff]
          simp [hgnn]
        · intro k hk
          simp only [List.mem_singleton] at hk
          exact hoth k hk
      · exact Or.inr ⟨c.add_gal gn, rfl, hcc, by simp [Cluster.add_gal, hcnum]⟩

theorem seed_node_main (F : FoF) (tree : Kdtree) (zbin : Zbin) (G : List Galaxy)
    (S : Int → Prop) (hsc : Scenario F tree zbin G S) (a : Nat) (A0 : Galaxy)
    (hA0 : vec_get G a = some A0) (hSa : S a) (s : DriverState)
    (hs : scen_inv zbin G S s)
    (hs2 : s.list_of_clusters ≠ [] → flag_of s.gal_list zbin.num a = some true)
    (node : Kdtree_node) (hnode : node ∈ tree.node_list) :
    ∃ s1, seed_node F zbin a (zbin.link_r / A0.da) s node = .ok s1 ∧
      scen_inv zbin G S s1 ∧
      (s1.list_of_clusters ≠ [] → flag_of s1.gal_list zbin.num a = some true) ∧
      frame zbin.num s.gal_list s1.gal_list ∧
      (∀ m ∈ node.members, S m.num → m.num ≠ a →
        flag_of s1.gal_list zbin.num m.num = some true) := by
  obtain ⟨gi, hgi, hri⟩ := frame_vec_get _ _ _ hs.1 _ A0 hA0
  obtain ⟨_, _, fi_ra, fi_dec, _⟩ := raised_fields _ _ _ hri
  have hA0n := dense_vec_get G hsc.nums _ A0 hA0
  unfold seed_node
  simp only [hgi]
  by_cases hn : F.node_check gi node (zbin.link_r / A0.da) = true
  · simp only [hn, if_true]
    have hloop := loopM_total
      (fun (pre : List Kdtree_member) (t : DriverState) =>
        scen_inv zbin G S t ∧
        (t.list_of_clusters ≠ [] → flag_of t.gal_list zbin.num a = some true) ∧
        frame zbin.num s.gal_list t.gal_list ∧
        (∀ m ∈ pre, S m.num → m.num ≠ a → flag_of t.gal_list zbin.num m.num = some true))
      (seed_member F zbin a (zbin.link_r / A0.da)) node.members
      (by
        intro pre m t hdec ht
        obtain ⟨post, hpost⟩ := hdec
        have hm : m ∈ node.members := by rw [hpost]; simp
        obtain ⟨t1, hstep, h1, h2, h3, h4⟩ := seed_member_main F tree zbin G S hsc a A0 hA0 hSa
          t ht.1 ht.2.1 node hnode m hm
        refine ⟨t1, hstep, h1, h2, frame_trans _ _ _ _ ht.2.2.1 h3, ?_⟩
        intro m1 hm1 hS1 hne1
        rw [List.mem_append, List.mem_singleton] at hm1
        rcases hm1 with hm1 | rfl
        · exact flag_of_frame_true _ _ _ h3 _ (ht.2.2.2 m1 hm1 hS1 hne1)
        · exact h4 hS1 hne1)
      s ⟨hs, hs2, frame_refl _ _, by simp⟩
    obtain ⟨s1, hl, h1, h2, h3, h4⟩ := hloop
    exact ⟨s1, hl, h1, h2, h3, h4⟩
  · simp only [hn, Bool.false_eq_true, if_false]
    refine ⟨s, rfl, hs, hs2, frame_refl _ _, ?_⟩
    intro m hm hSm hne
    exfalso
    apply hn
    obtain ⟨B0, hB0⟩ := scen_members F tree zbin G S hsc node hnode m hm
    have hB0n := dense_vec_get G hsc.nums _ B0 hB0
    have hcl := hsc.close A0 (vec_get_mem hA0) B0 (vec_get_mem hB0) (by rw [hA0n]; exact hSa)
      (by rw [hB0n]; exact hSm) (by rw [hA0n, hB0n]; exact fun h => hne h.symm)
    have hsound := scen_pruning F tree zbin G S hsc node hnode m hm A0 (vec_get_mem hA0) B0
      hB0 _ hcl.1
    simp only [FoF.node_check, fi_ra, fi_dec] at hsound ⊢
    exact hsound

theorem seed_loop_main (F : FoF) (tree : Kdtree) (zbin : Zbin) (G : List Galaxy)
    (S : Int → Prop) (hsc : Scenario F tree zbin G S) (a : Nat) (A0 : Galaxy)
    (hA0 : vec_get G a = some A0) (hSa : S a) (s : DriverState)
    (hs : scen_inv zbin G S s)
    (hs2 : s.list_of_clusters ≠ [] → flag_of s.gal_list zbin.num a = some true) :
    ∃ s1, loopM (seed_node F zbin a (zbin.link_r / A0.da)) tree.node_list s = .ok s1 ∧
      scen_inv zbin G S s1 ∧
      (s1.list_of_clusters ≠ [] → flag_of s1.gal_list zbin.num a = some true) ∧
      (∀ node ∈ tree.node_list, ∀ m ∈ node.members, S m.num → m.num ≠ a →
        flag_of s1.gal_list zbin.num m.num = some true) := by
  have hloop := loopM_total
    (fun (pre : List Kdtree_node) (t : DriverState) =>
      scen_inv zbin G S t ∧
      (t.list_of_clusters ≠ [] → flag_of t.gal_list zbin.num a = some true) ∧
      (∀ node ∈ pre, ∀ m ∈ node.members, S m.num → m.num ≠ a →
        flag_of t.gal_list zbin.num m.num = some true))
    (seed_node F zbin a (zbin.link_r / A0.da)) tree.node_list
    (by
      intro pre node t hdec ht
      obtain ⟨post, hpost⟩ := hdec
      have hnode : node ∈ tree.node_list := by rw [hpost]; simp
      obtain ⟨t1, hstep, h1, h2, h3, h4⟩ := seed_node_main F tree zbin G S hsc a A0 hA0 hSa
        t ht.1 ht.2.1 node hnode
      refine ⟨t1, hstep, h1, h2, ?_⟩
      intro node1 hnode1 m hm hS1 hne1
      rw [List.mem_append, List.mem_singleton] at hnode1
      rcases hnode1 with hnode1 | rfl
      · exact flag_of_frame_true _ _ _ h3 _ (ht.2.2 node1 hnode1 m hm hS1 hne1)
      · exact h4 m hm hS1 hne1)
    s ⟨hs, hs2, by simp⟩
  exact hloop

theorem nodup_bounded_length (l : List Int) (n : Nat) (hnd : l.Nodup)
    (hb : ∀ k ∈ l, 0 ≤ k ∧ k < n) : l.length ≤ n := by
  have hnd2 : (l.map Int.toNat).Nodup := by
    apply List.Nodup.map_on _ hnd
    intro x hx y hy hxy
    have := (hb x hx).1
    have := (hb y hy).1
    omega
  have hsub : l.map Int.toNat ⊆ List.range n := by
    intro k hk
    obtain ⟨x, hx, rfl⟩ := List.mem_map.mp hk
    have := hb x hx
    exact List.mem_range.mpr (by omega)
  have := (hnd2.subperm hsub).length_le
  simpa using this

/-- In a `Scenario` the pass of the first seed of the group, started in the
initial state, returns with the whole group flagged; its growth loop finds
nothing to add. -/
theorem seed_step_main (F : FoF) (tree : Kdtree) (zbin : Zbin) (G : List Galaxy)
    (S : Int → Prop) (hsc : Scenario F tree zbin G S) (fuel : Nat)
    (hfuel : G.length ≤ fuel) (rf : ℚ) (a : Nat) (A0 : Galaxy)
    (hA0 : vec_get G a = some A0) (hSa : S a) :
    ∃ s1 rf1, seed_step F tree zbin fuel (⟨G, [], -1⟩, rf) a = .ok (s1, rf1) ∧
      scen_done zbin G S s1 := by
  have hs0 := scen_inv_initial F tree zbin G S hsc
  obtain ⟨s1, hloop, hs1, hs1b, hall⟩ := seed_loop_main F tree zbin G S hsc a A0 hA0 hSa
    ⟨G, [], -1⟩ hs0 (fun h => absurd rfl h)
  have hother : ∀ k, S k → k ≠ (a : Int) → flag_of s1.gal_list zbin.num k = some true := by
    intro k hk hne
    obtain ⟨g, hg, hgk⟩ := hsc.group k hk
    obtain ⟨node, hnode, m, hm, hmn⟩ := hsc.cover g hg
    rw [hgk] at hmn
    rw [← hmn]
    exact hall node hnode m hm (by rw [hmn]; exact hk) (by rw [hmn]; exact hne)
  obtain ⟨b0, hSb, hba⟩ : ∃ b0, S b0 ∧ b0 ≠ (a : Int) := by
    obtain ⟨u, v, hu, hv, huv⟩ := hsc.two
    by_cases h : u = (a : Int)
    · exact ⟨v, hv, fun hva => huv (h.trans hva.symm)⟩
    · exact ⟨u, hu, h⟩
  have hne : s1.list_of_clusters ≠ [] := by
    obtain ⟨g, hg, hfl⟩ := flag_of_cases _ _ _ _ (hother b0 hSb hba)
    obtain ⟨_, hmem⟩ := hs1.2.2.1 b0 g hg hfl
    intro h
    rw [h] at hmem
    simp [all_members] at hmem
  have hfa := hs1b hne
  have hallS : ∀ k, S k → flag_of s1.gal_list zbin.num k = some true := by
    intro k hk
    by_cases h : k = (a : Int)
    · rw [h]; exact hfa
    · exact hother k hk h
  obtain ⟨c, hcl, hcc, _⟩ : ∃ c, s1.list_of_clusters = [c] ∧ s1.cluster_count = 0 ∧
      c.num = 0 := by
    rcases hs1.2.2.2 with h | h
    · exact absurd h.1 hne
    · exact h
  have hc : vec_get s1.list_of_clusters s1.cluster_count = some c := by
    simp [vec_get, hcl, hcc]
  obtain ⟨gi1, hgi1, hfl1⟩ := flag_of_cases _ _ _ _ hfa
  have hlen : c.mem.length ≤ G.length := by
    have hmem : all_members s1.list_of_clusters = c.mem := by simp [all_members, hcl]
    have hnd := hs1.2.1.2.1
    rw [hmem] at hnd
    have := nodup_bounded_length _ G.length hnd (by
      intro k hk
      obtain ⟨m, hm, rfl⟩ := List.mem_map.mp hk
      obtain ⟨g0, hg0, _⟩ := scen_member_origin F tree zbin G S hsc s1 hs1 m
        (by rw [hmem]; exact hm)
      obtain ⟨h0, hlt, hcast⟩ := vec_get_lt hg0
      exact ⟨h0, by omega⟩)
    simpa using this
  have hgrow : growth_loop F tree zbin (zbin.link_r / A0.da) fuel 0 s1 = .ok s1 := by
    refine growth_loop_unchanged F tree zbin _ s1 c hc ?_ fuel 0 (by omega)
    intro ii gm hgm node hnode m hm
    obtain ⟨M0, hM0, hM0m, hSgm, hM0n, hM0ra, hM0dec, _⟩ :=
      scen_member_origin F tree zbin G S hsc s1 hs1 gm (current_member_mem s1 ii gm hgm)
    obtain ⟨B0, hB0⟩ := scen_members F tree zbin G S hsc node hnode m hm
    obtain ⟨gn, hgn, hrn⟩ := frame_vec_get _ _ _ hs1.1 _ B0 hB0
    have hB0n := dense_vec_get G hsc.nums _ B0 hB0
    obtain ⟨fn_num, _, fn_ra, fn_dec, _⟩ := raised_fields _ _ _ hrn
    obtain ⟨x, hx⟩ := frame_readable _ G _ hsc.flags hs1.1 _ gn hgn
    cases x with
    | true => exact ⟨gn, hgn, friendship_flagged F zbin gm gn _ hx⟩
    | false =>
      refine ⟨gn, hgn, friendship_far F zbin gm gn _ false hx ?_⟩
      intro hne1
      have hnS : ¬ S B0.num := by
        rw [hB0n]
        intro hSm
        have := hallS m.num hSm
        rw [flag_of_some _ _ _ gn false hgn hx] at this
        cases this
      have hfar := (hsc.far B0 (vec_get_mem hB0) hnS M0 hM0m
        (by rw [hM0n, ← fn_num]; exact hne1) A0 (vec_get_mem hA0)).2
      rw [fn_ra, fn_dec, ← hM0ra, ← hM0dec]
      exact hfar
  have hmode : (F.mode == "spec") = true := by simp [hsc.mode_spec]
  have hbin : F.bin_check zbin A0 = true := by simp [FoF.bin_check, hsc.mode_spec]
  refine ⟨s1, zbin.link_r / A0.da, ?_, hs1, hallS⟩
  unfold seed_step
  simp only [hA0, hsc.flags A0 (vec_get_mem hA0), hmode, if_true, hbin, hloop, hgi1, hfl1,
    hgrow]

theorem one_mod_le (w : Nat) : (1 : Int) % (2 : Int) ^ w ≤ 1 := by
  cases w with
  | zero => simp
  | succ n =>
    have h : (1 : Int) < (2 : Int) ^ (n + 1) := by
      have : (2 : Int) ^ (n + 1) = 2 * 2 ^ n := by ring
      have hpos : (0 : Int) < 2 ^ n := by positivity
      omega
    rw [Int.emod_eq_of_lt (by decide) h]

theorem scen_loop (F : FoF) (tree : Kdtree) (zbin : Zbin) (G : List Galaxy)
    (S : Int → Prop) (hsc : Scenario F tree zbin G S) (fuel : Nat)
    (hfuel : G.length ≤ fuel) :
    ∃ st, loopM (seed_step F tree zbin fuel) (List.range G.length)
        (⟨G, [], -1⟩, zbin.rfriend) = .ok st ∧ scen_done zbin G S st.1 := by
  have hloop := loopM_total
    (fun (pre : List Nat) (t : DriverState × ℚ) =>
      (t.1 = (⟨G, [], -1⟩ : DriverState) ∧ ∀ i ∈ pre, ¬ S (i : Int)) ∨ scen_done zbin G S t.1)
    (seed_step F tree zbin fuel) (List.range G.length)
    (by
      intro pre i t hdec ht
      obtain ⟨post, hpost⟩ := hdec
      have hi : i < G.length := by
        have : i ∈ List.range G.length := by rw [hpost]; simp
        exact List.mem_range.mp this
      obtain ⟨t1, t2⟩ := t
      simp only at ht
      by_cases hS : S (i : Int)
      · rcases ht with ⟨rfl, _⟩ | hdone
        · obtain ⟨A0, hA0⟩ := vec_get_of_lt G (i : Int) (by omega) (by omega)
          obtain ⟨s1, rf1, hstep, hd⟩ := seed_step_main F tree zbin G S hsc fuel hfuel t2 i
            A0 hA0 hS
          exact ⟨(s1, rf1), hstep, Or.inr hd⟩
        · obtain ⟨g, hg, hfl⟩ := flag_of_cases _ _ _ _ (hdone.2 i hS)
          exact ⟨_, seed_step_skip F tree zbin fuel t1 t2 i g hg hfl, Or.inr hdone⟩
      · have hinv : scen_inv zbin G S t1 := by
          rcases ht with ⟨rfl, _⟩ | hdone
          · exact scen_inv_initial F tree zbin G S hsc
          · exact hdone.1
        obtain ⟨rf1, hstep⟩ := seed_step_isolated F tree zbin G S hsc fuel t1 t2 i hinv hi hS
        refine ⟨(t1, rf1), hstep, ?_⟩
        rcases ht with ⟨rfl, hpre⟩ | hdone
        · refine Or.inl ⟨rfl, ?_⟩
          intro j hj
          rw [List.mem_append, List.mem_singleton] at hj
          rcases hj with hj | rfl
          · exact hpre j hj
          · exact hS
        · exact Or.inr hdone)
    (⟨G, [], -1⟩, zbin.rfriend) (Or.inl ⟨rfl, by simp⟩)
  obtain ⟨st, hst, hP⟩ := hloop
  refine ⟨st, hst, ?_⟩
  rcases hP with ⟨_, hnone⟩ | hdone
  · exfalso
    obtain ⟨u, _, hu, _, _⟩ := hsc.two
    obtain ⟨g, hg, hgu⟩ := hsc.group u hu
    obtain ⟨k, hk⟩ := mem_vec_get hg
    have hlt := (vec_get_lt hk).2.1
    rw [Int.toNat_ofNat] at hlt
    apply hnone k (List.mem_range.mpr hlt)
    rw [← dense_vec_get G hsc.nums _ g hk, hgu]
    exact hu
  · exact hdone

/-- C8: in a `Scenario` (mode "spec", one group `S` of at least two galaxies
that are pairwise within the linking radius and velocity-compatible, all other
galaxies farther than every linking radius from every other galaxy, the
quotients `link_r / da` and `link_z / (1 + z)` having divisors other than 0),
with fuel at least the number of galaxies, `friends_of_friends` returns and `remove(1)`
then leaves exactly one cluster; its `num` is 0, no `num` occurs twice among
its members, the `num`s of its members are exactly those of the group, and
every member is a copy of the galaxy of the list with that `num`. -/
theorem one_group_one_cluster (F : FoF) (tree : Kdtree) (zbin : Zbin) (G : List Galaxy)
    (S : Int → Prop) (hsc : Scenario F tree zbin G S) (fuel : Nat) (hfuel : G.length ≤ fuel)
    (w : Nat) :
    ∃ F1 G1 c, F.friends_of_friends fuel tree zbin G = .ok (F1, G1) ∧
      (F1.remove w 1).list_of_clusters = [c] ∧ c.num = 0 ∧
      (c.mem.map (fun g => g.num)).Nodup ∧
      (∀ k : Int, k ∈ c.mem.map (fun g => g.num) ↔ S k) ∧
      (∀ m ∈ c.mem, ∃ g ∈ G, g.num = m.num ∧ g.id = m.id ∧ g.ra = m.ra ∧ g.dec = m.dec) := by
  obtain ⟨st, hst, hinv, hall⟩ := scen_loop F tree zbin G S hsc fuel hfuel
  obtain ⟨u, _, hu, _, _⟩ := hsc.two
  have hne : st.1.list_of_clusters ≠ [] := by
    obtain ⟨g, hg, hfl⟩ := flag_of_cases _ _ _ _ (hall u hu)
    obtain ⟨_, hmem⟩ := hinv.2.2.1 u g hg hfl
    intro h
    rw [h] at hmem
    simp [all_members] at hmem
  obtain ⟨c, hcl, _, hcnum⟩ : ∃ c, st.1.list_of_clusters = [c] ∧ st.1.cluster_count = 0 ∧
      c.num = 0 := by
    rcases hinv.2.2.2 with h | h
    · exact absurd h.1 hne
    · exact h
  have hmem : all_members st.1.list_of_clusters = c.mem := by simp [all_members, hcl]
  have hnd : (c.mem.map (fun g => g.num)).Nodup := by
    have := hinv.2.1.2.1
    rw [hmem] at this
    exact this
  have horigin : ∀ m ∈ c.mem, ∃ g0, vec_get G m.num = some g0 ∧ g0 ∈ G ∧ S m.num ∧
      g0.num = m.num ∧ g0.ra = m.ra ∧ g0.dec = m.dec ∧ g0.id = m.id := by
    intro m hm
    exact scen_member_origin F tree zbin G S hsc st.1 hinv m (by rw [hmem]; exact hm)
  have hpw : c.mem.Pairwise (fun x y => Galaxy.eq x y = false) := by
    apply List.Nodup.pairwise_of_forall_ne (List.Nodup.of_map _ hnd)
    intro x hx y hy hxy
    obtain ⟨gx, _, hgx, _, hgxn, _, _, hgxid⟩ := horigin x hx
    obtain ⟨gy, _, hgy, _, hgyn, _, _, hgyid⟩ := horigin y hy
    by_contra hid
    have hideq : x.id = y.id := by
      simpa [Galaxy.eq] using hid
    have hg : gx = gy := List.inj_on_of_nodup_map hsc.ids hgx hgy
      (by rw [hgxid, hgyid, hideq])
    apply hxy
    exact List.inj_on_of_nodup_map hnd hx hy (by rw [← hgxn, ← hgyn, hg])
  have huniq : c.unique = c := by
    simp only [Cluster.unique]
    rw [unique_mem_fixed _ hpw]
  have hlen : 1 ≤ c.mem.length := by
    obtain ⟨g, hg, hfl⟩ := flag_of_cases _ _ _ _ (hall u hu)
    obtain ⟨_, hm⟩ := hinv.2.2.1 u g hg hfl
    rw [hmem] at hm
    obtain ⟨m, hm1, _⟩ := List.mem_map.mp hm
    exact List.length_pos_of_mem hm1
  have hkeep : too_small w 1 c = false := by
    have := one_mod_le w
    simp only [too_small, decide_eq_false_iff_not, not_lt]
    omega
  refine ⟨{ F with list_of_clusters := st.1.list_of_clusters }, st.1.gal_list, c, ?_, ?_,
    hcnum, hnd, ?_, ?_⟩
  · unfold FoF.friends_of_friends
    simp only [hsc.no_clusters, hst]
  · rw [remove_eq_filter]
    simp [hcl, huniq, hkeep]
  · intro k
    constructor
    · intro hk
      obtain ⟨m, hm, rfl⟩ := List.mem_map.mp hk
      exact (horigin m hm).choose_spec.2.2.1
    · intro hk
      obtain ⟨g, hg, hfl⟩ := flag_of_cases _ _ _ _ (hall k hk)
      have := (hinv.2.2.1 k g hg hfl).2
      rw [hmem] at this
      exact this
  · intro m hm
    obtain ⟨g0, _, hg0, _, hn, hra, hdec, hid⟩ := horigin m hm
    exact ⟨g0, hg0, hn, hid, hra, hdec⟩

theorem scen_bounds :
    ∀ node ∈ scen_tree.node_list, ∀ m ∈ node.members, ∀ B ∈ scen_gals, B.num = m.num →
      plane_astro.angsep node.ra node.dec B.ra B.dec ≤ node.radius := by
  decide!

theorem scen_close :
    ∀ A ∈ scen_gals, ∀ B ∈ scen_gals, (A.num = 1 ∨ A.num = 2 ∨ A.num = 3) →
      (B.num = 1 ∨ B.num = 2 ∨ B.num = 3) → A.num ≠ B.num →
      plane_astro.angsep A.ra A.dec B.ra B.dec ≤ scen_zbin.link_r / A.da ∧
      |A.v - B.v| ≤ spec_fof.link_z / (1 + A.z) := by
  decide!

theorem scen_far :
    ∀ X ∈ scen_gals, ¬ (X.num = 1 ∨ X.num = 2 ∨ X.num = 3) → ∀ Y ∈ scen_gals,
      Y.num ≠ X.num → ∀ K ∈ scen_gals,
      scen_zbin.link_r / K.da < plane_astro.angsep X.ra X.dec Y.ra Y.dec ∧
      scen_zbin.link_r / K.da < plane_astro.angsep Y.ra Y.dec X.ra X.dec := by
  decide!

theorem scen_valid :
    ∀ node ∈ scen_tree.node_list, ∀ m ∈ node.members,
      (vec_get scen_gals m.num).isSome = true := by
  decide

theorem scen_cover :
    ∀ g ∈ scen_gals, ∃ node ∈ scen_tree.node_list, ∃ m ∈ node.members, m.num = g.num := by
  decide

/-- The four galaxies of `scen_gals` with the index `scen_tree` form a
`Scenario` whose group are the galaxies 1, 2 and 3. -/
theorem scen_scenario :
    Scenario spec_fof scen_tree scen_zbin scen_gals (fun k => k = 1 ∨ k = 2 ∨ k = 3) where
  mode_spec := rfl
  no_clusters := rfl
  nums := scen_gals_dense
  ids := by decide
  flags := by decide
  da_ne := by decide!
  z_ne := by decide!
  cover := scen_cover
  sound := by
    intro node hnode m hm
    obtain ⟨B, hB⟩ := Option.isSome_iff_exists.mp (scen_valid node hnode m hm)
    refine ⟨B, hB, ?_⟩
    intro A _ r hr
    have hle := node_check_of_triangle spec_fof node A B r plane_astro_symm
      plane_astro_triangle
      (scen_bounds node hnode m hm B (vec_get_mem hB) (dense_vec_get _ scen_gals_dense _ B hB))
      hr
    simp [FoF.node_check, hle]
  group := by
    intro k hk
    rcases hk with rfl | rfl | rfl <;> decide
  two := ⟨1, 2, Or.inl rfl, Or.inr (Or.inl rfl), by decide⟩
  close := scen_close
  far := scen_far

/-- Instance of `one_group_one_cluster`: three coincident galaxies at redshift
0.1 and a fourth galaxy 10 away; the run with fuel 4 followed by `remove(1)`
leaves one cluster with `num = 0` whose members are the galaxies 1, 2 and 3. -/
theorem one_group_one_cluster_witness :
    ∃ F1 G1 c, spec_fof.friends_of_friends 4 scen_tree scen_zbin scen_gals = .ok (F1, G1) ∧
      (F1.remove 64 1).list_of_clusters = [c] ∧ c.num = 0 ∧
      (c.mem.map (fun g => g.num)).Nodup ∧
      (∀ k : Int, k ∈ c.mem.map (fun g => g.num) ↔ (k = 1 ∨ k = 2 ∨ k = 3)) ∧
      (∀ m ∈ c.mem, ∃ g ∈ scen_gals, g.num = m.num ∧ g.id = m.id ∧ g.ra = m.ra ∧
        g.dec = m.dec) :=
  one_group_one_cluster spec_fof scen_tree scen_zbin scen_gals
    (fun k => k = 1 ∨ k = 2 ∨ k = 3) scen_scenario 4 (by decide) 64

/-! ## The driver returns: no access out of range, enough fuel -/

theorem countP_set_eq (p : Galaxy → Bool) (l : List Galaxy) :
    ∀ (k : Nat) (x y : Galaxy), l[k]? = some x →
      (l.set k y).countP p + (if p x = true then 1 else 0) =
        l.countP p + (if p y = true then 1 else 0) := by
  induction l with
  | nil => intro k x y h; simp at h
  | cons a rest ih =>
    intro k x y h
    cases k with
    | zero =>
      simp only [List.getElem?_cons_zero, Option.some.injEq] at h
      subst h
      simp only [List.set_cons_zero, List.countP_cons]
      omega
    | succ k =>
      simp only [List.getElem?_cons_succ] at h
      have := ih k x y h
      simp only [List.set_cons_succ, List.countP_cons]
      omega

theorem unflagged_set_in_cluster {G G1 : List Galaxy} {k b : Int}
    (h : set_in_cluster G k b = some G1) (g : Galaxy) (hg : vec_get G k = some g) :
    unflagged b G1 ≤ unflagged b G ∧
    (vec_get g.in_cluster b = some false → unflagged b G1 + 1 = unflagged b G) := by
  obtain ⟨gal, hgal, ⟨x, hx⟩, rfl⟩ := set_in_cluster_some h
  rw [hg] at hgal
  cases hgal
  obtain ⟨hb0, hblt, _⟩ := vec_get_lt hx
  have hnew : vec_get ({ g with in_cluster := g.in_cluster.set b.toNat true } : Galaxy).in_cluster
      b = some true := by
    rw [vec_get_some_iff]
    exact ⟨hb0, List.getElem?_set_self hblt⟩
  have hcount := countP_set_eq (fun g => decide (vec_get g.in_cluster b = some false)) G
    k.toNat g { g with in_cluster := g.in_cluster.set b.toNat true }
    ((vec_get_some_iff _ _ _).mp hg).2
  simp only [hnew, decide_eq_true_eq] at hcount
  simp only [unflagged]
  constructor
  · by_cases hf : vec_get g.in_cluster b = some false
    · simp [hf] at hcount; omega
    · simp [hf] at hcount; omega
  · intro hf
    simp [hf] at hcount
    omega

theorem mem_length_le_all (clusters : List Cluster) (c : Cluster) (hc : c ∈ clusters) :
    c.mem.length ≤ (all_members clusters).length := by
  induction clusters with
  | nil => simp at hc
  | cons c0 rest ih =>
    simp only [all_members, List.flatMap_cons, List.length_append]
    rcases List.mem_cons.mp hc with rfl | h
    · omega
    · have := ih h
      simp only [all_members] at this
      omega

theorem frame_readable_gen (b : Int) (G G1 : List Galaxy) (hread : flags_readable b G)
    (hf : frame b G G1) (k : Int) (g : Galaxy) (hg : vec_get G1 k = some g) :
    ∃ x, vec_get g.in_cluster b = some x := by
  obtain ⟨g0, hg0, hr⟩ := frame_vec_get_back b G G1 hf k g hg
  obtain ⟨x0, hx0⟩ := hread g0 (vec_get_mem hg0)
  exact raised_flag_readable b g0 g hr b x0 hx0

theorem safe_inv_last (b : Int) (G0 : List Galaxy) (s : DriverState) (hs : safe_inv b G0 s)
    (hne : s.list_of_clusters ≠ []) :
    ∃ c, vec_get s.list_of_clusters s.cluster_count = some c := by
  have hpos : 0 < s.list_of_clusters.length := List.length_pos.mpr hne
  have := hs.2.1
  exact vec_get_of_lt _ _ (by omega) (by omega)

theorem append_member_total (zbin : Zbin) (G0 : List Galaxy) (s : DriverState)
    (hs : safe_inv zbin.num G0 s) (hne : s.list_of_clusters ≠ []) (k : Int) (gn : Galaxy)
    (hgn : vec_get s.gal_list k = some gn)
    (hfl : vec_get gn.in_cluster zbin.num = some false) :
    ∃ s1, append_member zbin s k gn = .ok s1 ∧ safe_inv zbin.num G0 s1 ∧
      s1.list_of_clusters ≠ [] ∧
      ∀ ii, (current_member s ii).isSome = true → (current_member s1 ii).isSome = true := by
  obtain ⟨c, hc⟩ := safe_inv_last _ G0 s hs hne
  obtain ⟨gals, h1⟩ := set_in_cluster_of_readable hgn hfl
  have ha : append_member zbin s k gn =
      .ok { s with gal_list := gals,
                   list_of_clusters := s.list_of_clusters.set s.cluster_count.toNat
                     (c.add_gal gn) } := by
    simp [append_member, vec_update, hc, h1]
  obtain ⟨_, _, hframe, _, _⟩ := append_member_ok ha
  have hperm := append_member_members ha
  have hcount := (unflagged_set_in_cluster h1 gn hgn).2 hfl
  have hne1 : s.list_of_clusters.set s.cluster_count.toNat (c.add_gal gn) ≠ [] := by
    intro h
    have := congrArg List.length h
    simp only [List.length_set, List.length_nil] at this
    exact hne (List.length_eq_zero.mp this)
  refine ⟨_, ha, ⟨frame_trans _ _ _ _ hs.1 hframe, ?_, ?_, ?_⟩, hne1, ?_⟩
  · simp only [List.length_set]
    exact hs.2.1
  · intro h
    exact absurd h hne1
  · have hlen := hperm.length_eq
    simp only [List.length_append, List.length_singleton] at hlen
    have := hs.2.2.2
    simp only at hlen ⊢
    omega
  · intro ii hii
    simp only [current_member, hc] at hii
    obtain ⟨h0, hlt, _⟩ := vec_get_lt hc
    have hc1 : vec_get (s.list_of_clusters.set s.cluster_count.toNat (c.add_gal gn))
        s.cluster_count = some (c.add_gal gn) := by
      rw [vec_get_some_iff]
      exact ⟨h0, List.getElem?_set_self hlt⟩
    simp only [current_member, hc1]
    obtain ⟨x, hx⟩ := Option.isSome_iff_exists.mp hii
    obtain ⟨hlt2, _⟩ := List.getElem?_eq_some_iff.mp hx
    rw [Option.isSome_iff_exists]
    exact ⟨_, List.getElem?_eq_getElem (by simp [Cluster.add_gal]; omega)⟩

theorem create_cluster_total (zbin : Zbin) (G0 : List Galaxy) (s : DriverState)
    (hs : safe_inv zbin.num G0 s) (i : Nat) (k : Int) (gi gn : Galaxy)
    (hgi : vec_get s.gal_list i = some gi)
    (hfi : vec_get gi.in_cluster zbin.num = some false)
    (hgn : vec_get s.gal_list k = some gn)
    (hfn : vec_get gn.in_cluster zbin.num = some false) (hik : k ≠ (i : Int)) :
    ∃ s1, create_cluster zbin s i k gi gn = .ok s1 ∧ safe_inv zbin.num G0 s1 ∧
      s1.list_of_clusters ≠ [] := by
  obtain ⟨gals1, h1⟩ := set_in_cluster_of_readable hgi hfi
  have hgn1 : vec_get gals1 k = some gn := by
    rw [set_in_cluster_other h1 k hik]
    exact hgn
  obtain ⟨gals2, h2⟩ := set_in_cluster_of_readable hgn1 hfn
  have hc : create_cluster zbin s i k gi gn =
      .ok ⟨gals2, s.list_of_clusters ++ [⟨s.cluster_count + 1, [gi, gn]⟩],
        s.cluster_count + 1⟩ := by
    simp [create_cluster, h1, h2, Cluster.add_gal]
  obtain ⟨_, _, hframe, _⟩ := create_cluster_ok hc
  have hmem := create_cluster_members hc
  have hc1 := (unflagged_set_in_cluster h1 gi hgi).2 hfi
  have hc2 := (unflagged_set_in_cluster h2 gn hgn1).2 hfn
  refine ⟨_, hc, ⟨frame_trans _ _ _ _ hs.1 hframe, ?_, ?_, ?_⟩, by simp⟩
  · simp only [List.length_append, List.length_singleton]
    have := hs.2.1
    push_cast
    omega
  · intro h
    simp at h
  · rw [hmem]
    have := hs.2.2.2
    simp only [List.length_append, List.length_cons, List.length_nil]
    omega

theorem seed_member_total (F : FoF) (tree : Kdtree) (zbin : Zbin) (G0 : List Galaxy)
    (hvalid : index_valid tree G0) (hread : flags_readable zbin.num G0) (i : Nat)
    (hi : i < G0.length) (hG0i : flag_of G0 zbin.num i = some false) (r : ℚ)
    (s : DriverState) (hs : safe_inv zbin.num G0 s) (node : Kdtree_node)
    (hnode : node ∈ tree.node_list) (m : Kdtree_member) (hm : m ∈ node.members) :
    ∃ s1, seed_member F zbin i r s m = .ok s1 ∧ safe_inv zbin.num G0 s1 := by
  have hlen := hs.1.1
  obtain ⟨gi, hgi⟩ := vec_get_of_lt s.gal_list (i : Int) (by omega) (by omega)
  obtain ⟨hm0, hm1⟩ := hvalid node hnode m hm
  obtain ⟨gn, hgn⟩ := vec_get_of_lt s.gal_list m.num hm0 (by omega)
  obtain ⟨x, hx⟩ := frame_readable_gen _ G0 _ hread hs.1 _ gn hgn
  obtain ⟨y, hy⟩ := frame_readable_gen _ G0 _ hread hs.1 _ gi hgi
  obtain ⟨fr, hfr⟩ := friendship_readable F zbin gi gn r x hx
  cases fr with
  | false => exact ⟨s, seed_member_no_friend F zbin i r s m gi gn hgi hgn hfr, hs⟩
  | true =>
    obtain ⟨hne, _, hfln, _, _⟩ := (friendship_ok_true_iff F zbin gi gn r).mp hfr
    cases y with
    | false =>
      have hik : m.num ≠ (i : Int) := by
        intro h
        rw [h, hgi] at hgn
        cases hgn
        exact hne rfl
      obtain ⟨s1, hc, hs1, _⟩ := create_cluster_total zbin G0 s hs i m.num gi gn hgi hy hgn
        hfln hik
      refine ⟨s1, ?_, hs1⟩
      unfold seed_member
      simp only [hgi, hgn, hfr, hy]
      exact hc
    | true =>
      have hne1 : s.list_of_clusters ≠ [] := by
        intro h
        have hG := hs.2.2.1 h
        rw [hG] at hgi
        rw [flag_of_some _ _ _ gi true hgi hy] at hG0i
        cases hG0i
      obtain ⟨s1, ha, hs1, _⟩ := append_member_total zbin G0 s hs hne1 m.num gn hgn hfln
      refine ⟨s1, ?_, hs1⟩
      unfold seed_member
      simp only [hgi, hgn, hfr, hy]
      exact ha

theorem seed_loop_total (F : FoF) (tree : Kdtree) (zbin : Zbin) (G0 : List Galaxy)
    (hvalid : index_valid tree G0) (hread : flags_readable zbin.num G0) (i : Nat)
    (hi : i < G0.length) (hG0i : flag_of G0 zbin.num i = some false) (r : ℚ)
    (s : DriverState) (hs : safe_inv zbin.num G0 s) :
    ∃ s1, loopM (seed_node F zbin i r) tree.node_list s = .ok s1 ∧
      safe_inv zbin.num G0 s1 := by
  refine loopM_total (fun _ t => safe_inv zbin.num G0 t) _ tree.node_list ?_ s hs
  intro pre node t hdec ht
  obtain ⟨post, hpost⟩ := hdec
  have hnode : node ∈ tree.node_list := by rw [hpost]; simp
  obtain ⟨gi, hgi⟩ := vec_get_of_lt t.gal_list (i : Int) (by omega)
    (by have := ht.1.1; omega)
  unfold seed_node
  simp only [hgi]
  by_cases hn : F.node_check gi node r = true
  · simp only [hn, if_true]
    refine loopM_total (fun _ u => safe_inv zbin.num G0 u) _ node.members ?_ t ht
    intro pre1 m u hdec1 hu
    obtain ⟨post1, hpost1⟩ := hdec1
    have hm : m ∈ node.members := by rw [hpost1]; simp
    exact seed_member_total F tree zbin G0 hvalid hread i hi hG0i r u hu node hnode m hm
  · simp only [hn, Bool.false_eq_true, if_false]
    exact ⟨t, rfl, ht⟩

theorem growth_member_total (F : FoF) (tree : Kdtree) (zbin : Zbin) (G0 : List Galaxy)
    (hvalid : index_valid tree G0) (hread : flags_readable zbin.num G0) (ii : Nat) (r : ℚ)
    (s : DriverState) (hs : safe_inv zbin.num G0 s) (hne : s.list_of_clusters ≠ [])
    (hcur : (current_member s ii).isSome = true) (node : Kdtree_node)
    (hnode : node ∈ tree.node_list) (m : Kdtree_member) (hm : m ∈ node.members) :
    ∃ s1, growth_member F zbin ii r s m = .ok s1 ∧ safe_inv zbin.num G0 s1 ∧
      s1.list_of_clusters ≠ [] ∧ (current_member s1 ii).isSome = true := by
  have hlen := hs.1.1
  obtain ⟨gm, hgm⟩ := Option.isSome_iff_exists.mp hcur
  obtain ⟨hm0, hm1⟩ := hvalid node hnode m hm
  obtain ⟨gn, hgn⟩ := vec_get_of_lt s.gal_list m.num hm0 (by omega)
  obtain ⟨x, hx⟩ := frame_readable_gen _ G0 _ hread hs.1 _ gn hgn
  obtain ⟨fr, hfr⟩ := friendship_readable F zbin gm gn r x hx
  unfold growth_member
  simp only [hgm, hgn, hfr]
  cases fr with
  | false => exact ⟨s, rfl, hs, hne, hcur⟩
  | true =>
    obtain ⟨_, _, hfln, _, _⟩ := (friendship_ok_true_iff F zbin gm gn r).mp hfr
    obtain ⟨s1, ha, hs1, hne1, hkeep⟩ := append_member_total zbin G0 s hs hne m.num gn hgn hfln
    exact ⟨s1, ha, hs1, hne1, hkeep ii hcur⟩

theorem growth_nodes_total (F : FoF) (tree : Kdtree) (zbin : Zbin) (G0 : List Galaxy)
    (hvalid : index_valid tree G0) (hread : flags_readable zbin.num G0) (ii : Nat) (r : ℚ)
    (s : DriverState) (hs : safe_inv zbin.num G0 s) (hne : s.list_of_clusters ≠ [])
    (hcur : (current_member s ii).isSome = true) :
    ∃ s1, loopM (growth_node F zbin ii r) tree.node_list s = .ok s1 ∧
      safe_inv zbin.num G0 s1 ∧ s1.list_of_clusters ≠ [] := by
  have hloop := loopM_total
    (fun (_ : List Kdtree_node) (t : DriverState) =>
      safe_inv zbin.num G0 t ∧ t.list_of_clusters ≠ [] ∧ (current_member t ii).isSome = true)
    (growth_node F zbin ii r) tree.node_list
    (by
      intro pre node t hdec ht
      obtain ⟨post, hpost⟩ := hdec
      have hnode : node ∈ tree.node_list := by rw [hpost]; simp
      obtain ⟨gm, hgm⟩ := Option.isSome_iff_exists.mp ht.2.2
      unfold growth_node
      simp only [hgm]
      by_cases hn : F.node_check gm node r = true
      · simp only [hn, if_true]
        refine loopM_total
          (fun (_ : List Kdtree_member) (u : DriverState) =>
            safe_inv zbin.num G0 u ∧ u.list_of_clusters ≠ [] ∧
              (current_member u ii).isSome = true)
          _ node.members ?_ t ht
        intro pre1 m u hdec1 hu
        obtain ⟨post1, hpost1⟩ := hdec1
        have hm : m ∈ node.members := by rw [hpost1]; simp
        exact growth_member_total F tree zbin G0 hvalid hread ii r u hu.1 hu.2.1 hu.2.2
          node hnode m hm
      · simp only [hn, Bool.false_eq_true, if_false]
        exact ⟨t, rfl, ht⟩)
    s ⟨hs, hne, hcur⟩
  obtain ⟨s1, hl, h1, h2, _⟩ := hloop
  exact ⟨s1, hl, h1, h2⟩

/-- The growth loop returns when the fuel covers the galaxies not yet scanned:
the cluster being scanned never has more members than there are galaxies. -/
theorem growth_loop_total (F : FoF) (tree : Kdtree) (zbin : Zbin) (G0 : List Galaxy)
    (hvalid : index_valid tree G0) (hread : flags_readable zbin.num G0) (r : ℚ) :
    ∀ (fuel ii : Nat) (s : DriverState), safe_inv zbin.num G0 s → s.list_of_clusters ≠ [] →
      G0.length ≤ fuel + ii →
      ∃ s1, growth_loop F tree zbin r fuel ii s = .ok s1 ∧ safe_inv zbin.num G0 s1 := by
  intro fuel
  induction fuel with
  | zero =>
    intro ii s hs hne hfuel
    obtain ⟨c, hc⟩ := safe_inv_last _ G0 s hs hne
    have h1 := mem_length_le_all _ c (vec_get_mem hc)
    have h2 := hs.2.2.2
    have h3 : unflagged zbin.num G0 ≤ G0.length := List.countP_le_length _
    have hlt : ¬ ii < c.mem.length := by omega
    unfold growth_loop
    simp only [hc, hlt, if_false]
    exact ⟨s, rfl, hs⟩
  | succ fuel ih =>
    intro ii s hs hne hfuel
    obtain ⟨c, hc⟩ := safe_inv_last _ G0 s hs hne
    unfold growth_loop
    simp only [hc]
    by_cases hlt : ii < c.mem.length
    · have hcur : (current_member s ii).isSome = true := by
        rw [current_member_of_lt s c ii hc hlt]
        rfl
      obtain ⟨s1, hl, hs1, hne1⟩ := growth_nodes_total F tree zbin G0 hvalid hread ii r s hs
        hne hcur
      simp only [hlt, if_true, hl]
      exact ih (ii + 1) s1 hs1 hne1 (by omega)
    · simp only [hlt, if_false]
      exact ⟨s, rfl, hs⟩

theorem seed_step_total (F : FoF) (tree : Kdtree) (zbin : Zbin) (G0 : List Galaxy)
    (hvalid : index_valid tree G0) (hread : flags_readable zbin.num G0) (fuel : Nat)
    (hfuel : G0.length ≤ fuel) (st : DriverState × ℚ) (hs : safe_inv zbin.num G0 st.1)
    (i : Nat) (hi : i < G0.length) :
    ∃ st1, seed_step F tree zbin fuel st i = .ok st1 ∧ safe_inv zbin.num G0 st1.1 := by
  have hlen := hs.1.1
  obtain ⟨gi, hgi⟩ := vec_get_of_lt st.1.gal_list (i : Int) (by omega) (by omega)
  obtain ⟨y, hy⟩ := frame_readable_gen _ G0 _ hread hs.1 _ gi hgi
  unfold seed_step
  simp only [hgi, hy]
  cases y with
  | true => exact ⟨_, rfl, hs⟩
  | false =>
    have hG0i : flag_of G0 zbin.num i = some false := by
      obtain ⟨g0, hg0, hr⟩ := frame_vec_get_back _ G0 _ hs.1 _ gi hgi
      obtain ⟨x0, hx0⟩ := hread g0 (vec_get_mem hg0)
      cases x0 with
      | false => exact flag_of_some _ _ _ g0 false hg0 hx0
      | true =>
        have := raised_flag_true _ g0 gi hr hx0
        rw [hy] at this
        cases this
    by_cases hb : F.bin_check zbin gi = true
    · simp only [hb, if_true]
      obtain ⟨s1, hl, hs1⟩ := seed_loop_total F tree zbin G0 hvalid hread i hi hG0i
        (if (F.mode == "spec") = true then zbin.link_r / gi.da else st.2) st.1 hs
      simp only [hl]
      obtain ⟨gi1, hgi1⟩ := vec_get_of_lt s1.gal_list (i : Int) (by omega)
        (by have := hs1.1.1; omega)
      obtain ⟨y1, hy1⟩ := frame_readable_gen _ G0 _ hread hs1.1 _ gi1 hgi1
      simp only [hgi1, hy1]
      cases y1 with
      | false => exact ⟨_, rfl, hs1⟩
      | true =>
        have hne1 : s1.list_of_clusters ≠ [] := by
          intro h
          have hG := hs1.2.2.1 h
          rw [hG] at hgi1
          rw [flag_of_some _ _ _ gi1 true hgi1 hy1] at hG0i
          cases hG0i
        obtain ⟨s2, hg, hs2⟩ := growth_loop_total F tree zbin G0 hvalid hread
          (if (F.mode == "spec") = true then zbin.link_r / gi.da else st.2) fuel 0 s1 hs1 hne1
          (by omega)
        simp only [hg]
        exact ⟨_, rfl, hs2⟩
    · simp only [hb, Bool.false_eq_true, if_false]
      exact ⟨_, rfl, hs⟩

/-- The run of `friends_of_friends` returns when the cluster list is empty on
entry, every index member refers to a position of the galaxy list, the flag of
the bin can be read in every galaxy, and the fuel is at least the number of
galaxies: no access is out of range and every growth loop ends. -/
theorem driver_total (F : FoF) (tree : Kdtree) (zbin : Zbin) (fuel : Nat)
    (gal_list : List Galaxy) (hempty : F.list_of_clusters = [])
    (hvalid : index_valid tree gal_list) (hread : flags_readable zbin.num gal_list)
    (hfuel : gal_list.length ≤ fuel) :
    ∃ F1 G1, F.friends_of_friends fuel tree zbin gal_list = .ok (F1, G1) := by
  have h0 : safe_inv zbin.num gal_list ⟨gal_list, F.list_of_clusters, -1⟩ := by
    rw [hempty]
    exact ⟨frame_refl _ _, by simp, fun _ => rfl, by simp [all_members]⟩
  have hloop := loopM_total
    (fun (_ : List Nat) (t : DriverState × ℚ) => safe_inv zbin.num gal_list t.1)
    (seed_step F tree zbin fuel) (List.range gal_list.length)
    (by
      intro pre i t hdec ht
      obtain ⟨post, hpost⟩ := hdec
      have hi : i < gal_list.length := by
        have : i ∈ List.range gal_list.length := by rw [hpost]; simp
        exact List.mem_range.mp this
      exact seed_step_total F tree zbin gal_list hvalid hread fuel hfuel t ht i hi)
    (⟨gal_list, F.list_of_clusters, -1⟩, zbin.rfriend) h0
  obtain ⟨st, hst, _⟩ := hloop
  unfold FoF.friends_of_friends
  simp only [hst]
  exact ⟨_, _, rfl⟩

/-! ## Disjointness and bin compatibility of the clusters -/

theorem scen_index_valid : index_valid scen_tree scen_gals := by
  unfold index_valid
  decide

theorem scen_flags_readable : flags_readable scen_zbin.num scen_gals := by
  intro g hg
  simp only [scen_gals, List.mem_cons, List.mem_singleton, List.not_mem_nil, or_false] at hg
  rcases hg with rfl | rfl | rfl | rfl <;> exact ⟨false, rfl⟩

/-- C4: let `num` be dense from 0 and the cluster list empty on entry. After
every run of `friends_of_friends` that returns, no `num` occurs twice in the
concatenation of the member lists of all clusters, so that two different
clusters have no `num` in common; the same holds after `remove`, for every
threshold. The run does return when every index member refers to a position of
the galaxy list, the flag of the bin can be read in every galaxy and the fuel
is at least the number of galaxies. -/
theorem clusters_disjoint (F : FoF) (tree : Kdtree) (zbin : Zbin) (fuel : Nat)
    (gal_list : List Galaxy) (hdense : dense gal_list) (hempty : F.list_of_clusters = []) :
    (∀ (F1 : FoF) (G1 : List Galaxy),
      F.friends_of_friends fuel tree zbin gal_list = .ok (F1, G1) →
      ((all_members F1.list_of_clusters).map (fun g => g.num)).Nodup ∧
      F1.list_of_clusters.Pairwise
        (fun c1 c2 => ∀ g1 ∈ c1.mem, ∀ g2 ∈ c2.mem, g1.num ≠ g2.num) ∧
      ∀ (w : Nat) (min_ngal : Int),
        ((all_members (F1.remove w min_ngal).list_of_clusters).map (fun g => g.num)).Nodup ∧
        (F1.remove w min_ngal).list_of_clusters.Pairwise
          (fun c1 c2 => ∀ g1 ∈ c1.mem, ∀ g2 ∈ c2.mem, g1.num ≠ g2.num)) ∧
    (index_valid tree gal_list → flags_readable zbin.num gal_list → gal_list.length ≤ fuel →
      ∃ F1 G1, F.friends_of_friends fuel tree zbin gal_list = .ok (F1, G1)) := by
  refine ⟨?_, fun hvalid hread hfuel =>
    driver_total F tree zbin fuel gal_list hempty hvalid hread hfuel⟩
  intro F1 G1 h
  have h0 : core_inv zbin.num ⟨gal_list, F.list_of_clusters, -1⟩ := by
    rw [hempty]
    exact core_inv_initial _ _ hdense _
  obtain ⟨⟨cc, hinv⟩, _⟩ := driver_invariant F tree zbin (core_inv zbin.num)
    (core_inv_stable F zbin) fuel gal_list F1 G1 h0 h
  have hnd : ((all_members F1.list_of_clusters).map (fun g => g.num)).Nodup := hinv.2.1
  refine ⟨hnd, nodup_members_pairwise _ hnd, ?_⟩
  intro w min_ngal
  have hnd2 : ((all_members (F1.remove w min_ngal).list_of_clusters).map
      (fun g => g.num)).Nodup := by
    rw [remove_eq_filter]
    exact List.Sublist.nodup ((all_members_filter_unique_sublist _ _).map _) hnd
  exact ⟨hnd2, nodup_members_pairwise _ hnd2⟩

/-- Instance of `clusters_disjoint`: the run on `scen_gals` returns, and its
clusters are disjoint before and after `remove`. -/
theorem clusters_disjoint_witness :
    ∃ F1 G1, spec_fof.friends_of_friends 4 scen_tree scen_zbin scen_gals = .ok (F1, G1) ∧
      ((all_members F1.list_of_clusters).map (fun g => g.num)).Nodup ∧
      ((all_members (F1.remove 64 1).list_of_clusters).map (fun g => g.num)).Nodup := by
  have h := clusters_disjoint spec_fof scen_tree scen_zbin 4 scen_gals scen_gals_dense rfl
  obtain ⟨F1, G1, hrun⟩ := h.2 scen_index_valid scen_flags_readable (by decide)
  have h1 := h.1 F1 G1 hrun
  exact ⟨F1, G1, hrun, h1.1, (h1.2.2 64 1).1⟩

/-- C7: let the mode be other than "spec" and the cluster list empty on entry.
After every run of `friends_of_friends` that returns, every member of every
cluster satisfies `bin_check`, that is `|g.z - zbin.z| ≤ link_z * g.dz`; two
galaxies whose redshifts differ by more than `link_z * (g1.dz + g2.dz)` are not
members of one cluster, and when `num` is dense two galaxies of the list with
such redshifts are not the galaxies of two members of one cluster. The run does
return when every index member refers to a position of the galaxy list, the
flag of the bin can be read in every galaxy and the fuel is at least the number
of galaxies. -/
theorem members_bin_compatible (F : FoF) (tree : Kdtree) (zbin : Zbin) (fuel : Nat)
    (gal_list : List Galaxy) (hmode : F.mode ≠ "spec") (hempty : F.list_of_clusters = []) :
    (∀ (F1 : FoF) (G1 : List Galaxy),
      F.friends_of_friends fuel tree zbin gal_list = .ok (F1, G1) →
      (∀ c ∈ F1.list_of_clusters, ∀ g ∈ c.mem,
        F.bin_check zbin g = true ∧ |g.z - zbin.z| ≤ F.link_z * g.dz) ∧
      (∀ g1 g2 : Galaxy, |g1.z - g2.z| > F.link_z * (g1.dz + g2.dz) →
        ∀ c ∈ F1.list_of_clusters, ¬ (g1 ∈ c.mem ∧ g2 ∈ c.mem)) ∧
      (dense gal_list →
        ∀ (k1 k2 : Int) (g1 g2 : Galaxy),
          vec_get gal_list k1 = some g1 → vec_get gal_list k2 = some g2 →
          |g1.z - g2.z| > F.link_z * (g1.dz + g2.dz) →
          ∀ c ∈ F1.list_of_clusters,
            ¬ ((∃ m1 ∈ c.mem, m1.num = k1) ∧ (∃ m2 ∈ c.mem, m2.num = k2)))) ∧
    (index_valid tree gal_list → flags_readable zbin.num gal_list → gal_list.length ≤ fuel →
      ∃ F1 G1, F.friends_of_friends fuel tree zbin gal_list = .ok (F1, G1)) := by
  refine ⟨?_, fun hvalid hread hfuel =>
    driver_total F tree zbin fuel gal_list hempty hvalid hread hfuel⟩
  intro F1 G1 h
  have hchk : ∀ c ∈ F1.list_of_clusters, ∀ g ∈ c.mem,
      F.bin_check zbin g = true ∧ |g.z - zbin.z| ≤ F.link_z * g.dz := by
    have h0 : members_checked F zbin ⟨gal_list, F.list_of_clusters, -1⟩ := by
      intro m hm
      rw [hempty] at hm
      simp [all_members] at hm
    obtain ⟨⟨cc, hinv⟩, _⟩ := driver_invariant F tree zbin (members_checked F zbin)
      (members_checked_stable F zbin) fuel gal_list F1 G1 h0 h
    intro c hc g hg
    have hb : F.bin_check zbin g = true := hinv g (List.mem_flatMap.mpr ⟨c, hc, hg⟩)
    exact ⟨hb, (bin_check_phot F zbin g hmode).mp hb⟩
  refine ⟨hchk, ?_, ?_⟩
  · intro g1 g2 hgt c hc hmem
    have h1 := (hchk c hc g1 hmem.1).2
    have h2 := (hchk c hc g2 hmem.2).2
    have := window_triangle zbin.z F.link_z g1.z g1.dz g2.z g2.dz h1 h2
    linarith
  · intro hdense k1 k2 g1 g2 hg1 hg2 hgt c hc hmem
    have h0 : core_inv zbin.num ⟨gal_list, F.list_of_clusters, -1⟩ := by
      rw [hempty]
      exact core_inv_initial _ _ hdense _
    obtain ⟨⟨cc, hinv⟩, hframe, _⟩ := driver_invariant F tree zbin (core_inv zbin.num)
      (core_inv_stable F zbin) fuel gal_list F1 G1 h0 h
    have hcopy : ∀ (k : Int) (g : Galaxy), vec_get gal_list k = some g →
        ∀ m ∈ c.mem, m.num = k → m.z = g.z ∧ m.dz = g.dz := by
      intro k g hg m hm hnum
      obtain ⟨x, hx, hrx, _⟩ := hinv.2.2 m (List.mem_flatMap.mpr ⟨c, hc, hm⟩)
      obtain ⟨y, hy, hry⟩ := frame_vec_get _ _ _ hframe k g hg
      rw [hnum] at hx
      simp only at hx hy
      rw [hx] at hy
      cases hy
      have f1 := raised_fields _ _ _ hrx
      have f2 := raised_fields _ _ _ hry
      exact ⟨f1.2.2.2.2.1.symm.trans f2.2.2.2.2.1, f1.2.2.2.2.2.1.symm.trans f2.2.2.2.2.2.1⟩
    obtain ⟨⟨m1, hm1, hn1⟩, ⟨m2, hm2, hn2⟩⟩ := hmem
    obtain ⟨hz1, hdz1⟩ := hcopy k1 g1 hg1 m1 hm1 hn1
    obtain ⟨hz2, hdz2⟩ := hcopy k2 g2 hg2 m2 hm2 hn2
    have h1 := (hchk c hc m1 hm1).2
    have h2 := (hchk c hc m2 hm2).2
    rw [hz1, hdz1] at h1
    rw [hz2, hdz2] at h2
    have := window_triangle zbin.z F.link_z g1.z g1.dz g2.z g2.dz h1 h2
    linarith

theorem phot_run :
    run_summary (phot_fof.friends_of_friends 3 phot_tree phot_zbin phot_gals) =
      some ([(0, [0, 2])], [[true], [false], [true]]) := by
  decide!

/-- Instance of `members_bin_compatible`: with `link_z = 3` and `dz = 0.02` the
galaxies of redshift 0.10 and 0.50 at one position are not in a common cluster;
the run returns one cluster, holding the galaxies of redshift 0.10 and 0.12. -/
theorem members_bin_compatible_witness :
    ∃ F1 G1, phot_fof.friends_of_friends 3 phot_tree phot_zbin phot_gals = .ok (F1, G1) ∧
      (∀ c ∈ F1.list_of_clusters, ∀ g ∈ c.mem, |g.z - 1 / 10| ≤ 3 * g.dz) ∧
      ∀ c ∈ F1.list_of_clusters,
        ¬ (gal_at 0 0 (1 / 10) (2 / 100) ∈ c.mem ∧ gal_at 1 0 (1 / 2) (2 / 100) ∈ c.mem) := by
  obtain ⟨F1, G1, hrun⟩ := run_summary_ok _ _ phot_run
  have h := (members_bin_compatible phot_fof phot_tree phot_zbin 3 phot_gals
    (by decide) rfl).1 F1 G1 hrun
  refine ⟨F1, G1, hrun, fun c hc g hg => (h.1 c hc g hg).2, ?_⟩
  exact h.2.1 _ _ (by norm_num [gal_at, phot_fof, abs])

/-! ## The driver's effect on the galaxy list -/

theorem raised_other_flags (b : Int) (hb : 0 ≤ b) (g h : Galaxy) (hr : Galaxy.raised b g h)
    (j : Int) (hj : j ≠ b) : vec_get h.in_cluster j = vec_get g.in_cluster j := by
  rcases hr with rfl | rfl
  · rfl
  · unfold vec_get
    by_cases hj0 : 0 ≤ j
    · simp only [hj0, if_true]
      apply List.getElem?_set_ne
      have h1 := Int.toNat_of_nonneg hb
      have h2 := Int.toNat_of_nonneg hj0
      omega
    · simp [hj0]

theorem run_reads_first (F : FoF) (tree : Kdtree) (zbin : Zbin) (fuel : Nat)
    (gal_list : List Galaxy) (r : FoF × List Galaxy)
    (h : F.friends_of_friends fuel tree zbin gal_list = .ok r) (hne : gal_list ≠ []) :
    0 ≤ zbin.num := by
  unfold FoF.friends_of_friends at h
  simp only at h
  cases hl : loopM (seed_step F tree zbin fuel) (List.range gal_list.length)
      (⟨gal_list, F.list_of_clusters, -1⟩, zbin.rfriend) with
  | error e => simp [hl] at h
  | ok st =>
    obtain ⟨n, hn⟩ : ∃ n, gal_list.length = n + 1 :=
      ⟨gal_list.length - 1, by have := List.length_pos.mpr hne; omega⟩
    rw [hn, List.range_eq_range', List.range'_succ] at hl
    obtain ⟨s1, hstep, _⟩ := loopM_cons_inv _ _ _ _ _ hl
    unfold seed_step at hstep
    simp only [Nat.cast_zero] at hstep
    cases hgi : vec_get gal_list (0 : Int) with
    | none => simp [hgi] at hstep
    | some gal_i =>
      simp only [hgi] at hstep
      cases hfl : vec_get gal_i.in_cluster zbin.num with
      | none => simp [hfl] at hstep
      | some fl => exact (vec_get_lt hfl).1

/-- C13: for every call of `friends_of_friends` that returns, the galaxy list
keeps its length, every galaxy keeps `num`, `bin`, `ra`, `dec`, `z`, `dz`, `da`,
`v`, `id`, the length of `in_cluster` and the flags of all bins other than
`zbin.num`, and a flag of bin `zbin.num` that was true before the call is true
after it. The call returns when the cluster list is empty on entry, every index
member refers to a position of the galaxy list, the flag of the bin can be read
in every galaxy and the fuel is at least the number of galaxies. -/
theorem flags_only_effect (F : FoF) (tree : Kdtree) (zbin : Zbin) (fuel : Nat)
    (gal_list : List Galaxy) :
    (∀ (F1 : FoF) (G1 : List Galaxy),
      F.friends_of_friends fuel tree zbin gal_list = .ok (F1, G1) →
      G1.length = gal_list.length ∧
      ∀ (k : Nat) (g : Galaxy), gal_list[k]? = some g →
        ∃ h, G1[k]? = some h ∧
          h.num = g.num ∧ h.bin = g.bin ∧ h.ra = g.ra ∧ h.dec = g.dec ∧ h.z = g.z ∧
          h.dz = g.dz ∧ h.da = g.da ∧ h.v = g.v ∧ h.id = g.id ∧
          h.in_cluster.length = g.in_cluster.length ∧
          (∀ j : Int, j ≠ zbin.num → vec_get h.in_cluster j = vec_get g.in_cluster j) ∧
          (vec_get g.in_cluster zbin.num = some true →
            vec_get h.in_cluster zbin.num = some true)) ∧
    (F.list_of_clusters = [] → index_valid tree gal_list →
      flags_readable zbin.num gal_list → gal_list.length ≤ fuel →
      ∃ F1 G1, F.friends_of_friends fuel tree zbin gal_list = .ok (F1, G1)) := by
  refine ⟨?_, fun hempty hvalid hread hfuel =>
    driver_total F tree zbin fuel gal_list hempty hvalid hread hfuel⟩
  intro F1 G1 h
  obtain ⟨_, hframe, _⟩ := driver_invariant F tree zbin (fun _ => True)
    ⟨fun _ _ _ _ _ _ _ _ _ _ _ _ _ _ => trivial, fun _ _ _ _ _ _ _ _ _ _ _ => trivial⟩
    fuel gal_list F1 G1 trivial h
  refine ⟨hframe.1, ?_⟩
  intro k g hg
  have hb : 0 ≤ zbin.num := by
    apply run_reads_first F tree zbin fuel gal_list (F1, G1) h
    intro hnil
    rw [hnil] at hg
    simp at hg
  obtain ⟨x, hx, hr⟩ := hframe.2 k g hg
  obtain ⟨f1, f2, f3, f4, f5, f6, f7, f8, f9, f10⟩ := raised_fields _ _ _ hr
  exact ⟨x, hx, f1, f2, f3, f4, f5, f6, f7, f8, f9, f10,
    fun j hj => raised_other_flags _ hb g x hr j hj,
    fun ht => raised_flag_true _ g x hr ht⟩

/-- Instance of `flags_only_effect` on `scen_gals`: the run returns and leaves
four galaxies. -/
theorem flags_only_effect_witness :
    ∃ F1 G1, spec_fof.friends_of_friends 4 scen_tree scen_zbin scen_gals = .ok (F1, G1) ∧
      G1.length = 4 := by
  have h := flags_only_effect spec_fof scen_tree scen_zbin 4 scen_gals
  obtain ⟨F1, G1, hrun⟩ := h.2 rfl scen_index_valid scen_flags_readable (by decide)
  exact ⟨F1, G1, hrun, (h.1 F1 G1 hrun).1⟩

/-! ## Cluster numbering -/

theorem numbered_stable (F : FoF) (zbin : Zbin) : update_stable F zbin numbered := by
  constructor
  · intro s s1 i gal_now gal_i gal_n rfriend hs _ _ _ _ _ hc
    obtain ⟨hcl, hcc, _⟩ := create_cluster_ok hc
    refine ⟨?_, ?_⟩
    · rw [hcl, hcc, List.length_append, List.length_singleton]
      have := hs.1
      push_cast
      omega
    · intro k c hk
      rw [hcl] at hk
      by_cases hlt : k < s.list_of_clusters.length
      · rw [List.getElem?_append_left hlt] at hk
        exact hs.2 k c hk
      · rw [List.getElem?_append_right (by omega)] at hk
        have hk0 : k - s.list_of_clusters.length = 0 := by
          by_contra hne
          rw [List.getElem?_eq_none (by simp; omega)] at hk
          cases hk
        rw [hk0] at hk
        simp only [List.getElem?_cons_zero, Option.some.injEq] at hk
        subst hk
        have := hs.1
        simp only
        omega
  · intro s s1 gal_now gal_m gal_n rfriend hs _ _ _ ha
    obtain ⟨⟨c0, hc0, hcl⟩, hcc, _⟩ := append_member_ok ha
    refine ⟨?_, ?_⟩
    · rw [hcl, hcc, List.length_set]
      exact hs.1
    · intro k c hk
      rw [hcl, List.getElem?_set] at hk
      by_cases hkk : s.cluster_count.toNat = k
      · obtain ⟨_, hlt, _⟩ := vec_get_lt hc0
        simp only [hkk, if_true] at hk
        rw [← hkk] at hk
        simp only [hlt, if_true, Option.some.injEq] at hk
        subst hk
        simp only [Cluster.add_gal]
        rw [← hkk]
        exact hs.2 _ c0 ((vec_get_some_iff _ _ _).mp hc0).2
      · simp only [hkk, if_false] at hk
        exact hs.2 k c hk

theorem numbered_last (s : DriverState) (hs : numbered s) (c : Cluster)
    (hc : vec_get s.list_of_clusters s.cluster_count = some c) :
    s.list_of_clusters.getLast? = some c := by
  obtain ⟨h0, hlt, hcast⟩ := vec_get_lt hc
  have h1 := hs.1
  rw [List.getLast?_eq_getElem?]
  have : s.list_of_clusters.length - 1 = s.cluster_count.toNat := by omega
  rw [this]
  exact ((vec_get_some_iff _ _ _).mp hc).2

/-- C14: let the cluster list be empty on entry. After every run of
`friends_of_friends` that returns, the cluster at position `k` has `num = k`,
and the final `cluster_count` is the last position of the list. The numbering
invariant `numbered` (`list_of_clusters.size() = cluster_count + 1` and
`num = position`) holds on entry and is preserved by every cluster creation and
every member insertion, and under it the cluster `list_of_clusters[cluster_count]`
is the last, most recently created, cluster of the list. The run returns under
valid index members, readable flags and fuel at least the number of galaxies. -/
theorem cluster_numbering (F : FoF) (tree : Kdtree) (zbin : Zbin) (fuel : Nat)
    (gal_list : List Galaxy) (hempty : F.list_of_clusters = []) :
    (∀ (F1 : FoF) (G1 : List Galaxy),
      F.friends_of_friends fuel tree zbin gal_list = .ok (F1, G1) →
      (∀ (k : Nat) (c : Cluster), F1.list_of_clusters[k]? = some c → c.num = (k : Int)) ∧
      ∃ cc : Int, numbered ⟨G1, F1.list_of_clusters, cc⟩) ∧
    numbered ⟨gal_list, F.list_of_clusters, -1⟩ ∧
    update_stable F zbin numbered ∧
    (∀ (s : DriverState) (c : Cluster), numbered s →
      vec_get s.list_of_clusters s.cluster_count = some c →
      s.list_of_clusters.getLast? = some c) ∧
    (index_valid tree gal_list → flags_readable zbin.num gal_list → gal_list.length ≤ fuel →
      ∃ F1 G1, F.friends_of_friends fuel tree zbin gal_list = .ok (F1, G1)) := by
  have h0 : numbered ⟨gal_list, F.list_of_clusters, -1⟩ := by
    rw [hempty]
    exact ⟨by simp, fun k c hk => by simp at hk⟩
  refine ⟨?_, h0, numbered_stable F zbin, fun s c hs hc => numbered_last s hs c hc,
    fun hvalid hread hfuel => driver_total F tree zbin fuel gal_list hempty hvalid hread hfuel⟩
  intro F1 G1 h
  obtain ⟨⟨cc, hinv⟩, _⟩ := driver_invariant F tree zbin numbered (numbered_stable F zbin)
    fuel gal_list F1 G1 h0 h
  exact ⟨hinv.2, cc, hinv⟩

/-- Instance of `cluster_numbering` on `scen_gals`: the run returns and the
clusters are numbered by position. -/
theorem cluster_numbering_witness :
    ∃ F1 G1, spec_fof.friends_of_friends 4 scen_tree scen_zbin scen_gals = .ok (F1, G1) ∧
      ∀ (k : Nat) (c : Cluster), F1.list_of_clusters[k]? = some c → c.num = (k : Int) := by
  have h := cluster_numbering spec_fof scen_tree scen_zbin 4 scen_gals rfl
  obtain ⟨F1, G1, hrun⟩ := h.2.2.2.2 scen_index_valid scen_flags_readable (by decide)
  exact ⟨F1, G1, hrun, (h.1 F1 G1 hrun).1⟩

/-! ## Flags and membership agree -/

theorem flagged_member_stable (F : FoF) (zbin : Zbin) :
    update_stable F zbin (fun s => core_inv zbin.num s ∧ flagged_member zbin.num s) := by
  constructor
  · intro s s1 i gal_now gal_i gal_n rfriend hs hgi hgn hb hfl hfr hc
    refine ⟨(core_inv_stable F zbin).1 s s1 i gal_now gal_i gal_n rfriend hs.1 hgi hgn hb hfl
      hfr hc, ?_⟩
    obtain ⟨_, _, _, _, _, hoth⟩ := create_cluster_ok hc
    have hmem := create_cluster_members hc
    have hgin := dense_vec_get _ hs.1.1 _ gal_i hgi
    have hgnn := dense_vec_get _ hs.1.1 _ gal_n hgn
    intro k g hg hflg
    refine (scen_flags_new zbin (fun _ => True) s s1 (fun k g hg hf => ⟨trivial, hs.2 k g hg hf⟩)
      ?_ [(i : Int), gal_now] ?_ ?_ k g hg hflg).2
    · intro k hk
      rw [hmem, List.map_append]
      exact List.mem_append_left _ hk
    · intro k hk
      simp only [List.mem_cons, List.mem_singleton, List.not_mem_nil, or_false] at hk
      rw [hmem]
      rcases hk with rfl | rfl
      · exact ⟨trivial, by simp [hgin]⟩
      · exact ⟨trivial, by simp [hgnn]⟩
    · intro k hk
      simp only [List.mem_cons, List.mem_singleton, List.not_mem_nil, or_false, not_or] at hk
      exact hoth k hk.1 hk.2
  · intro s s1 gal_now gal_m gal_n rfriend hs hgn hm hfr ha
    refine ⟨(core_inv_stable F zbin).2 s s1 gal_now gal_m gal_n rfriend hs.1 hgn hm hfr ha, ?_⟩
    obtain ⟨_, _, _, _, hoth⟩ := append_member_ok ha
    have hperm := append_member_members ha
    have hgnn := dense_vec_get _ hs.1.1 _ gal_n hgn
    intro k g hg hflg
    refine (scen_flags_new zbin (fun _ => True) s s1 (fun k g hg hf => ⟨trivial, hs.2 k g hg hf⟩)
      ?_ [gal_now] ?_ ?_ k g hg hflg).2
    · intro k hk
      rw [(hperm.map _).mem_iff, List.map_append]
      exact List.mem_append_left _ hk
    · intro k hk
      simp only [List.mem_singleton] at hk
      subst hk
      refine ⟨trivial, ?_⟩
      rw [(hperm.map _).mem_iff]
      simp [hgnn]
    · intro k hk
      simp only [List.mem_singleton] at hk
      exact hoth k hk

theorem flagged_member_initial (b : Int) (gal_list : List Galaxy)
    (hflags : ∀ g ∈ gal_list, vec_get g.in_cluster b = some false) (cl : List Cluster)
    (cc : Int) : flagged_member b ⟨gal_list, cl, cc⟩ := by
  intro k g hg hfl
  have := hflags g (vec_get_mem hg)
  rw [this] at hfl
  cases hfl

theorem flags_false_readable (b : Int) (gal_list : List Galaxy)
    (hflags : ∀ g ∈ gal_list, vec_get g.in_cluster b = some false) :
    flags_readable b gal_list :=
  fun g hg => ⟨false, hflags g hg⟩

/-- C19: let `num` be dense from 0, all flags of the bin false and the cluster
list empty on entry. After every run of `friends_of_friends` that returns, the
flag `gal_list[k].in_cluster[zbin.num]` is true exactly when `k` is the `num` of
a member of some cluster. The run returns when every index member refers to a
position of the galaxy list and the fuel is at least the number of galaxies. -/
theorem flag_iff_member (F : FoF) (tree : Kdtree) (zbin : Zbin) (fuel : Nat)
    (gal_list : List Galaxy) (hdense : dense gal_list)
    (hflags : ∀ g ∈ gal_list, vec_get g.in_cluster zbin.num = some false)
    (hempty : F.list_of_clusters = []) :
    (∀ (F1 : FoF) (G1 : List Galaxy),
      F.friends_of_friends fuel tree zbin gal_list = .ok (F1, G1) →
      ∀ k : Int, flag_of G1 zbin.num k = some true ↔
        ∃ c ∈ F1.list_of_clusters, ∃ m ∈ c.mem, m.num = k) ∧
    (index_valid tree gal_list → gal_list.length ≤ fuel →
      ∃ F1 G1, F.friends_of_friends fuel tree zbin gal_list = .ok (F1, G1)) := by
  refine ⟨?_, fun hvalid hfuel => driver_total F tree zbin fuel gal_list hempty hvalid
    (flags_false_readable _ _ hflags) hfuel⟩
  intro F1 G1 h
  have h0 : core_inv zbin.num ⟨gal_list, F.list_of_clusters, -1⟩ ∧
      flagged_member zbin.num ⟨gal_list, F.list_of_clusters, -1⟩ := by
    rw [hempty]
    exact ⟨core_inv_initial _ _ hdense _, flagged_member_initial _ _ hflags _ _⟩
  obtain ⟨⟨cc, hcore, hfm⟩, _⟩ := driver_invariant F tree zbin _
    (flagged_member_stable F zbin) fuel gal_list F1 G1 h0 h
  intro k
  constructor
  · intro hk
    obtain ⟨g, hg, hfl⟩ := flag_of_cases _ _ _ _ hk
    obtain ⟨m, hm, hmk⟩ := List.mem_map.mp (hfm k g hg hfl)
    obtain ⟨c, hc, hmc⟩ := List.mem_flatMap.mp hm
    exact ⟨c, hc, m, hmc, hmk⟩
  · rintro ⟨c, hc, m, hm, rfl⟩
    exact core_inv_member_flag _ _ hcore m (List.mem_flatMap.mpr ⟨c, hc, hm⟩)

theorem scen_flags_false : ∀ g ∈ scen_gals, vec_get g.in_cluster scen_zbin.num = some false := by
  decide

/-- Instance of `flag_iff_member` on `scen_gals`: the run returns, galaxy 1 is
flagged and a member, galaxy 0 is neither. -/
theorem flag_iff_member_witness :
    ∃ F1 G1, spec_fof.friends_of_friends 4 scen_tree scen_zbin scen_gals = .ok (F1, G1) ∧
      (flag_of G1 scen_zbin.num 1 = some true ↔
        ∃ c ∈ F1.list_of_clusters, ∃ m ∈ c.mem, m.num = 1) ∧
      (flag_of G1 scen_zbin.num 0 = some true ↔
        ∃ c ∈ F1.list_of_clusters, ∃ m ∈ c.mem, m.num = 0) := by
  have h := flag_iff_member spec_fof scen_tree scen_zbin 4 scen_gals scen_gals_dense
    scen_flags_false rfl
  obtain ⟨F1, G1, hrun⟩ := h.2 scen_index_valid (by decide)
  exact ⟨F1, G1, hrun, h.1 F1 G1 hrun 1, h.1 F1 G1 hrun 0⟩

/-! ## Thresholds that are not positive -/

theorem neg_mod_pow (w : Nat) (m : Int) (hw : 1 ≤ w) (hneg : m < 0)
    (hlow : -(2 : Int) ^ (w - 1) ≤ m) : m % (2 : Int) ^ w = m + (2 : Int) ^ w ∧
    (2 : Int) ^ (w - 1) ≤ m + (2 : Int) ^ w := by
  obtain ⟨n, rfl⟩ : ∃ n, w = n + 1 := ⟨w - 1, by omega⟩
  have hpow : (2 : Int) ^ (n + 1) = 2 * 2 ^ n := by ring
  have hpos : (0 : Int) < 2 ^ n := by positivity
  simp only [Nat.add_sub_cancel] at hlow ⊢
  constructor
  · rw [← Int.add_mul_emod_self_left m ((2 : Int) ^ (n + 1)) 1, mul_one]
    exact Int.emod_eq_of_lt (by omega) (by omega)
  · omega

/-- C20: `remove` compares the size of a deduplicated cluster with `min_ngal`
reduced modulo `2 ^ w` (the conversion of the `int` to the unsigned size type of
`w` bits) and keeps the clusters that are not below it. Hence for a negative
`min_ngal` of an `int` type no wider than the size type
(`-2 ^ (w - 1) ≤ min_ngal`) and clusters of sizes that a vector can hold
(`< 2 ^ (w - 1)`) every cluster is erased, whereas for `min_ngal = 0` none is:
the list is left with every cluster deduplicated. -/
theorem remove_nonpositive (F : FoF) (w : Nat) (min_ngal : Int) :
    (F.remove w min_ngal).list_of_clusters =
      (F.list_of_clusters.map Cluster.unique).filter
        (fun c => !decide ((c.mem.length : Int) < min_ngal % (2 : Int) ^ w)) ∧
    (min_ngal < 0 → 1 ≤ w → -(2 : Int) ^ (w - 1) ≤ min_ngal →
      (∀ c ∈ F.list_of_clusters, (c.mem.length : Int) < (2 : Int) ^ (w - 1)) →
      (F.remove w min_ngal).list_of_clusters = []) ∧
    (F.remove w 0).list_of_clusters = F.list_of_clusters.map Cluster.unique ∧
    ((F.remove w 0).list_of_clusters).length = F.list_of_clusters.length := by
  have hzero : (F.remove w 0).list_of_clusters = F.list_of_clusters.map Cluster.unique := by
    rw [remove_eq_filter, List.filter_eq_self]
    intro c _
    simp [too_small]
  refine ⟨?_, ?_, hzero, by rw [hzero, List.length_map]⟩
  · rw [remove_eq_filter]
    rfl
  · intro hneg hw hlow hsize
    obtain ⟨hmod, hbig⟩ := neg_mod_pow w min_ngal hw hneg hlow
    rw [remove_eq_filter, List.filter_eq_nil_iff]
    intro c hc
    obtain ⟨c0, hc0, rfl⟩ := List.mem_map.mp hc
    have h1 := hsize c0 hc0
    have h2 := unique_mem_length_le c0.mem
    simp only [too_small, Cluster.unique, hmod, Bool.not_eq_true', Bool.not_eq_false,
      decide_eq_true_eq]
    omega

/-- Instance of `remove_nonpositive` with a size type of 64 bits: `remove(-1)`
erases both clusters of `two_and_three`, `remove(0)` keeps both. -/
theorem remove_nonpositive_witness :
    (({ spec_fof with list_of_clusters := two_and_three } : FoF).remove 64
      (-1)).list_of_clusters = [] ∧
    (({ spec_fof with list_of_clusters := two_and_three } : FoF).remove 64
      0).list_of_clusters.length = 2 := by
  have h := remove_nonpositive { spec_fof with list_of_clusters := two_and_three } 64
  exact ⟨(h (-1)).2.1 (by decide) (by decide) (by decide) (by decide), (h 0).2.2.2⟩

/-! ## Index safety for every amount of fuel -/

/-- Rule for `loopM` when every step from a state satisfying `P` either returns
in a state satisfying `P` or runs out of fuel. -/
theorem loopM_safe {σ α : Type} (P : σ → Prop) (body : σ → α → Except Fault σ) (l : List α)
    (hstep : ∀ s a, a ∈ l → P s →
      (∃ s1, body s a = .ok s1 ∧ P s1) ∨ body s a = .error Fault.out_of_fuel) :
    ∀ s, P s → (∃ s1, loopM body l s = .ok s1 ∧ P s1) ∨
      loopM body l s = .error Fault.out_of_fuel := by
  induction l with
  | nil => intro s hs; exact Or.inl ⟨s, rfl, hs⟩
  | cons a rest ih =>
    intro s hs
    rcases hstep s a (List.mem_cons_self a rest) hs with ⟨s1, hb, hs1⟩ | he
    · rw [loopM_cons_ok body a rest s s1 hb]
      exact ih (fun t b hb1 ht => hstep t b (List.mem_cons_of_mem a hb1) ht) s1 hs1
    · right
      simp [loopM, he]

theorem growth_loop_safe (F : FoF) (tree : Kdtree) (zbin : Zbin) (G0 : List Galaxy)
    (hvalid : index_valid tree G0) (hread : flags_readable zbin.num G0) (r : ℚ) :
    ∀ (fuel ii : Nat) (s : DriverState), safe_inv zbin.num G0 s → s.list_of_clusters ≠ [] →
      (∃ s1, growth_loop F tree zbin r fuel ii s = .ok s1 ∧ safe_inv zbin.num G0 s1) ∨
        growth_loop F tree zbin r fuel ii s = .error Fault.out_of_fuel := by
  intro fuel
  induction fuel with
  | zero =>
    intro ii s hs hne
    obtain ⟨c, hc⟩ := safe_inv_last _ G0 s hs hne
    unfold growth_loop
    simp only [hc]
    by_cases hlt : ii < c.mem.length
    · right; simp only [hlt, if_true]
    · left; simp only [hlt, if_false]; exact ⟨s, rfl, hs⟩
  | succ fuel ih =>
    intro ii s hs hne
    obtain ⟨c, hc⟩ := safe_inv_last _ G0 s hs hne
    unfold growth_loop
    simp only [hc]
    by_cases hlt : ii < c.mem.length
    · have hcur : (current_member s ii).isSome = true := by
        rw [current_member_of_lt s c ii hc hlt]
        rfl
      obtain ⟨s1, hl, hs1, hne1⟩ := growth_nodes_total F tree zbin G0 hvalid hread ii r s hs
        hne hcur
      simp only [hlt, if_true, hl]
      exact ih (ii + 1) s1 hs1 hne1
    · simp only [hlt, if_false]
      exact Or.inl ⟨s, rfl, hs⟩

theorem seed_step_safe (F : FoF) (tree : Kdtree) (zbin : Zbin) (G0 : List Galaxy)
    (hvalid : index_valid tree G0) (hread : flags_readable zbin.num G0) (fuel : Nat)
    (st : DriverState × ℚ) (hs : safe_inv zbin.num G0 st.1) (i : Nat) (hi : i < G0.length) :
    (∃ st1, seed_step F tree zbin fuel st i = .ok st1 ∧ safe_inv zbin.num G0 st1.1) ∨
      seed_step F tree zbin fuel st i = .error Fault.out_of_fuel := by
  have hlen := hs.1.1
  obtain ⟨gi, hgi⟩ := vec_get_of_lt st.1.gal_list (i : Int) (by omega) (by omega)
  obtain ⟨y, hy⟩ := frame_readable_gen _ G0 _ hread hs.1 _ gi hgi
  unfold seed_step
  simp only [hgi, hy]
  cases y with
  | true => exact Or.inl ⟨_, rfl, hs⟩
  | false =>
    have hG0i : flag_of G0 zbin.num i = some false := by
      obtain ⟨g0, hg0, hr⟩ := frame_vec_get_back _ G0 _ hs.1 _ gi hgi
      obtain ⟨x0, hx0⟩ := hread g0 (vec_get_mem hg0)
      cases x0 with
      | false => exact flag_of_some _ _ _ g0 false hg0 hx0
      | true =>
        have := raised_flag_true _ g0 gi hr hx0
        rw [hy] at this
        cases this
    by_cases hb : F.bin_check zbin gi = true
    · simp only [hb, if_true]
      obtain ⟨s1, hl, hs1⟩ := seed_loop_total F tree zbin G0 hvalid hread i hi hG0i
        (if (F.mode == "spec") = true then zbin.link_r / gi.da else st.2) st.1 hs
      simp only [hl]
      obtain ⟨gi1, hgi1⟩ := vec_get_of_lt s1.gal_list (i : Int) (by omega)
        (by have := hs1.1.1; omega)
      obtain ⟨y1, hy1⟩ := frame_readable_gen _ G0 _ hread hs1.1 _ gi1 hgi1
      simp only [hgi1, hy1]
      cases y1 with
      | false => exact Or.inl ⟨_, rfl, hs1⟩
      | true =>
        have hne1 : s1.list_of_clusters ≠ [] := by
          intro h
          have hG := hs1.2.2.1 h
          rw [hG] at hgi1
          rw [flag_of_some _ _ _ gi1 true hgi1 hy1] at hG0i
          cases hG0i
        rcases growth_loop_safe F tree zbin G0 hvalid hread
          (if (F.mode == "spec") = true then zbin.link_r / gi.da else st.2) fuel 0 s1 hs1 hne1
          with ⟨s2, hg, hs2⟩ | he
        · simp only [hg]
          exact Or.inl ⟨_, rfl, hs2⟩
        · simp only [he]
          exact Or.inr trivial
    · simp only [hb, Bool.false_eq_true, if_false]
      exact Or.inl ⟨_, rfl, hs⟩

theorem driver_safe (F : FoF) (tree : Kdtree) (zbin : Zbin) (fuel : Nat)
    (gal_list : List Galaxy) (hempty : F.list_of_clusters = [])
    (hvalid : index_valid tree gal_list) (hread : flags_readable zbin.num gal_list) :
    (∃ F1 G1, F.friends_of_friends fuel tree zbin gal_list = .ok (F1, G1)) ∨
      F.friends_of_friends fuel tree zbin gal_list = .error Fault.out_of_fuel := by
  have h0 : safe_inv zbin.num gal_list ⟨gal_list, F.list_of_clusters, -1⟩ := by
    rw [hempty]
    exact ⟨frame_refl _ _, by simp, fun _ => rfl, by simp [all_members]⟩
  have hloop := loopM_safe
    (fun (t : DriverState × ℚ) => safe_inv zbin.num gal_list t.1)
    (seed_step F tree zbin fuel) (List.range gal_list.length)
    (fun t i hi ht => seed_step_safe F tree zbin gal_list hvalid hread fuel t ht i
      (List.mem_range.mp hi))
    (⟨gal_list, F.list_of_clusters, -1⟩, zbin.rfriend) h0
  unfold FoF.friends_of_friends
  rcases hloop with ⟨st, hst, _⟩ | he
  · simp only [hst]
    exact Or.inl ⟨_, _, rfl⟩
  · simp only [he]
    exact Or.inr trivial

/-- C18: let the cluster list be empty on entry, every index member refer to a
position of the galaxy list, and the flag of the bin be readable in every
galaxy (`0 ≤ zbin.num < in_cluster.size()`). Then for every amount of fuel the
run of `friends_of_friends` performs no access out of range: it returns, or it
stops for lack of fuel, and it returns when the fuel is at least the number of
galaxies. The accesses stay in range because the invariant `safe_inv` holds on
entry and after every pass, and under it `list_of_clusters[cluster_count]` is in
range (so `cluster_count ≥ 0`) as soon as the cluster list is not empty. -/
theorem index_safety (F : FoF) (tree : Kdtree) (zbin : Zbin) (gal_list : List Galaxy)
    (hempty : F.list_of_clusters = []) (hvalid : index_valid tree gal_list)
    (hread : flags_readable zbin.num gal_list) :
    (∀ fuel : Nat, F.friends_of_friends fuel tree zbin gal_list ≠ .error Fault.out_of_range) ∧
    (∀ fuel : Nat, gal_list.length ≤ fuel →
      ∃ F1 G1, F.friends_of_friends fuel tree zbin gal_list = .ok (F1, G1)) ∧
    (∀ s : DriverState, safe_inv zbin.num gal_list s → s.list_of_clusters ≠ [] →
      0 ≤ s.cluster_count ∧ ∃ c, vec_get s.list_of_clusters s.cluster_count = some c) := by
  refine ⟨?_, fun fuel hfuel => driver_total F tree zbin fuel gal_list hempty hvalid hread hfuel,
    ?_⟩
  · intro fuel h
    rcases driver_safe F tree zbin fuel gal_list hempty hvalid hread with ⟨F1, G1, hok⟩ | he
    · rw [hok] at h; cases h
    · rw [he] at h; cases h
  · intro s hs hne
    obtain ⟨c, hc⟩ := safe_inv_last _ gal_list s hs hne
    exact ⟨(vec_get_lt hc).1, c, hc⟩

/-- Instance of `index_safety` on `scen_gals`: with fuel 0 the run performs no
access out of range, with fuel 4 it returns. -/
theorem index_safety_witness :
    spec_fof.friends_of_friends 0 scen_tree scen_zbin scen_gals ≠ .error Fault.out_of_range ∧
    ∃ F1 G1, spec_fof.friends_of_friends 4 scen_tree scen_zbin scen_gals = .ok (F1, G1) := by
  have h := index_safety spec_fof scen_tree scen_zbin scen_gals rfl scen_index_valid
    scen_flags_readable
  exact ⟨h.1 0, h.2.1 4 (by decide)⟩

/-! ## Termination of the growth loop and the number of members -/

theorem create_cluster_unflagged {zbin : Zbin} {s s1 : DriverState} {i : Nat} {gal_now : Int}
    {gal_i gal_n : Galaxy} (hc : create_cluster zbin s i gal_now gal_i gal_n = .ok s1)
    (hgi : vec_get s.gal_list i = some gal_i)
    (hfi : vec_get gal_i.in_cluster zbin.num = some false)
    (hgn : vec_get s.gal_list gal_now = some gal_n)
    (hfn : vec_get gal_n.in_cluster zbin.num = some false) (hik : gal_now ≠ (i : Int)) :
    unflagged zbin.num s1.gal_list + 2 = unflagged zbin.num s.gal_list := by
  unfold create_cluster at hc
  cases h1 : set_in_cluster s.gal_list i zbin.num with
  | none => rw [h1] at hc; cases hc
  | some gals1 =>
    rw [h1] at hc
    simp only at hc
    cases h2 : set_in_cluster gals1 gal_now zbin.num with
    | none => rw [h2] at hc; cases hc
    | some gals2 =>
      rw [h2] at hc
      simp only [Except.ok.injEq] at hc
      subst hc
      have hgn1 : vec_get gals1 gal_now = some gal_n := by
        rw [set_in_cluster_other h1 gal_now hik]
        exact hgn
      have c1 := (unflagged_set_in_cluster h1 gal_i hgi).2 hfi
      have c2 := (unflagged_set_in_cluster h2 gal_n hgn1).2 hfn
      simp only
      omega

theorem append_member_unflagged {zbin : Zbin} {s s1 : DriverState} {gal_now : Int}
    {gal_n : Galaxy} (ha : append_member zbin s gal_now gal_n = .ok s1)
    (hgn : vec_get s.gal_list gal_now = some gal_n)
    (hfn : vec_get gal_n.in_cluster zbin.num = some false) :
    unflagged zbin.num s1.gal_list + 1 = unflagged zbin.num s.gal_list := by
  unfold append_member at ha
  cases h1 : vec_update s.list_of_clusters s.cluster_count (fun c => c.add_gal gal_n) with
  | none => rw [h1] at ha; cases ha
  | some clusters =>
    rw [h1] at ha
    simp only at ha
    cases h2 : set_in_cluster s.gal_list gal_now zbin.num with
    | none => rw [h2] at ha; cases ha
    | some gals =>
      rw [h2] at ha
      simp only [Except.ok.injEq] at ha
      subst ha
      exact (unflagged_set_in_cluster h2 gal_n hgn).2 hfn

theorem drop_set_members (g : Galaxy) (clusters : List Cluster) (n0 p : Nat) (c : Cluster)
    (hp : clusters[p]? = some c) :
    (all_members ((clusters.set p (c.add_gal g)).drop n0)).length ≤
      (all_members (clusters.drop n0)).length + 1 := by
  by_cases hlt : p < n0
  · rw [List.drop_set_of_lt _ _ hlt]
    omega
  · rw [List.drop_set]
    simp only [hlt, if_false]
    have hget : (clusters.drop n0)[p - n0]? = some c := by
      rw [List.getElem?_drop]
      have : n0 + (p - n0) = p := by omega
      rw [this]
      exact hp
    have := (all_members_set_add g (clusters.drop n0) (p - n0) c hget).length_eq
    simp only [List.length_append, List.length_singleton] at this
    omega

theorem count_inv_stable (F : FoF) (zbin : Zbin) (n0 K : Nat) :
    update_stable F zbin (count_inv zbin.num n0 K) := by
  constructor
  · intro s s1 i gal_now gal_i gal_n rfriend hs hgi hgn _ hfl hfr hc
    obtain ⟨hne, _, hfln, _, _⟩ := (friendship_ok_true_iff F zbin gal_i gal_n rfriend).mp hfr
    have hik : gal_now ≠ (i : Int) := by
      intro h
      rw [h, hgi] at hgn
      cases hgn
      exact hne rfl
    have hcount := create_cluster_unflagged hc hgi hfl hgn hfln hik
    obtain ⟨hcl, _⟩ := create_cluster_ok hc
    refine ⟨?_, ?_⟩
    · rw [hcl, List.length_append]
      have := hs.1
      omega
    · rw [hcl, List.drop_append_of_le_length hs.1, all_members_append]
      have := hs.2
      simp only [List.length_append, all_members, List.flatMap_cons, List.flatMap_nil,
        List.length_cons, List.length_nil] at this ⊢
      omega
  · intro s s1 gal_now gal_m gal_n rfriend hs hgn _ hfr ha
    obtain ⟨_, _, hfln, _, _⟩ := (friendship_ok_true_iff F zbin gal_m gal_n rfriend).mp hfr
    have hcount := append_member_unflagged ha hgn hfln
    obtain ⟨⟨c, hc, hcl⟩, _⟩ := append_member_ok ha
    refine ⟨?_, ?_⟩
    · rw [hcl, List.length_set]
      exact hs.1
    · rw [hcl]
      have h1 := drop_set_members gal_n s.list_of_clusters n0 s.cluster_count.toNat c
        ((vec_get_some_iff _ _ _).mp hc).2
      have := hs.2
      omega

theorem friendship_no_fuel (F : FoF) (zbin : Zbin) (A B : Galaxy) (r : ℚ) :
    F.friendship zbin A B r ≠ .error Fault.out_of_fuel := by
  intro h
  cases hx : vec_get B.in_cluster zbin.num with
  | none =>
    simp [FoF.friendship, hx] at h
  | some x =>
    obtain ⟨fr, hfr⟩ := friendship_readable F zbin A B r x hx
    rw [hfr] at h
    cases h

theorem append_member_no_fuel (zbin : Zbin) (s : DriverState) (k : Int) (g : Galaxy) :
    append_member zbin s k g ≠ .error Fault.out_of_fuel := by
  unfold append_member
  intro h
  split at h
  · cases h
  · split at h <;> cases h

theorem create_cluster_no_fuel (zbin : Zbin) (s : DriverState) (i : Nat) (k : Int)
    (gi gn : Galaxy) : create_cluster zbin s i k gi gn ≠ .error Fault.out_of_fuel := by
  unfold create_cluster
  intro h
  simp only at h
  split at h
  · cases h
  · split at h <;> cases h

theorem seed_member_no_fuel (F : FoF) (zbin : Zbin) (i : Nat) (r : ℚ) (s : DriverState)
    (m : Kdtree_member) : seed_member F zbin i r s m ≠ .error Fault.out_of_fuel := by
  unfold seed_member
  intro h
  simp only at h
  split at h
  · rename_i gal_i gal_n _ _
    split at h
    · rename_i e he
      simp only [Except.error.injEq] at h
      subst h
      exact friendship_no_fuel F zbin gal_i gal_n r he
    · cases h
    · split at h
      · cases h
      · exact create_cluster_no_fuel _ _ _ _ _ _ h
      · exact append_member_no_fuel _ _ _ _ h
  · cases h

theorem growth_member_no_fuel (F : FoF) (zbin : Zbin) (ii : Nat) (r : ℚ) (s : DriverState)
    (m : Kdtree_member) : growth_member F zbin ii r s m ≠ .error Fault.out_of_fuel := by
  unfold growth_member
  intro h
  simp only at h
  split at h
  · rename_i gal_m gal_n _ _
    split at h
    · rename_i e he
      simp only [Except.error.injEq] at h
      subst h
      exact friendship_no_fuel F zbin gal_m gal_n r he
    · cases h
    · exact append_member_no_fuel _ _ _ _ h
  · cases h

theorem loopM_no_fuel {σ α : Type} (body : σ → α → Except Fault σ) (l : List α)
    (hbody : ∀ s a, body s a ≠ .error Fault.out_of_fuel) :
    ∀ s, loopM body l s ≠ .error Fault.out_of_fuel := by
  induction l with
  | nil => intro s h; cases h
  | cons a rest ih =>
    intro s h
    unfold loopM at h
    cases hb : body s a with
    | error e =>
      rw [hb] at h
      simp only [Except.error.injEq] at h
      subst h
      exact hbody s a hb
    | ok s1 =>
      rw [hb] at h
      exact ih s1 h

theorem seed_node_no_fuel (F : FoF) (zbin : Zbin) (i : Nat) (r : ℚ) (s : DriverState)
    (node : Kdtree_node) : seed_node F zbin i r s node ≠ .error Fault.out_of_fuel := by
  unfold seed_node
  intro h
  split at h
  · cases h
  · split at h
    · exact loopM_no_fuel _ _ (seed_member_no_fuel F zbin i r) _ h
    · cases h

theorem growth_node_no_fuel (F : FoF) (zbin : Zbin) (ii : Nat) (r : ℚ) (s : DriverState)
    (node : Kdtree_node) : growth_node F zbin ii r s node ≠ .error Fault.out_of_fuel := by
  unfold growth_node
  intro h
  split at h
  · cases h
  · split at h
    · exact loopM_no_fuel _ _ (growth_member_no_fuel F zbin ii r) _ h
    · cases h

/-- Rule for `loopM`: the loop does not run out of fuel when a predicate is
preserved by the steps that return and no step from a state satisfying it runs
out of fuel. -/
theorem loopM_no_fuel_inv {σ α : Type} (P : σ → Prop) (body : σ → α → Except Fault σ)
    (l : List α)
    (hpres : ∀ s a s1, a ∈ l → P s → body s a = .ok s1 → P s1)
    (hnf : ∀ s a, a ∈ l → P s → body s a ≠ .error Fault.out_of_fuel) :
    ∀ s, P s → loopM body l s ≠ .error Fault.out_of_fuel := by
  induction l with
  | nil => intro s _ h; cases h
  | cons a rest ih =>
    intro s hs h
    unfold loopM at h
    cases hb : body s a with
    | error e =>
      rw [hb] at h
      simp only [Except.error.injEq] at h
      subst h
      exact hnf s a (List.mem_cons_self a rest) hs hb
    | ok s1 =>
      rw [hb] at h
      exact ih (fun t b t1 hb1 => hpres t b t1 (List.mem_cons_of_mem a hb1))
        (fun t b hb1 => hnf t b (List.mem_cons_of_mem a hb1)) s1
        (hpres s a s1 (List.mem_cons_self a rest) hs hb) h

theorem growth_loop_no_fuel (F : FoF) (tree : Kdtree) (zbin : Zbin) (r : ℚ) (K : Nat)
    (G0 : List Galaxy) :
    ∀ (fuel ii : Nat) (s : DriverState),
      count_inv zbin.num 0 K s ∧ frame zbin.num G0 s.gal_list → K ≤ fuel + ii →
      growth_loop F tree zbin r fuel ii s ≠ .error Fault.out_of_fuel := by
  intro fuel
  induction fuel with
  | zero =>
    intro ii s hs hfuel h
    unfold growth_loop at h
    split at h
    · cases h
    · rename_i c hc
      have h1 := mem_length_le_all _ c (vec_get_mem hc)
      have h2 := hs.1.2
      simp only [List.drop_zero] at h2
      have hlt : ¬ ii < c.mem.length := by omega
      simp only [hlt, if_false] at h
      cases h
  | succ fuel ih =>
    intro ii s hs hfuel h
    unfold growth_loop at h
    split at h
    · cases h
    · split at h
      · split at h
        · rename_i e he
          simp only [Except.error.injEq] at h
          subst h
          exact loopM_no_fuel _ _ (growth_node_no_fuel F zbin ii r) _ he
        · rename_i s1 hl
          have hs1 := loopM_invariant
            (fun u => count_inv zbin.num 0 K u ∧ frame zbin.num G0 u.gal_list) _
            tree.node_list
            (fun u node u1 _ hu hstep =>
              growth_node_invariant F zbin _ (count_inv_stable F zbin 0 K) ii r G0
                u u1 node hu hstep)
            s s1 hs hl
          exact ih (ii + 1) s1 hs1 (by omega) h
      · cases h

theorem seed_step_no_fuel (F : FoF) (tree : Kdtree) (zbin : Zbin) (K fuel : Nat)
    (hfuel : K ≤ fuel) (st : DriverState × ℚ) (hs : count_inv zbin.num 0 K st.1) (i : Nat) :
    seed_step F tree zbin fuel st i ≠ .error Fault.out_of_fuel := by
  intro h
  unfold seed_step at h
  cases hgi : vec_get st.1.gal_list i with
  | none => simp [hgi] at h
  | some gal_i =>
    simp only [hgi] at h
    cases hfl : vec_get gal_i.in_cluster zbin.num with
    | none => simp [hfl] at h
    | some fl =>
      cases fl with
      | true => simp [hfl] at h
      | false =>
        simp only [hfl] at h
        by_cases hb : F.bin_check zbin gal_i = true
        · simp only [hb, if_true] at h
          have hbin : ∀ g, vec_get st.1.gal_list i = some g → F.bin_check zbin g = true := by
            intro g hg
            rw [hgi] at hg
            cases hg
            exact hb
          generalize (if (F.mode == "spec") = true then zbin.link_r / gal_i.da else st.2)
            = rfriend at h
          cases hl : loopM (seed_node F zbin i rfriend) tree.node_list st.1 with
          | error e =>
            simp only [hl, Except.error.injEq] at h
            subst h
            exact loopM_no_fuel _ _ (seed_node_no_fuel F zbin i rfriend) _ hl
          | ok s1 =>
            simp only [hl] at h
            have hs1 := loopM_invariant
              (fun t => count_inv zbin.num 0 K t ∧ frame zbin.num st.1.gal_list t.gal_list) _
              tree.node_list
              (fun t node t1 _ ht hstep =>
                seed_node_invariant F zbin _ (count_inv_stable F zbin 0 K) i rfriend
                  st.1.gal_list hbin t t1 node ht hstep)
              st.1 s1 ⟨hs, frame_refl _ _⟩ hl
            cases hgi1 : vec_get s1.gal_list i with
            | none => simp [hgi1] at h
            | some gal_i1 =>
              simp only [hgi1] at h
              cases hfl1 : vec_get gal_i1.in_cluster zbin.num with
              | none => simp [hfl1] at h
              | some fl1 =>
                cases fl1 with
                | false => simp [hfl1] at h
                | true =>
                  simp only [hfl1] at h
                  cases hg : growth_loop F tree zbin rfriend fuel 0 s1 with
                  | error e =>
                    simp only [hg, Except.error.injEq] at h
                    subst h
                    exact growth_loop_no_fuel F tree zbin rfriend K st.1.gal_list fuel 0 s1
                      hs1 (by omega) hg
                  | ok s2 => simp [hg] at h
        · simp [hb] at h

/-- The run does not stop for lack of fuel when the fuel is at least the number
of members on entry plus the number of galaxies whose flag is false on entry. -/
theorem driver_no_fuel (F : FoF) (tree : Kdtree) (zbin : Zbin) (fuel : Nat)
    (gal_list : List Galaxy)
    (hfuel : (all_members F.list_of_clusters).length + unflagged zbin.num gal_list ≤ fuel) :
    F.friends_of_friends fuel tree zbin gal_list ≠ .error Fault.out_of_fuel := by
  intro h
  unfold FoF.friends_of_friends at h
  simp only at h
  cases hl : loopM (seed_step F tree zbin fuel) (List.range gal_list.length)
      (⟨gal_list, F.list_of_clusters, -1⟩, zbin.rfriend) with
  | ok st => simp [hl] at h
  | error e =>
    simp only [hl, Except.error.injEq] at h
    subst h
    refine loopM_no_fuel_inv
      (fun t : DriverState × ℚ => count_inv zbin.num 0
        ((all_members F.list_of_clusters).length + unflagged zbin.num gal_list) t.1)
      _ (List.range gal_list.length) ?_ ?_ _ ?_ hl
    · intro t i t1 _ ht hstep
      exact (seed_step_invariant F tree zbin _ (count_inv_stable F zbin 0 _) fuel t t1 i ht
        hstep).1
    · intro t i _ ht
      exact seed_step_no_fuel F tree zbin _ fuel hfuel t ht i
    · exact ⟨Nat.zero_le _, by simp⟩


/-- C17: the growth loop of `friends_of_friends` terminates. For every galaxy
list, index and bin: (1) the run never stops for lack of fuel when the fuel is at
least the number of members present on entry plus the number of galaxies whose
flag of the bin is false on entry; (2) in every run that returns, the clusters
created by the call (those after the clusters present on entry) have together at
most as many members as there are galaxies whose flag was false on entry;
(3) the reason: "members of the created clusters plus galaxies with a false
flag is at most K" is preserved by cluster creation and by member insertion,
each of which inserts only galaxies with a false flag and raises it; (4) with an
empty cluster list on entry, index members that are positions of the galaxy
list and readable flags, the run returns as soon as the fuel is at least the
number of galaxies with a false flag. -/
theorem growth_terminates (F : FoF) (tree : Kdtree) (zbin : Zbin) (gal_list : List Galaxy) :
    (∀ fuel : Nat,
      (all_members F.list_of_clusters).length + unflagged zbin.num gal_list ≤ fuel →
      F.friends_of_friends fuel tree zbin gal_list ≠ .error Fault.out_of_fuel) ∧
    (∀ (fuel : Nat) (F1 : FoF) (G1 : List Galaxy),
      F.friends_of_friends fuel tree zbin gal_list = .ok (F1, G1) →
      F.list_of_clusters.length ≤ F1.list_of_clusters.length ∧
      (all_members (F1.list_of_clusters.drop F.list_of_clusters.length)).length
        ≤ unflagged zbin.num gal_list) ∧
    (∀ n0 K : Nat, update_stable F zbin (count_inv zbin.num n0 K)) ∧
    (F.list_of_clusters = [] → index_valid tree gal_list →
      flags_readable zbin.num gal_list →
      ∀ fuel : Nat, unflagged zbin.num gal_list ≤ fuel →
        ∃ F1 G1, F.friends_of_friends fuel tree zbin gal_list = .ok (F1, G1)) := by
  refine ⟨fun fuel hfuel => driver_no_fuel F tree zbin fuel gal_list hfuel, ?_,
    fun n0 K => count_inv_stable F zbin n0 K, ?_⟩
  · intro fuel F1 G1 hrun
    have h0 : count_inv zbin.num F.list_of_clusters.length (unflagged zbin.num gal_list)
        ⟨gal_list, F.list_of_clusters, -1⟩ := by
      refine ⟨le_refl _, ?_⟩
      simp [all_members]
    obtain ⟨⟨cc, hP⟩, _⟩ := driver_invariant F tree zbin _
      (count_inv_stable F zbin F.list_of_clusters.length (unflagged zbin.num gal_list))
      fuel gal_list F1 G1 h0 hrun
    exact ⟨hP.1, le_trans (Nat.le_add_right _ _) hP.2⟩
  · intro hempty hvalid hread fuel hfuel
    rcases driver_safe F tree zbin fuel gal_list hempty hvalid hread with hok | he
    · exact hok
    · exact absurd he (driver_no_fuel F tree zbin fuel gal_list
        (by rw [hempty]; simpa [all_members] using hfuel))

/-- Instance of `growth_terminates` on `scen_gals`, whose four flags are false:
fuel 4 is enough, the run returns, and the clusters have at most four members
together. -/
theorem growth_terminates_witness :
    spec_fof.friends_of_friends 4 scen_tree scen_zbin scen_gals ≠ .error Fault.out_of_fuel ∧
    (∃ F1 G1, spec_fof.friends_of_friends 4 scen_tree scen_zbin scen_gals = .ok (F1, G1)) ∧
    (∀ F1 G1, spec_fof.friends_of_friends 4 scen_tree scen_zbin scen_gals = .ok (F1, G1) →
      (all_members F1.list_of_clusters).length ≤ 4) := by
  have h := growth_terminates spec_fof scen_tree scen_zbin scen_gals
  refine ⟨h.1 4 (by decide), h.2.2.2 rfl scen_index_valid scen_flags_readable 4 (by decide), ?_⟩
  intro F1 G1 hrun
  exact (h.2.1 4 F1 G1 hrun).2


/-! ## Pruning by `node_check` does not change the result -/

/-- Simulation rule for `loopM`: when every returning step of the first body
from a state satisfying `P` is also a step of the second body and keeps `P`,
every returning run of the first loop is a run of the second. -/
theorem loopM_sim {σ α : Type} (P : σ → Prop) (bodyA bodyB : σ → α → Except Fault σ)
    (l : List α)
    (hstep : ∀ s a s1, a ∈ l → P s → bodyA s a = .ok s1 → bodyB s a = .ok s1 ∧ P s1) :
    ∀ s s1, P s → loopM bodyA l s = .ok s1 → loopM bodyB l s = .ok s1 ∧ P s1 := by
  induction l with
  | nil =>
    intro s s1 hP h
    simp only [loopM, Except.ok.injEq] at h
    subst h
    exact ⟨rfl, hP⟩
  | cons a rest ih =>
    intro s s2 hP h
    obtain ⟨s1, hb, hrest⟩ := loopM_cons_inv bodyA a rest s s2 h
    obtain ⟨hb2, hP1⟩ := hstep s a s1 (List.mem_cons_self a rest) hP hb
    obtain ⟨hl2, hP2⟩ := ih (fun t b t1 hb1 => hstep t b t1 (List.mem_cons_of_mem a hb1))
      s1 s2 hP1 hrest
    exact ⟨by rw [loopM_cons_ok bodyB a rest s s1 hb2]; exact hl2, hP2⟩

/-- A loop whose returning steps leave the state `s` unchanged returns `s`, if it
returns. -/
theorem loopM_fixed {σ α : Type} (body : σ → α → Except Fault σ) (l : List α) (s : σ)
    (hstep : ∀ a ∈ l, ∀ s1, body s a = .ok s1 → s1 = s) :
    ∀ s1, loopM body l s = .ok s1 → s1 = s := by
  induction l with
  | nil =>
    intro s1 h
    simp only [loopM, Except.ok.injEq] at h
    exact h.symm
  | cons a rest ih =>
    intro s2 h
    obtain ⟨s1, hb, hrest⟩ := loopM_cons_inv body a rest s s2 h
    have h1 := hstep a (List.mem_cons_self a rest) s1 hb
    subst h1
    exact ih (fun x hx => hstep x (List.mem_cons_of_mem a hx)) s2 hrest

theorem node_bounds_frame (F : FoF) (tree : Kdtree) (b : Int) (G G1 : List Galaxy)
    (hf : frame b G G1) (hb : node_bounds F tree G) : node_bounds F tree G1 := by
  intro node hnode m hm
  obtain ⟨g, hg, hle⟩ := hb node hnode m hm
  obtain ⟨h, hh, hr⟩ := frame_vec_get b G G1 hf m.num g hg
  obtain ⟨_, _, hra, hdec, _⟩ := raised_fields b g h hr
  exact ⟨h, hh, by rw [hra, hdec]; exact hle⟩

theorem flags_readable_frame (b : Int) (G G1 : List Galaxy) (hf : frame b G G1)
    (hread : flags_readable b G) : flags_readable b G1 := by
  intro g hg
  obtain ⟨k, hk⟩ := mem_vec_get hg
  exact frame_readable_gen b G G1 hread hf k g hk

/-- A galaxy that `node_check` rejects for a node is farther than the radius
from every galaxy that the radius of the node bounds. -/
theorem far_of_node_check (F : FoF) (node : Kdtree_node) (A B : Galaxy) (r : ℚ)
    (hsymm : ∀ a b c d : ℚ, F.astro.angsep a b c d = F.astro.angsep c d a b)
    (htri : ∀ a b c d e f : ℚ,
      F.astro.angsep a b e f ≤ F.astro.angsep a b c d + F.astro.angsep c d e f)
    (hbound : F.astro.angsep node.ra node.dec B.ra B.dec ≤ node.radius)
    (hn : ¬ F.node_check A node r = true) :
    r < F.astro.angsep A.ra A.dec B.ra B.dec := by
  by_contra hle
  apply hn
  have := node_check_of_triangle F node A B r hsymm htri hbound (not_lt.mp hle)
  simp [FoF.node_check, this]

theorem seed_member_far (F : FoF) (zbin : Zbin) (i : Nat) (r : ℚ) (s s1 : DriverState)
    (m : Kdtree_member) (g gn : Galaxy) (hg : vec_get s.gal_list i = some g)
    (hgn : vec_get s.gal_list m.num = some gn)
    (hfar : r < F.astro.angsep g.ra g.dec gn.ra gn.dec)
    (h : seed_member F zbin i r s m = .ok s1) : s1 = s := by
  unfold seed_member at h
  simp only [hg, hgn] at h
  cases hfr : F.friendship zbin g gn r with
  | error e => simp [hfr] at h
  | ok fr =>
    cases fr with
    | false =>
      simp only [hfr, Except.ok.injEq] at h
      exact h.symm
    | true =>
      obtain ⟨_, _, _, hle, _⟩ := (friendship_ok_true_iff F zbin g gn r).mp hfr
      exact absurd hle (not_le.mpr hfar)

theorem growth_member_no_friend (F : FoF) (zbin : Zbin) (ii : Nat) (r : ℚ) (s : DriverState)
    (m : Kdtree_member) (g gn : Galaxy) (hg : current_member s ii = some g)
    (hgn : vec_get s.gal_list m.num = some gn)
    (hfr : F.friendship zbin g gn r = .ok false) :
    growth_member F zbin ii r s m = .ok s := by
  unfold growth_member
  simp only [hg, hgn, hfr]

theorem growth_member_far (F : FoF) (zbin : Zbin) (ii : Nat) (r : ℚ) (s s1 : DriverState)
    (m : Kdtree_member) (g gn : Galaxy) (hg : current_member s ii = some g)
    (hgn : vec_get s.gal_list m.num = some gn)
    (hfar : r < F.astro.angsep g.ra g.dec gn.ra gn.dec)
    (h : growth_member F zbin ii r s m = .ok s1) : s1 = s := by
  unfold growth_member at h
  simp only [hg, hgn] at h
  cases hfr : F.friendship zbin g gn r with
  | error e => simp [hfr] at h
  | ok fr =>
    cases fr with
    | false =>
      simp only [hfr, Except.ok.injEq] at h
      exact h.symm
    | true =>
      obtain ⟨_, _, _, hle, _⟩ := (friendship_ok_true_iff F zbin g gn r).mp hfr
      exact absurd hle (not_le.mpr hfar)

/-- One node of the seed phase: the pruned body and the body that examines all
members return the same state. The pruned body follows the other one always,
the converse needs readable flags. -/
theorem seed_node_refines (F : FoF) (tree : Kdtree) (zbin : Zbin) (i : Nat) (r : ℚ)
    (s : DriverState) (node : Kdtree_node)
    (hsymm : ∀ a b c d : ℚ, F.astro.angsep a b c d = F.astro.angsep c d a b)
    (htri : ∀ a b c d e f : ℚ,
      F.astro.angsep a b e f ≤ F.astro.angsep a b c d + F.astro.angsep c d e f)
    (hb : node_bounds F tree s.gal_list) (hnode : node ∈ tree.node_list)
    (gal_i : Galaxy) (hgi : vec_get s.gal_list i = some gal_i) (s1 : DriverState) :
    (seed_node_all F zbin i r s node = .ok s1 → seed_node F zbin i r s node = .ok s1) ∧
    (flags_readable zbin.num s.gal_list →
      seed_node F zbin i r s node = .ok s1 → seed_node_all F zbin i r s node = .ok s1) := by
  unfold seed_node seed_node_all
  simp only [hgi]
  by_cases hn : F.node_check gal_i node r = true
  · simp only [hn, if_true]
    exact ⟨id, fun _ => id⟩
  · simp only [hn, Bool.false_eq_true, if_false, Except.ok.injEq]
    have hfar : ∀ m ∈ node.members, ∃ gn, vec_get s.gal_list m.num = some gn ∧
        r < F.astro.angsep gal_i.ra gal_i.dec gn.ra gn.dec := by
      intro m hm
      obtain ⟨gn, hgn, hle⟩ := hb node hnode m hm
      exact ⟨gn, hgn, far_of_node_check F node gal_i gn r hsymm htri hle hn⟩
    constructor
    · intro h
      refine (loopM_fixed _ node.members s ?_ s1 h).symm
      intro m hm t ht
      obtain ⟨gn, hgn, hlt⟩ := hfar m hm
      exact seed_member_far F zbin i r s t m gal_i gn hgi hgn hlt ht
    · intro hread h
      subst h
      apply loopM_unchanged
      intro m hm
      obtain ⟨gn, hgn, hlt⟩ := hfar m hm
      obtain ⟨x, hx⟩ := hread gn (vec_get_mem hgn)
      exact seed_member_no_friend F zbin i r s m gal_i gn hgi hgn
        (friendship_far F zbin gal_i gn r x hx (fun _ => hlt))

/-- One node of the growth phase: as `seed_node_refines`. -/
theorem growth_node_refines (F : FoF) (tree : Kdtree) (zbin : Zbin) (ii : Nat) (r : ℚ)
    (s : DriverState) (node : Kdtree_node)
    (hsymm : ∀ a b c d : ℚ, F.astro.angsep a b c d = F.astro.angsep c d a b)
    (htri : ∀ a b c d e f : ℚ,
      F.astro.angsep a b e f ≤ F.astro.angsep a b c d + F.astro.angsep c d e f)
    (hb : node_bounds F tree s.gal_list) (hnode : node ∈ tree.node_list)
    (gal_m : Galaxy) (hgm : current_member s ii = some gal_m) (s1 : DriverState) :
    (growth_node_all F zbin ii r s node = .ok s1 → growth_node F zbin ii r s node = .ok s1) ∧
    (flags_readable zbin.num s.gal_list →
      growth_node F zbin ii r s node = .ok s1 →
      growth_node_all F zbin ii r s node = .ok s1) := by
  unfold growth_node growth_node_all
  simp only [hgm]
  by_cases hn : F.node_check gal_m node r = true
  · simp only [hn, if_true]
    exact ⟨id, fun _ => id⟩
  · simp only [hn, Bool.false_eq_true, if_false, Except.ok.injEq]
    have hfar : ∀ m ∈ node.members, ∃ gn, vec_get s.gal_list m.num = some gn ∧
        r < F.astro.angsep gal_m.ra gal_m.dec gn.ra gn.dec := by
      intro m hm
      obtain ⟨gn, hgn, hle⟩ := hb node hnode m hm
      exact ⟨gn, hgn, far_of_node_check F node gal_m gn r hsymm htri hle hn⟩
    constructor
    · intro h
      refine (loopM_fixed _ node.members s ?_ s1 h).symm
      intro m hm t ht
      obtain ⟨gn, hgn, hlt⟩ := hfar m hm
      exact growth_member_far F zbin ii r s t m gal_m gn hgm hgn hlt ht
    · intro hread h
      subst h
      apply loopM_unchanged
      intro m hm
      obtain ⟨gn, hgn, hlt⟩ := hfar m hm
      obtain ⟨x, hx⟩ := hread gn (vec_get_mem hgn)
      exact growth_member_no_friend F zbin ii r s m gal_m gn hgm hgn
        (friendship_far F zbin gal_m gn r x hx (fun _ => hlt))


theorem update_stable_true (F : FoF) (zbin : Zbin) : update_stable F zbin (fun _ => True) :=
  ⟨fun _ _ _ _ _ _ _ _ _ _ _ _ _ _ => trivial, fun _ _ _ _ _ _ _ _ _ _ _ => trivial⟩

theorem seed_node_frame (F : FoF) (zbin : Zbin) (i : Nat) (r : ℚ) (G0 : List Galaxy)
    (s s1 : DriverState) (node : Kdtree_node) (hs : frame zbin.num G0 s.gal_list)
    (h : seed_node F zbin i r s node = .ok s1) : frame zbin.num G0 s1.gal_list := by
  unfold seed_node at h
  cases hgi : vec_get s.gal_list i with
  | none => simp [hgi] at h
  | some gal_i =>
    simp only [hgi] at h
    by_cases hn : F.node_check gal_i node r = true
    · simp only [hn, if_true] at h
      exact loopM_invariant (fun t => frame zbin.num G0 t.gal_list) _ node.members
        (fun t m t1 _ ht hstep =>
          frame_trans _ _ _ _ ht (seed_member_frame F zbin i r t t1 m hstep)) s s1 hs h
    · simp only [hn, Bool.false_eq_true, if_false, Except.ok.injEq] at h
      exact h ▸ hs

theorem growth_member_current (F : FoF) (zbin : Zbin) (ii : Nat) (r : ℚ)
    (s s1 : DriverState) (m : Kdtree_member) (k : Nat) (g : Galaxy)
    (hg : current_member s k = some g)
    (h : growth_member F zbin ii r s m = .ok s1) : current_member s1 k = some g := by
  unfold growth_member at h
  cases hgm : current_member s ii with
  | none => simp [hgm] at h
  | some gal_m =>
    cases hgn : vec_get s.gal_list m.num with
    | none => simp [hgm, hgn] at h
    | some gal_n =>
      simp only [hgm, hgn] at h
      cases hfr : F.friendship zbin gal_m gal_n r with
      | error e => simp [hfr] at h
      | ok fr =>
        cases fr with
        | false =>
          simp only [hfr, Except.ok.injEq] at h
          exact h ▸ hg
        | true =>
          simp only [hfr] at h
          obtain ⟨⟨c, hc, hcl⟩, hcc, _⟩ := append_member_ok h
          unfold current_member at hg ⊢
          rw [hc] at hg
          simp only at hg
          have hc1 : vec_get s1.list_of_clusters s1.cluster_count = some (c.add_gal gal_n) := by
            rw [hcc, hcl, vec_get_some_iff]
            obtain ⟨h0, hlt, _⟩ := vec_get_lt hc
            refine ⟨h0, List.getElem?_set_self ?_⟩
            omega
          rw [hc1]
          simp only [Cluster.add_gal]
          obtain ⟨hlt, _⟩ := List.getElem?_eq_some_iff.mp hg
          rw [List.getElem?_append_left hlt]
          exact hg

theorem growth_node_current (F : FoF) (zbin : Zbin) (ii : Nat) (r : ℚ)
    (s s1 : DriverState) (node : Kdtree_node) (k : Nat) (g : Galaxy)
    (hg : current_member s k = some g)
    (h : growth_node F zbin ii r s node = .ok s1) : current_member s1 k = some g := by
  unfold growth_node at h
  cases hgm : current_member s ii with
  | none => simp [hgm] at h
  | some gal_m =>
    simp only [hgm] at h
    by_cases hn : F.node_check gal_m node r = true
    · simp only [hn, if_true] at h
      exact loopM_invariant (fun t => current_member t k = some g) _ node.members
        (fun t m t1 _ ht hstep => growth_member_current F zbin ii r t t1 m k g ht hstep)
        s s1 hg h
    · simp only [hn, Bool.false_eq_true, if_false, Except.ok.injEq] at h
      exact h ▸ hg

/-- The node loop of the seed phase, pruned and not pruned. -/
theorem seed_nodes_refines (F : FoF) (tree : Kdtree) (zbin : Zbin) (i : Nat) (r : ℚ)
    (G0 : List Galaxy)
    (hsymm : ∀ a b c d : ℚ, F.astro.angsep a b c d = F.astro.angsep c d a b)
    (htri : ∀ a b c d e f : ℚ,
      F.astro.angsep a b e f ≤ F.astro.angsep a b c d + F.astro.angsep c d e f)
    (hb : node_bounds F tree G0) (g0 : Galaxy) (hi : vec_get G0 i = some g0)
    (s s1 : DriverState) (hs : frame zbin.num G0 s.gal_list) :
    (loopM (seed_node_all F zbin i r) tree.node_list s = .ok s1 →
      loopM (seed_node F zbin i r) tree.node_list s = .ok s1 ∧
        frame zbin.num G0 s1.gal_list) ∧
    (flags_readable zbin.num G0 →
      loopM (seed_node F zbin i r) tree.node_list s = .ok s1 →
      loopM (seed_node_all F zbin i r) tree.node_list s = .ok s1 ∧
        frame zbin.num G0 s1.gal_list) := by
  constructor
  · intro h
    refine loopM_sim (fun t => frame zbin.num G0 t.gal_list) _ _ tree.node_list ?_ s s1 hs h
    intro t node t1 hnode ht hstep
    obtain ⟨gi, hgi, _⟩ := frame_vec_get _ _ _ ht i g0 hi
    have h1 := (seed_node_refines F tree zbin i r t node hsymm htri
      (node_bounds_frame F tree _ _ _ ht hb) hnode gi hgi t1).1 hstep
    exact ⟨h1, seed_node_frame F zbin i r G0 t t1 node ht h1⟩
  · intro hread h
    refine loopM_sim (fun t => frame zbin.num G0 t.gal_list) _ _ tree.node_list ?_ s s1 hs h
    intro t node t1 hnode ht hstep
    obtain ⟨gi, hgi, _⟩ := frame_vec_get _ _ _ ht i g0 hi
    exact ⟨(seed_node_refines F tree zbin i r t node hsymm htri
      (node_bounds_frame F tree _ _ _ ht hb) hnode gi hgi t1).2
        (flags_readable_frame _ _ _ ht hread) hstep,
      seed_node_frame F zbin i r G0 t t1 node ht hstep⟩

/-- The node loop of the growth phase for the member at position `ii`, pruned
and not pruned. -/
theorem growth_nodes_refines (F : FoF) (tree : Kdtree) (zbin : Zbin) (ii : Nat) (r : ℚ)
    (G0 : List Galaxy)
    (hsymm : ∀ a b c d : ℚ, F.astro.angsep a b c d = F.astro.angsep c d a b)
    (htri : ∀ a b c d e f : ℚ,
      F.astro.angsep a b e f ≤ F.astro.angsep a b c d + F.astro.angsep c d e f)
    (hb : node_bounds F tree G0)
    (s s1 : DriverState) (hs : frame zbin.num G0 s.gal_list)
    (gal_m : Galaxy) (hgm : current_member s ii = some gal_m) :
    (loopM (growth_node_all F zbin ii r) tree.node_list s = .ok s1 →
      loopM (growth_node F zbin ii r) tree.node_list s = .ok s1 ∧
        frame zbin.num G0 s1.gal_list) ∧
    (flags_readable zbin.num G0 →
      loopM (growth_node F zbin ii r) tree.node_list s = .ok s1 →
      loopM (growth_node_all F zbin ii r) tree.node_list s = .ok s1 ∧
        frame zbin.num G0 s1.gal_list) := by
  constructor
  · intro h
    have := loopM_sim
      (fun t => frame zbin.num G0 t.gal_list ∧ current_member t ii = some gal_m)
      (growth_node_all F zbin ii r) (growth_node F zbin ii r)
      tree.node_list ?_ s s1 ⟨hs, hgm⟩ h
    · exact ⟨this.1, this.2.1⟩
    intro t node t1 hnode ht hstep
    have h1 := (growth_node_refines F tree zbin ii r t node hsymm htri
      (node_bounds_frame F tree _ _ _ ht.1 hb) hnode gal_m ht.2 t1).1 hstep
    exact ⟨h1, (growth_node_invariant F zbin _ (update_stable_true F zbin) ii r G0 t t1 node
      ⟨trivial, ht.1⟩ h1).2, growth_node_current F zbin ii r t t1 node ii gal_m ht.2 h1⟩
  · intro hread h
    have := loopM_sim
      (fun t => frame zbin.num G0 t.gal_list ∧ current_member t ii = some gal_m)
      (growth_node F zbin ii r) (growth_node_all F zbin ii r)
      tree.node_list ?_ s s1 ⟨hs, hgm⟩ h
    · exact ⟨this.1, this.2.1⟩
    intro t node t1 hnode ht hstep
    exact ⟨(growth_node_refines F tree zbin ii r t node hsymm htri
      (node_bounds_frame F tree _ _ _ ht.1 hb) hnode gal_m ht.2 t1).2
        (flags_readable_frame _ _ _ ht.1 hread) hstep,
      (growth_node_invariant F zbin _ (update_stable_true F zbin) ii r G0 t t1 node
        ⟨trivial, ht.1⟩ hstep).2,
      growth_node_current F zbin ii r t t1 node ii gal_m ht.2 hstep⟩

/-- The growth loop, pruned and not pruned. -/
theorem growth_loop_refines (F : FoF) (tree : Kdtree) (zbin : Zbin) (r : ℚ)
    (G0 : List Galaxy)
    (hsymm : ∀ a b c d : ℚ, F.astro.angsep a b c d = F.astro.angsep c d a b)
    (htri : ∀ a b c d e f : ℚ,
      F.astro.angsep a b e f ≤ F.astro.angsep a b c d + F.astro.angsep c d e f)
    (hb : node_bounds F tree G0) :
    ∀ (fuel ii : Nat) (s s1 : DriverState), frame zbin.num G0 s.gal_list →
      (growth_loop_all F tree zbin r fuel ii s = .ok s1 →
        growth_loop F tree zbin r fuel ii s = .ok s1) ∧
      (flags_readable zbin.num G0 →
        growth_loop F tree zbin r fuel ii s = .ok s1 →
        growth_loop_all F tree zbin r fuel ii s = .ok s1) := by
  intro fuel
  induction fuel with
  | zero =>
    intro ii s s1 _
    unfold growth_loop growth_loop_all
    exact ⟨id, fun _ => id⟩
  | succ fuel ih =>
    intro ii s s1 hs
    unfold growth_loop growth_loop_all
    cases hc : vec_get s.list_of_clusters s.cluster_count with
    | none => simp
    | some c =>
      simp only
      by_cases hlt : ii < c.mem.length
      · simp only [hlt, if_true]
        have hgm := current_member_of_lt s c ii hc hlt
        constructor
        · intro h
          cases hl : loopM (growth_node_all F zbin ii r) tree.node_list s with
          | error e => simp [hl] at h
          | ok s2 =>
            simp only [hl] at h
            obtain ⟨hl2, hf2⟩ := (growth_nodes_refines F tree zbin ii r G0 hsymm htri hb
              s s2 hs _ hgm).1 hl
            simp only [hl2]
            exact (ih (ii + 1) s2 s1 hf2).1 h
        · intro hread h
          cases hl : loopM (growth_node F zbin ii r) tree.node_list s with
          | error e => simp [hl] at h
          | ok s2 =>
            simp only [hl] at h
            obtain ⟨hl2, hf2⟩ := (growth_nodes_refines F tree zbin ii r G0 hsymm htri hb
              s s2 hs _ hgm).2 hread hl
            simp only [hl2]
            exact (ih (ii + 1) s2 s1 hf2).2 hread h
      · simp only [hlt, if_false]
        exact ⟨id, fun _ => id⟩


/-- One pass of the galaxy loop, pruned and not pruned. -/
theorem seed_step_refines (F : FoF) (tree : Kdtree) (zbin : Zbin) (fuel : Nat)
    (hsymm : ∀ a b c d : ℚ, F.astro.angsep a b c d = F.astro.angsep c d a b)
    (htri : ∀ a b c d e f : ℚ,
      F.astro.angsep a b e f ≤ F.astro.angsep a b c d + F.astro.angsep c d e f)
    (st st1 : DriverState × ℚ) (i : Nat) (hb : node_bounds F tree st.1.gal_list) :
    (seed_step_all F tree zbin fuel st i = .ok st1 →
      seed_step F tree zbin fuel st i = .ok st1) ∧
    (flags_readable zbin.num st.1.gal_list →
      seed_step F tree zbin fuel st i = .ok st1 →
      seed_step_all F tree zbin fuel st i = .ok st1) := by
  unfold seed_step seed_step_all
  cases hgi : vec_get st.1.gal_list i with
  | none => exact ⟨id, fun _ => id⟩
  | some gal_i =>
    simp only
    cases hfl : vec_get gal_i.in_cluster zbin.num with
    | none => exact ⟨id, fun _ => id⟩
    | some fl =>
      cases fl with
      | true => exact ⟨id, fun _ => id⟩
      | false =>
        simp only
        by_cases hbin : F.bin_check zbin gal_i = true
        · simp only [hbin, if_true]
          generalize (if (F.mode == "spec") = true then zbin.link_r / gal_i.da else st.2)
            = rfriend
          constructor
          · intro h
            cases hl : loopM (seed_node_all F zbin i rfriend) tree.node_list st.1 with
            | error e => simp [hl] at h
            | ok s1 =>
              simp only [hl] at h
              obtain ⟨hl2, hf⟩ := (seed_nodes_refines F tree zbin i rfriend st.1.gal_list
                hsymm htri hb gal_i hgi st.1 s1 (frame_refl _ _)).1 hl
              simp only [hl2]
              cases hgi1 : vec_get s1.gal_list i with
              | none => simp [hgi1] at h
              | some gal_i1 =>
                simp only [hgi1] at h ⊢
                cases hfl1 : vec_get gal_i1.in_cluster zbin.num with
                | none => simp [hfl1] at h
                | some fl1 =>
                  cases fl1 with
                  | false =>
                    simp only [hfl1] at h ⊢
                    exact h
                  | true =>
                    simp only [hfl1] at h ⊢
                    cases hg : growth_loop_all F tree zbin rfriend fuel 0 s1 with
                    | error e => simp [hg] at h
                    | ok s2 =>
                      simp only [hg] at h
                      have hg2 := (growth_loop_refines F tree zbin rfriend st.1.gal_list
                        hsymm htri hb fuel 0 s1 s2 hf).1 hg
                      simp only [hg2]
                      exact h
          · intro hread h
            cases hl : loopM (seed_node F zbin i rfriend) tree.node_list st.1 with
            | error e => simp [hl] at h
            | ok s1 =>
              simp only [hl] at h
              obtain ⟨hl2, hf⟩ := (seed_nodes_refines F tree zbin i rfriend st.1.gal_list
                hsymm htri hb gal_i hgi st.1 s1 (frame_refl _ _)).2 hread hl
              simp only [hl2]
              cases hgi1 : vec_get s1.gal_list i with
              | none => simp [hgi1] at h
              | some gal_i1 =>
                simp only [hgi1] at h ⊢
                cases hfl1 : vec_get gal_i1.in_cluster zbin.num with
                | none => simp [hfl1] at h
                | some fl1 =>
                  cases fl1 with
                  | false =>
                    simp only [hfl1] at h ⊢
                    exact h
                  | true =>
                    simp only [hfl1] at h ⊢
                    cases hg : growth_loop F tree zbin rfriend fuel 0 s1 with
                    | error e => simp [hg] at h
                    | ok s2 =>
                      simp only [hg] at h
                      have hg2 := (growth_loop_refines F tree zbin rfriend st.1.gal_list
                        hsymm htri hb fuel 0 s1 s2 hf).2 hread hg
                      simp only [hg2]
                      exact h
        · simp only [hbin, Bool.false_eq_true, if_false]
          exact ⟨id, fun _ => id⟩

/-- The whole run, pruned and not pruned: a returning run of the variant that
examines all members is a run of `friends_of_friends`, and conversely when the
flags of the bin are readable. -/
theorem driver_refines (F : FoF) (tree : Kdtree) (zbin : Zbin) (fuel : Nat)
    (gal_list : List Galaxy)
    (hsymm : ∀ a b c d : ℚ, F.astro.angsep a b c d = F.astro.angsep c d a b)
    (htri : ∀ a b c d e f : ℚ,
      F.astro.angsep a b e f ≤ F.astro.angsep a b c d + F.astro.angsep c d e f)
    (hb : node_bounds F tree gal_list) (res : FoF × List Galaxy) :
    (F.friends_of_friends_all fuel tree zbin gal_list = .ok res →
      F.friends_of_friends fuel tree zbin gal_list = .ok res) ∧
    (flags_readable zbin.num gal_list →
      F.friends_of_friends fuel tree zbin gal_list = .ok res →
      F.friends_of_friends_all fuel tree zbin gal_list = .ok res) := by
  unfold FoF.friends_of_friends FoF.friends_of_friends_all
  simp only
  constructor
  · intro h
    cases hl : loopM (seed_step_all F tree zbin fuel) (List.range gal_list.length)
        (⟨gal_list, F.list_of_clusters, -1⟩, zbin.rfriend) with
    | error e => simp [hl] at h
    | ok st =>
      simp only [hl] at h
      have := loopM_sim (fun t : DriverState × ℚ => frame zbin.num gal_list t.1.gal_list)
        (seed_step_all F tree zbin fuel) (seed_step F tree zbin fuel)
        (List.range gal_list.length) ?_ _ st (frame_refl _ _) hl
      · simp only [this.1]
        exact h
      intro t i t1 _ ht hstep
      have h1 := (seed_step_refines F tree zbin fuel hsymm htri t t1 i
        (node_bounds_frame F tree _ _ _ ht hb)).1 hstep
      exact ⟨h1, frame_trans _ _ _ _ ht
        (seed_step_invariant F tree zbin _ (update_stable_true F zbin) fuel t t1 i trivial
          h1).2⟩
  · intro hread h
    cases hl : loopM (seed_step F tree zbin fuel) (List.range gal_list.length)
        (⟨gal_list, F.list_of_clusters, -1⟩, zbin.rfriend) with
    | error e => simp [hl] at h
    | ok st =>
      simp only [hl] at h
      have := loopM_sim (fun t : DriverState × ℚ => frame zbin.num gal_list t.1.gal_list)
        (seed_step F tree zbin fuel) (seed_step_all F tree zbin fuel)
        (List.range gal_list.length) ?_ _ st (frame_refl _ _) hl
      · simp only [this.1]
        exact h
      intro t i t1 _ ht hstep
      exact ⟨(seed_step_refines F tree zbin fuel hsymm htri t t1 i
          (node_bounds_frame F tree _ _ _ ht hb)).2 (flags_readable_frame _ _ _ ht hread)
          hstep,
        frame_trans _ _ _ _ ht
          (seed_step_invariant F tree zbin _ (update_stable_true F zbin) fuel t t1 i trivial
            hstep).2⟩

/-- Every element of the vector is processed by a returning loop, from a state
that satisfies the invariant. -/
theorem loopM_visits {σ α : Type} (P : σ → Prop) (body : σ → α → Except Fault σ)
    (l : List α)
    (hstep : ∀ s a s1, a ∈ l → P s → body s a = .ok s1 → P s1) :
    ∀ s s1, P s → loopM body l s = .ok s1 → ∀ a ∈ l, ∃ t t1, P t ∧ body t a = .ok t1 := by
  induction l with
  | nil =>
    intro s s1 _ _ a ha
    cases ha
  | cons a rest ih =>
    intro s s2 hP h x hx
    obtain ⟨s1, hb, hrest⟩ := loopM_cons_inv body a rest s s2 h
    rcases List.mem_cons.mp hx with rfl | hx1
    · exact ⟨s, s1, hP, hb⟩
    · exact ih (fun t b t1 hb1 => hstep t b t1 (List.mem_cons_of_mem a hb1)) s1 s2
        (hstep s a s1 (List.mem_cons_self a rest) hP hb) hrest x hx1

theorem seed_step_reads (F : FoF) (tree : Kdtree) (zbin : Zbin) (fuel : Nat)
    (st st1 : DriverState × ℚ) (i : Nat) (h : seed_step F tree zbin fuel st i = .ok st1) :
    ∃ g x, vec_get st.1.gal_list i = some g ∧ vec_get g.in_cluster zbin.num = some x := by
  unfold seed_step at h
  cases hgi : vec_get st.1.gal_list i with
  | none => simp [hgi] at h
  | some gal_i =>
    simp only [hgi] at h
    cases hfl : vec_get gal_i.in_cluster zbin.num with
    | none => simp [hfl] at h
    | some fl => exact ⟨gal_i, fl, rfl, hfl⟩

/-- A run that returns has read the flag of the bin in every galaxy. -/
theorem run_flags_readable (F : FoF) (tree : Kdtree) (zbin : Zbin) (fuel : Nat)
    (gal_list : List Galaxy) (res : FoF × List Galaxy)
    (h : F.friends_of_friends fuel tree zbin gal_list = .ok res) :
    flags_readable zbin.num gal_list := by
  unfold FoF.friends_of_friends at h
  simp only at h
  cases hl : loopM (seed_step F tree zbin fuel) (List.range gal_list.length)
      (⟨gal_list, F.list_of_clusters, -1⟩, zbin.rfriend) with
  | error e => simp [hl] at h
  | ok st =>
    have hvis := loopM_visits
      (fun t : DriverState × ℚ => frame zbin.num gal_list t.1.gal_list)
      (seed_step F tree zbin fuel) (List.range gal_list.length)
      (fun t i t1 _ ht hstep => frame_trans _ _ _ _ ht
        (seed_step_invariant F tree zbin _ (update_stable_true F zbin) fuel t t1 i trivial
          hstep).2)
      _ st (frame_refl _ _) hl
    intro g0 hg0
    obtain ⟨k, hk⟩ := mem_vec_get hg0
    have hklt : k < gal_list.length := by
      have := (vec_get_lt hk).2.1
      omega
    obtain ⟨t, t1, ht, hstep⟩ := hvis k (List.mem_range.mpr hklt)
    obtain ⟨g, x, hg, hx⟩ := seed_step_reads F tree zbin fuel t t1 k hstep
    obtain ⟨g0', hg0', hr⟩ := frame_vec_get_back _ _ _ ht k g hg
    rw [hk] at hg0'
    cases hg0'
    obtain ⟨h0, hlt, _⟩ := vec_get_lt hx
    have hlen := (raised_fields zbin.num g0 g hr).2.2.2.2.2.2.2.2.2
    exact vec_get_of_lt _ _ h0 (by omega)


theorem node_bounds_valid (F : FoF) (tree : Kdtree) (G : List Galaxy)
    (hb : node_bounds F tree G) : index_valid tree G := by
  intro node hnode m hm
  obtain ⟨g, hg, _⟩ := hb node hnode m hm
  obtain ⟨h0, hlt, _⟩ := vec_get_lt hg
  exact ⟨h0, by omega⟩

theorem scen_node_bounds : node_bounds spec_fof scen_tree scen_gals := by
  intro node hnode m hm
  obtain ⟨B, hB⟩ := Option.isSome_iff_exists.mp (scen_valid node hnode m hm)
  exact ⟨B, hB, scen_bounds node hnode m hm B (vec_get_mem hB)
    (dense_vec_get _ scen_gals_dense _ B hB)⟩

/-- C16: pruning by `node_check` is a pure optimisation. Let the separation be
symmetric and satisfy the triangle inequality, and let every index member be a
galaxy of the list that lies within the radius of its node from the centroid of
the node. Then for every bin, galaxy list and amount of fuel the run of
`friends_of_friends` returns a result if and only if the variant in which
`node_check` is replaced by the constant true returns that same result: the
same cluster list (same clusters, same member order) and the same galaxy list
with the same flags. Both return when the cluster list is empty on entry, the
flags of the bin are readable and the fuel is at least the number of
galaxies. -/
theorem pruning_pure_optimisation (F : FoF) (tree : Kdtree) (zbin : Zbin) (fuel : Nat)
    (gal_list : List Galaxy)
    (hsymm : ∀ a b c d : ℚ, F.astro.angsep a b c d = F.astro.angsep c d a b)
    (htri : ∀ a b c d e f : ℚ,
      F.astro.angsep a b e f ≤ F.astro.angsep a b c d + F.astro.angsep c d e f)
    (hbound : node_bounds F tree gal_list) :
    (∀ res : FoF × List Galaxy,
      F.friends_of_friends fuel tree zbin gal_list = .ok res ↔
      F.friends_of_friends_all fuel tree zbin gal_list = .ok res) ∧
    (F.list_of_clusters = [] → flags_readable zbin.num gal_list → gal_list.length ≤ fuel →
      ∃ F1 G1, F.friends_of_friends fuel tree zbin gal_list = .ok (F1, G1) ∧
        F.friends_of_friends_all fuel tree zbin gal_list = .ok (F1, G1)) := by
  constructor
  · intro res
    have href := driver_refines F tree zbin fuel gal_list hsymm htri hbound res
    constructor
    · intro h
      exact href.2 (run_flags_readable F tree zbin fuel gal_list res h) h
    · exact href.1
  · intro hempty hread hfuel
    obtain ⟨F1, G1, hrun⟩ := driver_total F tree zbin fuel gal_list hempty
      (node_bounds_valid F tree gal_list hbound) hread hfuel
    exact ⟨F1, G1, hrun,
      (driver_refines F tree zbin fuel gal_list hsymm htri hbound (F1, G1)).2 hread hrun⟩

/-- Instance of `pruning_pure_optimisation` on `scen_gals` with the index
`scen_tree`, where the pass of galaxy 0 skips the node around the galaxies 1, 2
and 3: both runs with fuel 4 return the same result. -/
theorem pruning_pure_optimisation_witness :
    ∃ F1 G1, spec_fof.friends_of_friends 4 scen_tree scen_zbin scen_gals = .ok (F1, G1) ∧
      spec_fof.friends_of_friends_all 4 scen_tree scen_zbin scen_gals = .ok (F1, G1) :=
  (pruning_pure_optimisation spec_fof scen_tree scen_zbin 4 scen_gals plane_astro_symm
    plane_astro_triangle scen_node_bounds).2 rfl scen_flags_readable (by decide)


/-! ## Passes of the galaxy loop -/

/-- The ways in which a pass of the galaxy loop returns: it leaves the state
unchanged because the flag of the seed is raised or the seed fails `bin_check`,
or the seed is unflagged and passes `bin_check`, the seed phase returns a state
`s1`, and either the flag of the seed is still false and `s1` is the result, or
the flag is raised and the growth loop runs from `s1`. The local `rfriend` is
`link_r / da` of the seed in mode "spec" and unchanged in the other modes. -/
theorem seed_step_cases (F : FoF) (tree : Kdtree) (zbin : Zbin) (fuel : Nat)
    (st st1 : DriverState × ℚ) (i : Nat) (h : seed_step F tree zbin fuel st i = .ok st1) :
    ∃ gal_i, vec_get st.1.gal_list i = some gal_i ∧
      st1.2 = (if (F.mode == "spec") = true then zbin.link_r / gal_i.da else st.2) ∧
      ((st1.1 = st.1 ∧
          (vec_get gal_i.in_cluster zbin.num = some true ∨ ¬ F.bin_check zbin gal_i = true)) ∨
        (vec_get gal_i.in_cluster zbin.num = some false ∧ F.bin_check zbin gal_i = true ∧
          ∃ s1, loopM (seed_node F zbin i st1.2) tree.node_list st.1 = .ok s1 ∧
            ((flag_of s1.gal_list zbin.num i = some false ∧ st1.1 = s1) ∨
              (flag_of s1.gal_list zbin.num i = some true ∧
                growth_loop F tree zbin st1.2 fuel 0 s1 = .ok st1.1)))) := by
  unfold seed_step at h
  cases hgi : vec_get st.1.gal_list i with
  | none => simp [hgi] at h
  | some gal_i =>
    simp only [hgi] at h
    refine ⟨gal_i, rfl, ?_⟩
    cases hfl : vec_get gal_i.in_cluster zbin.num with
    | none => simp [hfl] at h
    | some fl =>
      cases fl with
      | true =>
        simp only [hfl, Except.ok.injEq] at h
        subst h
        exact ⟨rfl, Or.inl ⟨rfl, Or.inl rfl⟩⟩
      | false =>
        simp only [hfl] at h
        by_cases hb : F.bin_check zbin gal_i = true
        · simp only [hb, if_true] at h
          generalize (if (F.mode == "spec") = true then zbin.link_r / gal_i.da else st.2)
            = rfriend at h ⊢
          cases hl : loopM (seed_node F zbin i rfriend) tree.node_list st.1 with
          | error e => simp [hl] at h
          | ok s1 =>
            simp only [hl] at h
            cases hgi1 : vec_get s1.gal_list i with
            | none => simp [hgi1] at h
            | some gal_i1 =>
              simp only [hgi1] at h
              cases hfl1 : vec_get gal_i1.in_cluster zbin.num with
              | none => simp [hfl1] at h
              | some fl1 =>
                cases fl1 with
                | false =>
                  simp only [hfl1, Except.ok.injEq] at h
                  subst h
                  exact ⟨rfl, Or.inr ⟨rfl, hb, s1, hl,
                    Or.inl ⟨flag_of_some _ _ _ gal_i1 false hgi1 hfl1, rfl⟩⟩⟩
                | true =>
                  simp only [hfl1] at h
                  cases hg : growth_loop F tree zbin rfriend fuel 0 s1 with
                  | error e => simp [hg] at h
                  | ok s2 =>
                    simp only [hg, Except.ok.injEq] at h
                    subst h
                    exact ⟨rfl, Or.inr ⟨rfl, hb, s1, hl,
                      Or.inr ⟨flag_of_some _ _ _ gal_i1 true hgi1 hfl1, hg⟩⟩⟩
        · simp only [hb, Bool.false_eq_true, if_false, Except.ok.injEq] at h
          subst h
          exact ⟨rfl, Or.inl ⟨rfl, Or.inr hb⟩⟩

theorem seed_member_stable (F : FoF) (zbin : Zbin) (i : Nat) (r : ℚ)
    (Q : DriverState → Prop) (hQ : seed_stable F zbin i r Q) (s s1 : DriverState)
    (m : Kdtree_member) (hs : Q s) (h : seed_member F zbin i r s m = .ok s1) : Q s1 := by
  unfold seed_member at h
  cases hgi : vec_get s.gal_list i with
  | none => simp [hgi] at h
  | some gal_i =>
    cases hgn : vec_get s.gal_list m.num with
    | none => simp [hgi, hgn] at h
    | some gal_n =>
      simp only [hgi, hgn] at h
      cases hfr : F.friendship zbin gal_i gal_n r with
      | error e => simp [hfr] at h
      | ok fr =>
        cases fr with
        | false =>
          simp only [hfr, Except.ok.injEq] at h
          exact h ▸ hs
        | true =>
          simp only [hfr] at h
          cases hfl : vec_get gal_i.in_cluster zbin.num with
          | none => simp [hfl] at h
          | some fl =>
            cases fl with
            | false =>
              simp only [hfl] at h
              exact hQ.1 s s1 m.num gal_i gal_n hs hgi hgn hfl hfr h
            | true =>
              simp only [hfl] at h
              exact hQ.2 s s1 m.num gal_i gal_n hs hgi hgn hfl hfr h

/-- Rule for the seed phase of a pass. -/
theorem seed_loop_stable (F : FoF) (tree : Kdtree) (zbin : Zbin) (i : Nat) (r : ℚ)
    (Q : DriverState → Prop) (hQ : seed_stable F zbin i r Q) (s s1 : DriverState)
    (hs : Q s) (h : loopM (seed_node F zbin i r) tree.node_list s = .ok s1) : Q s1 := by
  refine loopM_invariant Q _ tree.node_list ?_ s s1 hs h
  intro t node t1 _ ht hstep
  unfold seed_node at hstep
  cases hgi : vec_get t.gal_list i with
  | none => simp [hgi] at hstep
  | some gal_i =>
    simp only [hgi] at hstep
    by_cases hn : F.node_check gal_i node r = true
    · simp only [hn, if_true] at hstep
      exact loopM_invariant Q _ node.members
        (fun u m u1 _ hu hm => seed_member_stable F zbin i r Q hQ u u1 m hu hm) t t1 ht hstep
    · simp only [hn, Bool.false_eq_true, if_false, Except.ok.injEq] at hstep
      exact hstep ▸ ht

theorem growth_member_stable (F : FoF) (zbin : Zbin) (ii : Nat) (r : ℚ)
    (Q : DriverState → Prop) (hQ : growth_stable F zbin r Q) (s s1 : DriverState)
    (m : Kdtree_member) (hs : Q s) (h : growth_member F zbin ii r s m = .ok s1) : Q s1 := by
  unfold growth_member at h
  cases hgm : current_member s ii with
  | none => simp [hgm] at h
  | some gal_m =>
    cases hgn : vec_get s.gal_list m.num with
    | none => simp [hgm, hgn] at h
    | some gal_n =>
      simp only [hgm, hgn] at h
      cases hfr : F.friendship zbin gal_m gal_n r with
      | error e => simp [hfr] at h
      | ok fr =>
        cases fr with
        | false =>
          simp only [hfr, Except.ok.injEq] at h
          exact h ▸ hs
        | true =>
          simp only [hfr] at h
          exact hQ s s1 ii m.num gal_m gal_n hs hgm hgn hfr h

theorem growth_nodes_stable (F : FoF) (tree : Kdtree) (zbin : Zbin) (ii : Nat) (r : ℚ)
    (Q : DriverState → Prop) (hQ : growth_stable F zbin r Q) (s s1 : DriverState)
    (hs : Q s) (h : loopM (growth_node F zbin ii r) tree.node_list s = .ok s1) : Q s1 := by
  refine loopM_invariant Q _ tree.node_list ?_ s s1 hs h
  intro t node t1 _ ht hstep
  unfold growth_node at hstep
  cases hgm : current_member t ii with
  | none => simp [hgm] at hstep
  | some gal_m =>
    simp only [hgm] at hstep
    by_cases hn : F.node_check gal_m node r = true
    · simp only [hn, if_true] at hstep
      exact loopM_invariant Q _ node.members
        (fun u m u1 _ hu hm => growth_member_stable F zbin ii r Q hQ u u1 m hu hm)
        t t1 ht hstep
    · simp only [hn, Bool.false_eq_true, if_false, Except.ok.injEq] at hstep
      exact hstep ▸ ht

/-- Rule for the growth phase of a pass. -/
theorem growth_loop_stable (F : FoF) (tree : Kdtree) (zbin : Zbin) (r : ℚ)
    (Q : DriverState → Prop) (hQ : growth_stable F zbin r Q) (fuel ii : Nat)
    (s s1 : DriverState) (hs : Q s) (h : growth_loop F tree zbin r fuel ii s = .ok s1) :
    Q s1 :=
  growth_loop_invariant F tree zbin r Q
    (fun k t t1 ht hloop => growth_nodes_stable F tree zbin k r Q hQ t t1 ht hloop)
    fuel ii s s1 hs h


theorem raised_flag_false_eq (b : Int) (g h : Galaxy) (hr : Galaxy.raised b g h)
    (hf : vec_get h.in_cluster b = some false) : h = g := by
  rcases hr with rfl | rfl
  · rfl
  · exfalso
    rw [vec_get_some_iff] at hf
    obtain ⟨_, h1⟩ := hf
    obtain ⟨hlt, _⟩ := List.getElem?_eq_some_iff.mp h1
    simp only [List.length_set] at hlt
    rw [List.getElem?_set_self hlt] at h1
    cases h1

theorem accepted_of_friendship (F : FoF) (zbin : Zbin) (r : ℚ) (M B : Galaxy)
    (h : F.friendship zbin M B r = .ok true) : accepted F zbin r M B := by
  obtain ⟨h1, h2, _, h3, h4⟩ := (friendship_ok_true_iff F zbin M B r).mp h
  exact ⟨h1, h2, h3, h4⟩

theorem accepted_raised_left (F : FoF) (zbin : Zbin) (r : ℚ) (b : Int) (M M1 B : Galaxy)
    (hr : Galaxy.raised b M M1) : accepted F zbin r M1 B ↔ accepted F zbin r M B := by
  obtain ⟨hnum, _, hra, hdec, hz, _, _, hv, _⟩ := raised_fields b M M1 hr
  unfold accepted
  rw [hnum, hra, hdec, hz, hv]

theorem accepted_raised_right (F : FoF) (zbin : Zbin) (r : ℚ) (b : Int) (M B B1 : Galaxy)
    (hr : Galaxy.raised b B B1) : accepted F zbin r M B1 ↔ accepted F zbin r M B := by
  obtain ⟨hnum, _, hra, hdec, _, _, _, hv, _⟩ := raised_fields b B B1 hr
  unfold accepted
  rw [hnum, hra, hdec, hv, bin_check_raised F zbin b B B1 hr]

theorem set_append_last {α : Type} (l : List α) (a c : α) :
    (l ++ [a]).set l.length c = l ++ [c] := by
  induction l with
  | nil => rfl
  | cons x rest ih => simp [List.set, ih]

theorem vec_get_append_last {α : Type} (l : List α) (a : α) (k : Int)
    (hk : k = (l.length : Int)) : vec_get (l ++ [a]) k = some a := by
  subst hk
  rw [vec_get_nat]
  simp

/-- The current cluster of a pass whose cluster exists is the last cluster. -/
theorem pass_inv_current (gi : Galaxy) (s0 s : DriverState) (rest : List Galaxy)
    (hnum : s0.cluster_count + 1 = (s0.list_of_clusters.length : Int))
    (hlist : s.list_of_clusters
      = s0.list_of_clusters ++ [⟨s0.cluster_count + 1, gi :: rest⟩])
    (hcc : s.cluster_count = s0.cluster_count + 1) :
    vec_get s.list_of_clusters s.cluster_count = some ⟨s0.cluster_count + 1, gi :: rest⟩ := by
  rw [hlist]
  exact vec_get_append_last _ _ _ (by rw [hcc, hnum])

/-- Insertion of a galaxy that is linked to a member of the cluster of the pass
keeps `pass_inv`. -/
theorem pass_inv_append (F : FoF) (zbin : Zbin) (i : Nat) (r : ℚ) (gi : Galaxy)
    (s0 s s1 : DriverState) (gal_now : Int) (gal_n : Galaxy)
    (hnum : s0.cluster_count + 1 = (s0.list_of_clusters.length : Int))
    (hs : pass_inv F zbin i r gi s0 s)
    (hlink : ∀ rest, s.list_of_clusters
        = s0.list_of_clusters ++ [⟨s0.cluster_count + 1, gi :: rest⟩] →
      ∃ (k : Nat) (M : Galaxy), k ≤ rest.length ∧ (gi :: rest)[k]? = some M ∧
        accepted F zbin r M gal_n)
    (h : append_member zbin s gal_now gal_n = .ok s1) :
    pass_inv F zbin i r gi s0 s1 := by
  obtain ⟨rest, hne, hlist, hcc, hflag, hframe, hlr⟩ := hs
  obtain ⟨⟨c, hc, hcl⟩, hcc1, hframe1, _, _⟩ := append_member_ok h
  rw [pass_inv_current gi s0 s rest hnum hlist hcc] at hc
  cases hc
  have htn : s.cluster_count.toNat = s0.list_of_clusters.length := by
    rw [hcc, hnum]
    simp
  refine ⟨rest ++ [gal_n], by simp, ?_, hcc1.trans hcc,
    flag_of_frame_true _ _ _ hframe1 _ hflag, frame_trans _ _ _ _ hframe hframe1, ?_⟩
  · rw [hcl, hlist, htn, set_append_last]
    simp [Cluster.add_gal]
  · intro j B hj
    by_cases hlt : j < rest.length
    · rw [List.getElem?_append_left hlt] at hj
      obtain ⟨k, M, hk, hM, hacc⟩ := hlr j B hj
      refine ⟨k, M, hk, ?_, hacc⟩
      rw [← List.cons_append, List.getElem?_append_left (by simp; omega)]
      exact hM
    · have hjlt : j < (rest ++ [gal_n]).length := (List.getElem?_eq_some_iff.mp hj).1
      simp only [List.length_append, List.length_singleton] at hjlt
      have hje : j = rest.length := by omega
      subst hje
      simp only [List.getElem?_concat_length, Option.some.injEq] at hj
      subst hj
      obtain ⟨k, M, hk, hM, hacc⟩ := hlink rest hlist
      refine ⟨k, M, hk, ?_, hacc⟩
      rw [← List.cons_append, List.getElem?_append_left (by simp; omega)]
      exact hM

/-- The seed phase of the pass of `gi = gal_list[i]`, started in `s0` with the
flag of the seed false, keeps: nothing has changed, or the cluster of the pass
exists. -/
theorem pass_seed_stable (F : FoF) (zbin : Zbin) (i : Nat) (r : ℚ) (gi : Galaxy)
    (s0 : DriverState)
    (hnum : s0.cluster_count + 1 = (s0.list_of_clusters.length : Int))
    (hgi : vec_get s0.gal_list i = some gi)
    (hfl : vec_get gi.in_cluster zbin.num = some false) :
    seed_stable F zbin i r (fun s => s = s0 ∨ pass_inv F zbin i r gi s0 s) := by
  constructor
  · intro s s1 gal_now gal_i gal_n hs hgi1 hgn hfl1 hfr hc
    rcases hs with rfl | hs
    · rw [hgi] at hgi1
      cases hgi1
      obtain ⟨hlist, hcc, hframe, hfi, _, _⟩ := create_cluster_ok hc
      refine Or.inr ⟨[gal_n], by simp, hlist, hcc, hfi, hframe, ?_⟩
      intro j B hj
      cases j with
      | zero =>
        simp only [List.getElem?_cons_zero, Option.some.injEq] at hj
        subst hj
        exact ⟨0, gi, le_refl _, rfl, accepted_of_friendship F zbin r gi _ hfr⟩
      | succ j => simp at hj
    · obtain ⟨_, _, _, _, hflag, _, _⟩ := hs
      rw [flag_of_some _ _ _ gal_i false hgi1 hfl1] at hflag
      cases hflag
  · intro s s1 gal_now gal_i gal_n hs hgi1 hgn hfl1 hfr hc
    rcases hs with rfl | hs
    · rw [hgi] at hgi1
      cases hgi1
      rw [hfl] at hfl1
      cases hfl1
    · refine Or.inr (pass_inv_append F zbin i r gi s0 s s1 gal_now gal_n hnum hs ?_ hc)
      intro rest _
      obtain ⟨_, _, _, _, _, hframe, _⟩ := hs
      obtain ⟨h, hh, hr⟩ := frame_vec_get _ _ _ hframe i gi hgi
      rw [hgi1] at hh
      cases hh
      exact ⟨0, gi, Nat.zero_le _, List.getElem?_cons_zero,
        (accepted_raised_left F zbin r zbin.num gi gal_i gal_n hr).mp
          (accepted_of_friendship F zbin r gal_i gal_n hfr)⟩

/-- The growth phase keeps `pass_inv`. -/
theorem pass_growth_stable (F : FoF) (zbin : Zbin) (i : Nat) (r : ℚ) (gi : Galaxy)
    (s0 : DriverState)
    (hnum : s0.cluster_count + 1 = (s0.list_of_clusters.length : Int)) :
    growth_stable F zbin r (pass_inv F zbin i r gi s0) := by
  intro s s1 ii gal_now gal_m gal_n hs hgm hgn hfr hc
  refine pass_inv_append F zbin i r gi s0 s s1 gal_now gal_n hnum hs ?_ hc
  intro rest hlist
  obtain ⟨_, _, _, hcc, _, _, _⟩ := hs
  unfold current_member at hgm
  rw [pass_inv_current gi s0 s rest hnum hlist hcc] at hgm
  simp only at hgm
  have hlt : ii < (gi :: rest).length := (List.getElem?_eq_some_iff.mp hgm).1
  simp only [List.length_cons] at hlt
  exact ⟨ii, gal_m, by omega, hgm, accepted_of_friendship F zbin r gal_m gal_n hfr⟩


/-- The local `rfriend` after a pass is the radius of the pass of its seed. -/
theorem pass_radius_eq (F : FoF) (zbin : Zbin) (g : Galaxy) (x : ℚ)
    (hx : F.mode ≠ "spec" → x = zbin.rfriend) :
    (if (F.mode == "spec") = true then zbin.link_r / g.da else x) = pass_radius F zbin g := by
  unfold pass_radius
  by_cases hm : F.mode = "spec"
  · simp [hm]
  · have : ¬ (F.mode == "spec") = true := fun h => hm ((mode_beq_iff F).mp h)
    simp only [this, if_false]
    exact hx hm

/-- Pass rule: `between_passes` is kept by a pass of the galaxy loop when `P` is
preserved by the updates of the driver, `Good` is kept when flags are raised,
and the cluster that a pass creates is `Good` when the pass ends. -/
theorem seed_step_pass (F : FoF) (tree : Kdtree) (zbin : Zbin) (fuel : Nat)
    (G0 : List Galaxy) (P : DriverState → Prop) (hP : update_stable F zbin P)
    (Good : List Galaxy → Cluster → Prop)
    (hmono : ∀ G G1 c, frame zbin.num G G1 → Good G c → Good G1 c)
    (hfinish : ∀ (i : Nat) (gi : Galaxy) (s0 s1 s2 : DriverState) (rest : List Galaxy),
      PassRun F tree zbin fuel G0 P Good i gi s0 s1 s2 rest →
      Good s2.gal_list ⟨s0.cluster_count + 1, gi :: rest⟩)
    (st st1 : DriverState × ℚ) (i : Nat)
    (hs : between_passes F zbin G0 P Good st)
    (h : seed_step F tree zbin fuel st i = .ok st1) :
    between_passes F zbin G0 P Good st1 := by
  obtain ⟨hframe, hPs, hnum, hrf, hgood⟩ := hs
  obtain ⟨gal_i, hgi, hr2, hcases⟩ := seed_step_cases F tree zbin fuel st st1 i h
  have hrad : st1.2 = pass_radius F zbin gal_i := by
    rw [hr2]
    exact pass_radius_eq F zbin gal_i st.2 hrf
  have hrf1 : F.mode ≠ "spec" → st1.2 = zbin.rfriend := by
    intro hm
    rw [hrad]
    unfold pass_radius
    have : ¬ (F.mode == "spec") = true := fun h => hm ((mode_beq_iff F).mp h)
    simp [this]
  have hinv := seed_step_invariant F tree zbin P hP fuel st st1 i hPs h
  have hsame : st1.1 = st.1 → between_passes F zbin G0 P Good st1 := by
    intro heq
    refine ⟨?_, hinv.1, ?_, hrf1, ?_⟩
    · rw [heq]; exact hframe
    · rw [heq]; exact hnum
    · rw [heq]; exact hgood
  rcases hcases with ⟨heq, _⟩ | ⟨hfl, hb, s1, hl, hsub⟩
  · exact hsame heq
  · obtain ⟨g0, hg0, hraise⟩ := frame_vec_get_back _ _ _ hframe i gal_i hgi
    have hge := raised_flag_false_eq _ g0 gal_i hraise hfl
    subst hge
    rw [vec_get_nat] at hg0
    rw [hrad] at hl hsub
    have hQ1 := seed_loop_stable F tree zbin i (pass_radius F zbin gal_i) _
      (pass_seed_stable F zbin i (pass_radius F zbin gal_i) gal_i st.1 hnum hgi hfl)
      st.1 s1 (Or.inl rfl) hl
    rcases hsub with ⟨hf1, heq⟩ | ⟨hf1, hg⟩
    · rcases hQ1 with h1 | h1
      · exact hsame (heq.trans h1)
      · obtain ⟨_, _, _, _, hflag, _, _⟩ := h1
        rw [hf1] at hflag
        cases hflag
    · rcases hQ1 with h1 | h1
      · rw [h1, flag_of_some _ _ _ gal_i false hgi hfl] at hf1
        cases hf1
      · have h2 := growth_loop_stable F tree zbin (pass_radius F zbin gal_i) _
          (pass_growth_stable F zbin i (pass_radius F zbin gal_i) gal_i st.1 hnum)
          fuel 0 s1 st1.1 h1 hg
        obtain ⟨rest, hne, hlist, hcc, hflag, hfr2, hlr⟩ := h2
        refine ⟨frame_trans _ _ _ _ hframe hfr2, hinv.1, ?_, hrf1, ?_⟩
        · rw [hlist, hcc, List.length_append, List.length_singleton]
          push_cast
          omega
        · intro c hc
          rw [hlist, List.mem_append, List.mem_singleton] at hc
          rcases hc with hc | rfl
          · exact hmono _ _ c hfr2 (hgood c hc)
          · exact hfinish i gal_i st.1 s1 st1.1 rest
              { start := ⟨hframe, hPs, hnum, fun _ => rfl, hgood⟩
                final := hinv.1
                entry := hg0
                seed := hgi
                flag := hfl
                bin := hb
                seed_phase := hl
                growth_phase := hg
                after_seed := h1
                clusters := hlist
                count := hcc
                flags := hfr2
                links := hlr
                second := hne }

/-- Pass rule for `friends_of_friends` with an empty cluster list on entry: every
cluster of the result is `Good`. -/
theorem driver_pass_invariant (F : FoF) (tree : Kdtree) (zbin : Zbin) (fuel : Nat)
    (gal_list : List Galaxy) (P : DriverState → Prop) (hP : update_stable F zbin P)
    (Good : List Galaxy → Cluster → Prop)
    (hmono : ∀ G G1 c, frame zbin.num G G1 → Good G c → Good G1 c)
    (hfinish : ∀ (i : Nat) (gi : Galaxy) (s0 s1 s2 : DriverState) (rest : List Galaxy),
      PassRun F tree zbin fuel gal_list P Good i gi s0 s1 s2 rest →
      Good s2.gal_list ⟨s0.cluster_count + 1, gi :: rest⟩)
    (F1 : FoF) (G1 : List Galaxy) (hempty : F.list_of_clusters = [])
    (h0 : P ⟨gal_list, [], -1⟩)
    (h : F.friends_of_friends fuel tree zbin gal_list = .ok (F1, G1)) :
    ∀ c ∈ F1.list_of_clusters, Good G1 c := by
  unfold FoF.friends_of_friends at h
  simp only at h
  cases hl : loopM (seed_step F tree zbin fuel) (List.range gal_list.length)
      (⟨gal_list, F.list_of_clusters, -1⟩, zbin.rfriend) with
  | error e => simp [hl] at h
  | ok st =>
    simp only [hl, Except.ok.injEq, Prod.mk.injEq] at h
    obtain ⟨hF, hG⟩ := h
    have hinv := loopM_invariant (between_passes F zbin gal_list P Good)
      (seed_step F tree zbin fuel) (List.range gal_list.length)
      (fun t i t1 _ ht hstep =>
        seed_step_pass F tree zbin fuel gal_list P hP Good hmono hfinish t t1 i ht hstep)
      _ st ?_ hl
    · subst hF hG
      exact hinv.2.2.2.2
    · rw [hempty]
      exact ⟨frame_refl _ _, h0, by simp, fun _ => rfl, by simp⟩


/-! ## Linkage of the members of a cluster -/

theorem run_members_ok (r : Except Fault (FoF × List Galaxy)) (L : List (List Galaxy))
    (h : run_members r = some L) :
    ∃ F1 G1, r = .ok (F1, G1) ∧ F1.list_of_clusters.map (fun c => c.mem) = L := by
  cases r with
  | error e => simp [run_members] at h
  | ok v =>
    simp only [run_members, Option.some.injEq] at h
    exact ⟨v.1, v.2, rfl, h⟩

theorem lag_run :
    run_members (lag_fof.friends_of_friends 7 lag_tree scen_zbin lag_gals) =
      some [[gal_at 5 50 (1 / 10) 0, gal_at 6 50 (1 / 10) 0],
        [gal_at 0 0 (1 / 10) 0, gal_at 1 0 (1 / 10) 0, gal_at 4 10 (1 / 10) 0],
        [gal_at 2 10 (1 / 10) 0, gal_at 3 10 (1 / 10) 0]] := by
  decide!


/-- A member of a cluster has the `num`, position and other data of the galaxy
of the entry list at its `num`. -/
theorem member_origin (b : Int) (G0 : List Galaxy) (s : DriverState) (hd : dense G0)
    (hf : frame b G0 s.gal_list) (hc : core_inv b s) (m : Galaxy)
    (hm : m ∈ all_members s.list_of_clusters) :
    ∃ g0, vec_get G0 m.num = some g0 ∧ g0 ∈ G0 ∧ g0.num = m.num ∧ g0.ra = m.ra ∧
      g0.dec = m.dec ∧ g0.z = m.z ∧ g0.dz = m.dz ∧ g0.v = m.v := by
  obtain ⟨g, hg, hr, _⟩ := hc.2.2 m hm
  obtain ⟨g0, hg0, hmem, hr0, hn0, _⟩ := frame_origin b G0 _ hd hf _ g hg
  obtain ⟨_, _, a1, a2, a3, a4, _, a5, _⟩ := raised_fields _ _ _ hr
  obtain ⟨_, _, b1, b2, b3, b4, _, b5, _⟩ := raised_fields _ _ _ hr0
  exact ⟨g0, hg0, hmem, hn0, b1.symm.trans a1, b2.symm.trans a2, b3.symm.trans a3,
    b4.symm.trans a4, b5.symm.trans a5⟩

/-- Two galaxies of a dense list with the same `num` are equal. -/
theorem dense_num_inj (G : List Galaxy) (hd : dense G) (X Y : Galaxy) (hX : X ∈ G)
    (hY : Y ∈ G) (h : X.num = Y.num) : X = Y := by
  obtain ⟨k, hk⟩ := List.mem_iff_getElem?.mp hX
  obtain ⟨j, hj⟩ := List.mem_iff_getElem?.mp hY
  have h1 := hd k X hk
  have h2 := hd j Y hj
  have hkj : k = j := by
    have : (k : Int) = (j : Int) := by rw [← h1, ← h2, h]
    exact_mod_cast this
  subst hkj
  rw [hk] at hj
  cases hj
  rfl

/-- In a linked cluster every member has a partner in the cluster with another
`num` within the radius, as first or as second argument of the separation. -/
theorem link_rest_partner (F : FoF) (zbin : Zbin) (r : ℚ) (A : Galaxy) (rest : List Galaxy)
    (hne : rest ≠ []) (hl : link_rest F zbin r A rest) (m : Galaxy) (hm : m ∈ A :: rest) :
    ∃ p ∈ A :: rest, p.num ≠ m.num ∧
      (F.astro.angsep m.ra m.dec p.ra p.dec ≤ r ∨
        F.astro.angsep p.ra p.dec m.ra m.dec ≤ r) := by
  obtain ⟨q, hq⟩ := List.mem_iff_getElem?.mp hm
  cases q with
  | zero =>
    simp only [List.getElem?_cons_zero, Option.some.injEq] at hq
    subst hq
    cases rest with
    | nil => exact absurd rfl hne
    | cons B tail =>
      obtain ⟨k, M, hk, hM, hacc⟩ := hl 0 B List.getElem?_cons_zero
      have hk0 : k = 0 := by omega
      subst hk0
      simp only [List.getElem?_cons_zero, Option.some.injEq] at hM
      subst hM
      exact ⟨B, by simp, fun h => hacc.1 h.symm, Or.inl hacc.2.2.1⟩
  | succ j =>
    simp only [List.getElem?_cons_succ] at hq
    obtain ⟨k, M, _, hM, hacc⟩ := hl j m hq
    exact ⟨M, List.getElem?_mem hM, hacc.1, Or.inr hacc.2.2.1⟩

/-- A galaxy of the present list whose flag is false is the galaxy of the entry
list at its position. -/
theorem unflagged_entry (b : Int) (G0 G : List Galaxy) (hf : frame b G0 G) (k : Int)
    (g : Galaxy) (hg : vec_get G k = some g) (hfl : vec_get g.in_cluster b = some false) :
    g ∈ G0 := by
  obtain ⟨g0, hg0, hr⟩ := frame_vec_get_back b G0 G hf k g hg
  rw [raised_flag_false_eq b g0 g hr hfl]
  exact vec_get_mem hg0

theorem members_entry_stable (F : FoF) (zbin : Zbin) (G0 : List Galaxy) :
    update_stable F zbin (members_entry G0 zbin.num) := by
  constructor
  · intro s s1 i gal_now gal_i gal_n rfriend hs hgi hgn _ hfl hfr hc
    obtain ⟨_, _, hfln, _, _⟩ := (friendship_ok_true_iff F zbin gal_i gal_n rfriend).mp hfr
    refine ⟨frame_trans _ _ _ _ hs.1 (create_cluster_ok hc).2.2.1, ?_⟩
    intro m hm
    rw [create_cluster_members hc, List.mem_append] at hm
    rcases hm with hm | hm
    · exact hs.2 m hm
    · simp only [List.mem_cons, List.mem_singleton, List.not_mem_nil, or_false] at hm
      rcases hm with rfl | rfl
      · exact unflagged_entry _ G0 _ hs.1 i m hgi hfl
      · exact unflagged_entry _ G0 _ hs.1 gal_now m hgn hfln
  · intro s s1 gal_now gal_m gal_n rfriend hs hgn _ hfr hc
    obtain ⟨_, _, hfln, _, _⟩ := (friendship_ok_true_iff F zbin gal_m gal_n rfriend).mp hfr
    refine ⟨frame_trans _ _ _ _ hs.1 (append_member_ok hc).2.2.1, ?_⟩
    intro m hm
    rw [(append_member_members hc).mem_iff, List.mem_append] at hm
    rcases hm with hm | hm
    · exact hs.2 m hm
    · simp only [List.mem_singleton] at hm
      subst hm
      exact unflagged_entry _ G0 _ hs.1 gal_now m hgn hfln

/-- C11, with the cluster list empty on entry: after every run of
`friends_of_friends` that returns, every cluster is linked. Its first member is
the seed `A = gal_list[i]` of its pass, it has a second member, and every later
member `B` satisfies the conditions of `friendship` relative to a member `M`
placed before it, in particular `angsep(M, B) ≤ rfriend` with the radius of the
pass of the seed, `link_r / A.da` in mode "spec" and `zbin.rfriend` otherwise.
Every member is a galaxy of the list as it was on entry. Hence a galaxy of the
list that is farther than the radius of the pass of a cluster from every galaxy
with another `num` is not a member of that cluster. In mode "spec" the
quotients `link_r / da` and `link_z / (1 + z)` of the source are taken in exact
arithmetic, which requires `da ≠ 0` and `1 + z ≠ 0` for the galaxies of the
list; the radius then satisfies `rfriend * A.da = link_r`. The run returns when
every index member refers to a position of the galaxy list, the flag of the bin
is readable in every galaxy and the fuel is at least the number of galaxies. -/
theorem linkage_invariant (F : FoF) (tree : Kdtree) (zbin : Zbin) (fuel : Nat)
    (gal_list : List Galaxy) (hempty : F.list_of_clusters = [])
    (hquot : F.mode = "spec" → ∀ g ∈ gal_list, g.da ≠ 0 ∧ 1 + g.z ≠ 0) :
    (∀ (F1 : FoF) (G1 : List Galaxy),
      F.friends_of_friends fuel tree zbin gal_list = .ok (F1, G1) →
      (∀ c ∈ F1.list_of_clusters, linked F zbin gal_list c) ∧
      (∀ c ∈ F1.list_of_clusters, ∀ m ∈ c.mem, m ∈ gal_list) ∧
      (∀ c ∈ F1.list_of_clusters, ∀ A ∈ c.mem.head?, ∀ X ∈ gal_list,
        (∀ Y ∈ gal_list, Y.num ≠ X.num →
          pass_radius F zbin A < F.astro.angsep X.ra X.dec Y.ra Y.dec ∧
          pass_radius F zbin A < F.astro.angsep Y.ra Y.dec X.ra X.dec) →
        X ∉ c.mem) ∧
      (F.mode = "spec" → ∀ c ∈ F1.list_of_clusters, ∀ A ∈ c.mem.head?,
        pass_radius F zbin A * A.da = zbin.link_r)) ∧
    (index_valid tree gal_list → flags_readable zbin.num gal_list → gal_list.length ≤ fuel →
      ∃ F1 G1, F.friends_of_friends fuel tree zbin gal_list = .ok (F1, G1)) := by
  refine ⟨?_, fun hvalid hread hfuel =>
    driver_total F tree zbin fuel gal_list hempty hvalid hread hfuel⟩
  intro F1 G1 hrun
  have hlinked : ∀ c ∈ F1.list_of_clusters, linked F zbin gal_list c :=
    driver_pass_invariant F tree zbin fuel gal_list (fun _ => True) (update_stable_true F zbin)
      (fun _ c => linked F zbin gal_list c) (fun _ _ _ _ h => h)
      (fun i gi s0 s1 s2 rest hp => ⟨i, gi, rest, hp.entry, rfl, hp.second, hp.links⟩)
      F1 G1 hempty trivial hrun
  have h0 : members_entry gal_list zbin.num ⟨gal_list, F.list_of_clusters, -1⟩ := by
    rw [hempty]
    exact ⟨frame_refl _ _, fun m hm => by simp [all_members] at hm⟩
  obtain ⟨⟨cc, _, hentry⟩, _⟩ := driver_invariant F tree zbin _
    (members_entry_stable F zbin gal_list) fuel gal_list F1 G1 h0 hrun
  have hmem : ∀ c ∈ F1.list_of_clusters, ∀ m ∈ c.mem, m ∈ gal_list :=
    fun c hc m hm => hentry m (List.mem_flatMap.mpr ⟨c, hc, hm⟩)
  refine ⟨hlinked, hmem, ?_, ?_⟩
  · intro c hc A hA X _ hfar hX
    obtain ⟨i, A1, rest, _, hcm, hne, hlr⟩ := hlinked c hc
    rw [hcm] at hA hX
    simp only [List.head?_cons, Option.mem_def, Option.some.injEq] at hA
    subst hA
    obtain ⟨p, hp, hpn, hclose⟩ := link_rest_partner F zbin _ A1 rest hne hlr X hX
    obtain ⟨hf1, hf2⟩ := hfar p (hmem c hc p (by rw [hcm]; exact hp)) hpn
    rcases hclose with hle | hle
    · exact absurd hle (not_le.mpr hf1)
    · exact absurd hle (not_le.mpr hf2)
  · intro hmode c hc A hA
    have hAm : A ∈ c.mem := List.mem_of_mem_head? hA
    have hda := (hquot hmode A (hmem c hc A hAm)).1
    unfold pass_radius
    simp only [(mode_beq_iff F).mpr hmode, if_true]
    exact div_mul_cancel₀ _ hda

/-- Instance of `linkage_invariant` on `scen_gals`: the run with fuel 4 returns
and its clusters are linked. -/
theorem linkage_invariant_witness :
    ∃ F1 G1, spec_fof.friends_of_friends 4 scen_tree scen_zbin scen_gals = .ok (F1, G1) ∧
      ∀ c ∈ F1.list_of_clusters, linked spec_fof scen_zbin scen_gals c := by
  have h := linkage_invariant spec_fof scen_tree scen_zbin 4 scen_gals rfl
    (fun _ => by decide!)
  obtain ⟨F1, G1, hrun⟩ := h.2 scen_index_valid scen_flags_readable (by decide)
  exact ⟨F1, G1, hrun, (h.1 F1 G1 hrun).1⟩

/-- When the cluster list is not empty on entry, a cluster created by the run
need not be linked. The finder `lag_fof` enters with one cluster, so that
`cluster_count` stays one position behind the cluster created last: the pass of
galaxy 2 creates the cluster of the galaxies 2 and 3 at position 2 and then
inserts galaxy 4, a friend of galaxy 2, at position `cluster_count = 1`, into
the cluster of the galaxies 0 and 1, both of which are 10 away from galaxy 4
while the radius is 1/2. -/
theorem linkage_fails_nonempty :
    ∃ F1 G1, lag_fof.friends_of_friends 7 lag_tree scen_zbin lag_gals = .ok (F1, G1) ∧
      ∃ c ∈ F1.list_of_clusters.drop lag_fof.list_of_clusters.length,
        ¬ linked lag_fof scen_zbin lag_gals c := by
  obtain ⟨F1, G1, hrun, hmem⟩ := run_members_ok _ _ lag_run
  refine ⟨F1, G1, hrun, ?_⟩
  match hF : F1.list_of_clusters, hmem with
  | [c0, c1, c2], hmem =>
    simp only [List.map_cons, List.map_nil, List.cons.injEq, and_true] at hmem
    obtain ⟨_, h1, _⟩ := hmem
    refine ⟨c1, by simp [lag_fof], ?_⟩
    rintro ⟨i, A, rest, _, hm, _, hlr⟩
    rw [h1] at hm
    simp only [List.cons.injEq] at hm
    obtain ⟨hA, hrest⟩ := hm
    subst hA hrest
    obtain ⟨k, M, hk, hM, hacc⟩ := hlr 1 (gal_at 4 10 (1 / 10) 0) (by simp)
    have hsep := hacc.2.2.1
    have hk2 : k = 0 ∨ k = 1 := by omega
    rcases hk2 with rfl | rfl
    · simp only [List.getElem?_cons_zero, Option.some.injEq] at hM
      subst hM
      norm_num [pass_radius, lag_fof, scen_zbin, gal_at, plane_astro] at hsep
    · simp only [List.getElem?_cons_succ, List.getElem?_cons_zero, Option.some.injEq] at hM
      subst hM
      norm_num [pass_radius, lag_fof, scen_zbin, gal_at, plane_astro] at hsep
  | [], hmem => simp at hmem
  | [_], hmem => simp at hmem
  | [_, _], hmem => simp at hmem
  | _ :: _ :: _ :: _ :: _, hmem => simp at hmem


/-! ## The growth loop scans every member of the cluster -/

/-- Every element of the vector is processed by a returning loop: from a state
that satisfies the invariant and is reached from the initial state, to a state
from which the final state is reached. -/
theorem loopM_visits_rel {σ α : Type} (P : σ → Prop) (R : σ → σ → Prop)
    (body : σ → α → Except Fault σ) (l : List α)
    (hrefl : ∀ s, R s s) (htrans : ∀ a b c, R a b → R b c → R a c)
    (hstep : ∀ s a s1, a ∈ l → P s → body s a = .ok s1 → P s1 ∧ R s s1) :
    ∀ s s1, P s → loopM body l s = .ok s1 →
      P s1 ∧ R s s1 ∧ ∀ a ∈ l, ∃ t t1, P t ∧ body t a = .ok t1 ∧ R s t ∧ R t1 s1 := by
  induction l with
  | nil =>
    intro s s1 hP h
    simp only [loopM, Except.ok.injEq] at h
    subst h
    exact ⟨hP, hrefl s, fun a ha => by cases ha⟩
  | cons a rest ih =>
    intro s s2 hP h
    obtain ⟨s1, hb, hrest⟩ := loopM_cons_inv body a rest s s2 h
    obtain ⟨hP1, hR1⟩ := hstep s a s1 (List.mem_cons_self a rest) hP hb
    obtain ⟨hP2, hR2, hvis⟩ := ih
      (fun t b t1 hb1 => hstep t b t1 (List.mem_cons_of_mem a hb1)) s1 s2 hP1 hrest
    refine ⟨hP2, htrans _ _ _ hR1 hR2, ?_⟩
    intro x hx
    rcases List.mem_cons.mp hx with rfl | hx1
    · exact ⟨s, s1, hP, hb, hrefl s, hR2⟩
    · obtain ⟨t, t1, hPt, hbt, hRt, hRt1⟩ := hvis x hx1
      exact ⟨t, t1, hPt, hbt, htrans _ _ _ hR1 hRt, hRt1⟩

/-- A galaxy that satisfies the conditions of `friendship` has its flag raised
once `friendship` has been evaluated for it and the update has been made. -/
theorem friendship_false_flag (F : FoF) (zbin : Zbin) (r : ℚ) (M B : Galaxy)
    (hacc : accepted F zbin r M B) (h : F.friendship zbin M B r = .ok false) :
    vec_get B.in_cluster zbin.num = some true := by
  cases hx : vec_get B.in_cluster zbin.num with
  | none => simp [FoF.friendship, hx] at h
  | some x =>
    cases x with
    | true => rfl
    | false =>
      have := (friendship_ok_true_iff F zbin M B r).mpr
        ⟨hacc.1, hacc.2.1, hx, hacc.2.2.1, hacc.2.2.2⟩
      rw [this] at h
      cases h

theorem growth_member_flags (F : FoF) (zbin : Zbin) (ii : Nat) (r : ℚ) (s s1 : DriverState)
    (m : Kdtree_member) (M gal_n : Galaxy) (hM : current_member s ii = some M)
    (hgn : vec_get s.gal_list m.num = some gal_n) (hacc : accepted F zbin r M gal_n)
    (h : growth_member F zbin ii r s m = .ok s1) :
    flag_of s1.gal_list zbin.num m.num = some true := by
  unfold growth_member at h
  simp only [hM, hgn] at h
  cases hfr : F.friendship zbin M gal_n r with
  | error e => simp [hfr] at h
  | ok fr =>
    cases fr with
    | false =>
      simp only [hfr, Except.ok.injEq] at h
      subst h
      exact flag_of_some _ _ _ gal_n true hgn (friendship_false_flag F zbin r M gal_n hacc hfr)
    | true =>
      simp only [hfr] at h
      exact (append_member_ok h).2.2.2.1

theorem seed_member_flags (F : FoF) (zbin : Zbin) (i : Nat) (r : ℚ) (s s1 : DriverState)
    (m : Kdtree_member) (gal_i gal_n : Galaxy) (hgi : vec_get s.gal_list i = some gal_i)
    (hgn : vec_get s.gal_list m.num = some gal_n) (hacc : accepted F zbin r gal_i gal_n)
    (h : seed_member F zbin i r s m = .ok s1) :
    flag_of s1.gal_list zbin.num m.num = some true := by
  unfold seed_member at h
  simp only [hgi, hgn] at h
  cases hfr : F.friendship zbin gal_i gal_n r with
  | error e => simp [hfr] at h
  | ok fr =>
    cases fr with
    | false =>
      simp only [hfr, Except.ok.injEq] at h
      subst h
      exact flag_of_some _ _ _ gal_n true hgn
        (friendship_false_flag F zbin r gal_i gal_n hacc hfr)
    | true =>
      simp only [hfr] at h
      cases hfl : vec_get gal_i.in_cluster zbin.num with
      | none => simp [hfl] at h
      | some fl =>
        cases fl with
        | false =>
          simp only [hfl] at h
          exact (create_cluster_ok h).2.2.2.2.1
        | true =>
          simp only [hfl] at h
          exact (append_member_ok h).2.2.2.1

theorem dense_mem_vec_get (G : List Galaxy) (hd : dense G) (B : Galaxy) (hB : B ∈ G) :
    vec_get G B.num = some B := by
  obtain ⟨k, hk⟩ := List.mem_iff_getElem?.mp hB
  rw [hd k B hk, vec_get_nat]
  exact hk

/-- The node loop of the growth phase for the member `M` at position `ii`
raises the flag of every galaxy `B` that satisfies the conditions of
`friendship` relative to `M`, when `B` is a member of a node that `node_check`
accepts for `M`. -/
theorem growth_scan (F : FoF) (tree : Kdtree) (zbin : Zbin) (ii : Nat) (r : ℚ)
    (G0 : List Galaxy) (s s1 : DriverState) (M : Galaxy) (hd : dense G0)
    (hframe : frame zbin.num G0 s.gal_list) (hM : current_member s ii = some M)
    (h : loopM (growth_node F zbin ii r) tree.node_list s = .ok s1)
    (B : Galaxy) (hB : B ∈ G0) (node : Kdtree_node) (hnode : node ∈ tree.node_list)
    (m : Kdtree_member) (hm : m ∈ node.members) (hmB : m.num = B.num)
    (hcheck : F.node_check M node r = true) (hacc : accepted F zbin r M B) :
    flag_of s1.gal_list zbin.num B.num = some true := by
  obtain ⟨_, _, hvis⟩ := loopM_visits_rel
    (fun t => frame zbin.num G0 t.gal_list ∧ current_member t ii = some M)
    (fun t t1 => frame zbin.num t.gal_list t1.gal_list)
    (growth_node F zbin ii r) tree.node_list (fun t => frame_refl _ _)
    (fun a b c h1 h2 => frame_trans _ _ _ _ h1 h2)
    (fun t nd t1 _ ht hstep =>
      have h1 := growth_node_invariant F zbin _ (update_stable_true F zbin) ii r t.gal_list
        t t1 nd ⟨trivial, frame_refl _ _⟩ hstep
      ⟨⟨frame_trans _ _ _ _ ht.1 h1.2, growth_node_current F zbin ii r t t1 nd ii M ht.2 hstep⟩,
        h1.2⟩)
    s s1 ⟨hframe, hM⟩ h
  obtain ⟨t, t1, ht, hstep, _, hR1⟩ := hvis node hnode
  unfold growth_node at hstep
  simp only [ht.2, hcheck, if_true] at hstep
  obtain ⟨_, _, hvis2⟩ := loopM_visits_rel
    (fun u => frame zbin.num G0 u.gal_list ∧ current_member u ii = some M)
    (fun u u1 => frame zbin.num u.gal_list u1.gal_list)
    (growth_member F zbin ii r) node.members (fun u => frame_refl _ _)
    (fun a b c h1 h2 => frame_trans _ _ _ _ h1 h2)
    (fun u x u1 _ hu hx =>
      have h1 := growth_member_invariant F zbin _ (update_stable_true F zbin) ii r u.gal_list
        u u1 x ⟨trivial, frame_refl _ _⟩ hx
      ⟨⟨frame_trans _ _ _ _ hu.1 h1.2, growth_member_current F zbin ii r u u1 x ii M hu.2 hx⟩,
        h1.2⟩)
    t t1 ht hstep
  obtain ⟨u, u1, hu, hx, _, hR2⟩ := hvis2 m hm
  obtain ⟨gal_n, hgn, hraise⟩ := frame_vec_get _ _ _ hu.1 B.num B (dense_mem_vec_get G0 hd B hB)
  rw [← hmB] at hgn
  have hflag := growth_member_flags F zbin ii r u u1 m M gal_n hu.2 hgn
    ((accepted_raised_right F zbin r zbin.num M B gal_n hraise).mpr hacc) hx
  rw [hmB] at hflag
  exact flag_of_frame_true _ _ _ hR1 _ (flag_of_frame_true _ _ _ hR2 _ hflag)


theorem growth_nodes_keep (F : FoF) (tree : Kdtree) (zbin : Zbin) (ii : Nat) (r : ℚ)
    (G0 : List Galaxy) (s s1 : DriverState) (hs : frame zbin.num G0 s.gal_list)
    (h : loopM (growth_node F zbin ii r) tree.node_list s = .ok s1) :
    frame zbin.num G0 s1.gal_list ∧
      ∀ (j : Nat) (M : Galaxy), current_member s j = some M → current_member s1 j = some M :=
  loopM_invariant
    (fun t => frame zbin.num G0 t.gal_list ∧
      ∀ (j : Nat) (M : Galaxy), current_member s j = some M → current_member t j = some M)
    _ tree.node_list
    (fun t node t1 _ ht hstep =>
      ⟨(growth_node_invariant F zbin _ (update_stable_true F zbin) ii r G0 t t1 node
          ⟨trivial, ht.1⟩ hstep).2,
        fun j M hM => growth_node_current F zbin ii r t t1 node j M (ht.2 j M hM) hstep⟩)
    s s1 ⟨hs, fun _ _ hM => hM⟩ h

/-- The growth loop raises flags only and keeps the members of the current
cluster at their positions. -/
theorem growth_loop_keep (F : FoF) (tree : Kdtree) (zbin : Zbin) (r : ℚ) (G0 : List Galaxy)
    (fuel ii : Nat) (s s1 : DriverState) (hs : frame zbin.num G0 s.gal_list)
    (h : growth_loop F tree zbin r fuel ii s = .ok s1) :
    frame zbin.num G0 s1.gal_list ∧
      ∀ (j : Nat) (M : Galaxy), current_member s j = some M → current_member s1 j = some M :=
  growth_loop_invariant F tree zbin r
    (fun t => frame zbin.num G0 t.gal_list ∧
      ∀ (j : Nat) (M : Galaxy), current_member s j = some M → current_member t j = some M)
    (fun k t t1 ht hloop =>
      have h1 := growth_nodes_keep F tree zbin k r G0 t t1 ht.1 hloop
      ⟨h1.1, fun j M hM => h1.2 j M (ht.2 j M hM)⟩)
    fuel ii s s1 ⟨hs, fun _ _ hM => hM⟩ h

theorem node_check_coords (F : FoF) (A A1 : Galaxy) (node : Kdtree_node) (r : ℚ)
    (hra : A.ra = A1.ra) (hdec : A.dec = A1.dec) :
    F.node_check A node r = F.node_check A1 node r := by
  unfold FoF.node_check
  rw [hra, hdec]

/-- Completeness of the growth loop: when it returns, every galaxy that
satisfies the conditions of `friendship` relative to a member of the current
cluster at a position from `ii` on has its flag raised. -/
theorem growth_loop_complete (F : FoF) (tree : Kdtree) (zbin : Zbin) (r : ℚ)
    (G0 : List Galaxy) (hd : dense G0) (hcover : index_cover tree G0)
    (hsound : index_sound F tree G0) :
    ∀ (fuel ii : Nat) (s s2 : DriverState), frame zbin.num G0 s.gal_list →
      growth_loop F tree zbin r fuel ii s = .ok s2 →
      ∀ (j : Nat) (M : Galaxy), ii ≤ j → current_member s2 j = some M →
        (∃ g0 ∈ G0, g0.ra = M.ra ∧ g0.dec = M.dec) →
        ∀ B ∈ G0, accepted F zbin r M B →
          flag_of s2.gal_list zbin.num B.num = some true := by
  intro fuel
  induction fuel with
  | zero =>
    intro ii s s2 _ h j M hij hM _ B _ _
    unfold growth_loop at h
    cases hc : vec_get s.list_of_clusters s.cluster_count with
    | none => simp [hc] at h
    | some c =>
      simp only [hc] at h
      by_cases hlt : ii < c.mem.length
      · simp [hlt] at h
      · simp only [hlt, if_false, Except.ok.injEq] at h
        subst h
        unfold current_member at hM
        simp only [hc] at hM
        have := (List.getElem?_eq_some_iff.mp hM).1
        omega
  | succ fuel ih =>
    intro ii s s2 hs h j M hij hM horigin B hB hacc
    unfold growth_loop at h
    cases hc : vec_get s.list_of_clusters s.cluster_count with
    | none => simp [hc] at h
    | some c =>
      simp only [hc] at h
      by_cases hlt : ii < c.mem.length
      · simp only [hlt, if_true] at h
        cases hl : loopM (growth_node F zbin ii r) tree.node_list s with
        | error e => simp [hl] at h
        | ok s1 =>
          simp only [hl] at h
          have hk1 := growth_nodes_keep F tree zbin ii r G0 s s1 hs hl
          by_cases hj : j = ii
          · subst hj
            have hM0 := current_member_of_lt s c j hc hlt
            have hk2 := growth_loop_keep F tree zbin r s1.gal_list fuel (j + 1) s1 s2
              (frame_refl _ _) h
            have hM2 := hk2.2 j _ (hk1.2 j _ hM0)
            rw [hM] at hM2
            cases hM2
            obtain ⟨node, hnode, m, hm, hmB⟩ := hcover B hB
            obtain ⟨B1, hB1, hchk⟩ := hsound node hnode m hm
            rw [hmB, dense_mem_vec_get G0 hd B hB] at hB1
            cases hB1
            obtain ⟨g0, hg0, hra, hdec⟩ := horigin
            have hcheck : F.node_check c.mem[j] node r = true := by
              rw [← node_check_coords F g0 c.mem[j] node r hra hdec]
              apply hchk g0 hg0 r
              rw [hra, hdec]
              exact hacc.2.2.1
            have hflag := growth_scan F tree zbin j r G0 s s1 c.mem[j] hd hs hM0 hl B hB
              node hnode m hm hmB hcheck hacc
            exact flag_of_frame_true _ _ _ hk2.1 _ hflag
          · exact ih (ii + 1) s1 s2 hk1.1 h j M (by omega) hM horigin B hB hacc
      · simp only [hlt, if_false, Except.ok.injEq] at h
        subst h
        unfold current_member at hM
        simp only [hc] at hM
        have := (List.getElem?_eq_some_iff.mp hM).1
        omega

/-- The cluster that a pass creates is complete when the pass ends. -/
theorem pass_complete (F : FoF) (tree : Kdtree) (zbin : Zbin) (fuel : Nat)
    (G0 : List Galaxy) (hd : dense G0) (hcover : index_cover tree G0)
    (hsound : index_sound F tree G0) (P : DriverState → Prop)
    (hP : ∀ s, P s → core_inv zbin.num s)
    (Good : List Galaxy → Cluster → Prop)
    (i : Nat) (gi : Galaxy) (s0 s1 s2 : DriverState) (rest : List Galaxy)
    (hp : PassRun F tree zbin fuel G0 P Good i gi s0 s1 s2 rest) :
    complete F zbin G0 s2.gal_list ⟨s0.cluster_count + 1, gi :: rest⟩ := by
  intro A hA M hM B hB hacc
  simp only [List.head?_cons, Option.mem_def, Option.some.injEq] at hA
  subst hA
  obtain ⟨j, hj⟩ := List.mem_iff_getElem?.mp hM
  have hcur : current_member s2 j = some M := by
    unfold current_member
    rw [pass_inv_current gi s0 s2 rest hp.start.2.2.1 hp.clusters hp.count]
    exact hj
  obtain ⟨_, _, _, _, _, hfr1, _⟩ := hp.after_seed
  have hframe2 : frame zbin.num G0 s2.gal_list := frame_trans _ _ _ _ hp.start.1 hp.flags
  have hall : M ∈ all_members s2.list_of_clusters := by
    rw [hp.clusters]
    exact List.mem_flatMap.mpr ⟨_, by simp, hM⟩
  obtain ⟨g0, _, hg0, _, hra, hdec, _⟩ := member_origin zbin.num G0 s2 hd hframe2
    (hP s2 hp.final) M hall
  exact growth_loop_complete F tree zbin _ G0 hd hcover hsound fuel 0 s1 s2
    (frame_trans _ _ _ _ hp.start.1 hfr1) hp.growth_phase j M (Nat.zero_le _) hcur
    ⟨g0, hg0, hra, hdec⟩ B hB hacc

theorem complete_mono (F : FoF) (zbin : Zbin) (G0 G G1 : List Galaxy) (c : Cluster)
    (hf : frame zbin.num G G1) (h : complete F zbin G0 G c) : complete F zbin G0 G1 c :=
  fun A hA M hM B hB hacc => flag_of_frame_true _ _ _ hf _ (h A hA M hM B hB hacc)

/-- After a run under the preconditions of the driver every cluster is complete,
and every raised flag belongs to a member of a cluster. -/
theorem run_complete (F : FoF) (tree : Kdtree) (zbin : Zbin) (fuel : Nat)
    (gal_list : List Galaxy) (hdense : dense gal_list)
    (hflags : ∀ g ∈ gal_list, vec_get g.in_cluster zbin.num = some false)
    (hempty : F.list_of_clusters = []) (hcover : index_cover tree gal_list)
    (hsound : index_sound F tree gal_list) (F1 : FoF) (G1 : List Galaxy)
    (h : F.friends_of_friends fuel tree zbin gal_list = .ok (F1, G1)) :
    ∀ c ∈ F1.list_of_clusters, ∀ A ∈ c.mem.head?, ∀ M ∈ c.mem, ∀ B ∈ gal_list,
      accepted F zbin (pass_radius F zbin A) M B →
      ∃ c1 ∈ F1.list_of_clusters, ∃ m ∈ c1.mem, m.num = B.num := by
  have h0 : core_inv zbin.num ⟨gal_list, [], -1⟩ ∧
      flagged_member zbin.num ⟨gal_list, [], -1⟩ :=
    ⟨core_inv_initial _ _ hdense _, flagged_member_initial _ _ hflags _ _⟩
  have hcomplete := driver_pass_invariant F tree zbin fuel gal_list _
    (flagged_member_stable F zbin) (complete F zbin gal_list)
    (fun G G1 c hf hc => complete_mono F zbin gal_list G G1 c hf hc)
    (fun i gi s0 s1 s2 rest hp =>
      pass_complete F tree zbin fuel gal_list hdense hcover hsound _ (fun s hs => hs.1) _
        i gi s0 s1 s2 rest hp)
    F1 G1 hempty h0 h
  have h0' : core_inv zbin.num ⟨gal_list, F.list_of_clusters, -1⟩ ∧
      flagged_member zbin.num ⟨gal_list, F.list_of_clusters, -1⟩ := by
    rw [hempty]; exact h0
  obtain ⟨⟨cc, _, hfm⟩, _⟩ := driver_invariant F tree zbin _
    (flagged_member_stable F zbin) fuel gal_list F1 G1 h0' h
  intro c hc A hA M hM B hB hacc
  have hflag := hcomplete c hc A hA M hM B hB hacc
  obtain ⟨g, hg, hfl⟩ := flag_of_cases _ _ _ _ hflag
  obtain ⟨m, hm, hmk⟩ := List.mem_map.mp (hfm B.num g hg hfl)
  obtain ⟨c1, hc1, hmc⟩ := List.mem_flatMap.mp hm
  exact ⟨c1, hc1, m, hmc, hmk⟩


theorem index_sound_of_bounds (F : FoF) (tree : Kdtree) (G : List Galaxy)
    (hsymm : ∀ a b c d : ℚ, F.astro.angsep a b c d = F.astro.angsep c d a b)
    (htri : ∀ a b c d e f : ℚ,
      F.astro.angsep a b e f ≤ F.astro.angsep a b c d + F.astro.angsep c d e f)
    (hb : node_bounds F tree G) : index_sound F tree G := by
  intro node hnode m hm
  obtain ⟨B, hB, hle⟩ := hb node hnode m hm
  refine ⟨B, hB, ?_⟩
  intro A _ r hr
  have := node_check_of_triangle F node A B r hsymm htri hle hr
  simp [FoF.node_check, this]

theorem index_sound_valid (F : FoF) (tree : Kdtree) (G : List Galaxy)
    (hs : index_sound F tree G) : index_valid tree G := by
  intro node hnode m hm
  obtain ⟨g, hg, _⟩ := hs node hnode m hm
  obtain ⟨h0, hlt, _⟩ := vec_get_lt hg
  exact ⟨h0, by omega⟩

theorem chain_dense : dense chain_gals := by
  intro k g hg
  match k, hg with
  | 0, hg => cases hg; rfl
  | 1, hg => cases hg; rfl
  | 2, hg => cases hg; rfl
  | 3, hg => cases hg; rfl
  | k + 4, hg => simp [chain_gals] at hg

theorem chain_flags_false :
    ∀ g ∈ chain_gals, vec_get g.in_cluster scen_zbin.num = some false := by
  decide

theorem chain_cover : index_cover chain_tree chain_gals := by
  unfold index_cover
  decide

theorem chain_valid :
    ∀ node ∈ chain_tree.node_list, ∀ m ∈ node.members,
      (vec_get chain_gals m.num).isSome = true := by
  decide

theorem chain_bounds :
    ∀ node ∈ chain_tree.node_list, ∀ m ∈ node.members, ∀ B ∈ chain_gals, B.num = m.num →
      plane_astro.angsep node.ra node.dec B.ra B.dec ≤ node.radius := by
  decide!

theorem chain_sound : index_sound spec_fof chain_tree chain_gals := by
  refine index_sound_of_bounds spec_fof chain_tree chain_gals plane_astro_symm
    plane_astro_triangle ?_
  intro node hnode m hm
  obtain ⟨B, hB⟩ := Option.isSome_iff_exists.mp (chain_valid node hnode m hm)
  exact ⟨B, hB, chain_bounds node hnode m hm B (vec_get_mem hB)
    (dense_vec_get _ chain_dense _ B hB)⟩

theorem chain_run :
    run_summary (spec_fof.friends_of_friends 4 chain_tree scen_zbin chain_gals) =
      some ([(0, [0, 1, 2, 3])], [[true], [true], [true], [true]]) := by
  decide!

/-- C12, as it holds: the growth loop misses no galaxy. Let `num` be dense from
0, every galaxy a member of some index node, the node bounds sound, all flags
of the bin false and the cluster list empty on entry. After every run of
`friends_of_friends` that returns, every galaxy `B` of the list that satisfies
the conditions of `friendship` (distinct `num`, `bin_check`, separation within
the radius of the pass, velocity test in mode "spec") relative to a member `M`
of a cluster, whether `M` was placed in the seed phase or discovered in the
growth phase, is a member of some cluster. The run returns when the fuel is at
least the number of galaxies. -/
theorem growth_reaches_friends (F : FoF) (tree : Kdtree) (zbin : Zbin) (fuel : Nat)
    (gal_list : List Galaxy) (hdense : dense gal_list)
    (hflags : ∀ g ∈ gal_list, vec_get g.in_cluster zbin.num = some false)
    (hempty : F.list_of_clusters = []) (hcover : index_cover tree gal_list)
    (hsound : index_sound F tree gal_list) :
    (∀ (F1 : FoF) (G1 : List Galaxy),
      F.friends_of_friends fuel tree zbin gal_list = .ok (F1, G1) →
      ∀ c ∈ F1.list_of_clusters, ∀ A ∈ c.mem.head?, ∀ M ∈ c.mem, ∀ B ∈ gal_list,
        accepted F zbin (pass_radius F zbin A) M B →
        ∃ c1 ∈ F1.list_of_clusters, ∃ m ∈ c1.mem, m.num = B.num) ∧
    (gal_list.length ≤ fuel →
      ∃ F1 G1, F.friends_of_friends fuel tree zbin gal_list = .ok (F1, G1)) :=
  ⟨fun F1 G1 h => run_complete F tree zbin fuel gal_list hdense hflags hempty hcover hsound
      F1 G1 h,
    fun hfuel => driver_total F tree zbin fuel gal_list hempty
      (index_sound_valid F tree gal_list hsound) (flags_false_readable _ _ hflags) hfuel⟩

/-- Instance of `growth_reaches_friends` on the chain `chain_gals`: the pass of
galaxy 0 finds galaxy 1 in its seed phase, galaxy 2 when the growth loop scans
galaxy 1, and galaxy 3 when it scans galaxy 2, which was itself discovered in
the growth phase. The run returns one cluster with the four galaxies. -/
theorem growth_reaches_friends_witness :
    run_summary (spec_fof.friends_of_friends 4 chain_tree scen_zbin chain_gals) =
      some ([(0, [0, 1, 2, 3])], [[true], [true], [true], [true]]) ∧
    ∀ (F1 : FoF) (G1 : List Galaxy),
      spec_fof.friends_of_friends 4 chain_tree scen_zbin chain_gals = .ok (F1, G1) →
      ∀ c ∈ F1.list_of_clusters, ∀ A ∈ c.mem.head?, ∀ M ∈ c.mem, ∀ B ∈ chain_gals,
        accepted spec_fof scen_zbin (pass_radius spec_fof scen_zbin A) M B →
        ∃ c1 ∈ F1.list_of_clusters, ∃ m ∈ c1.mem, m.num = B.num :=
  ⟨chain_run,
    (growth_reaches_friends spec_fof chain_tree scen_zbin 4 chain_gals chain_dense
      chain_flags_false rfl chain_cover chain_sound).1⟩

/-- There is no input that meets the preconditions of the driver (`num` dense
from 0, every galaxy a member of some index node, node bounds sound, all flags
of the bin false, cluster list empty) for which a run of `friends_of_friends`
returns with a galaxy `B` in no cluster although `B` satisfies the conditions of
`friendship` relative to a member `M` of a cluster `c`, with the radius of the
pass of the first member `A` of `c`: the condition of the member loop of the
growth phase reads `mem.size()` anew in every round, so the loop also scans the
members that it has appended. -/
theorem no_missed_friend :
    ¬ ∃ (F : FoF) (tree : Kdtree) (zbin : Zbin) (fuel : Nat) (gal_list : List Galaxy)
      (F1 : FoF) (G1 : List Galaxy) (c : Cluster) (A M B : Galaxy),
      dense gal_list ∧ index_cover tree gal_list ∧ index_sound F tree gal_list ∧
      (∀ g ∈ gal_list, vec_get g.in_cluster zbin.num = some false) ∧
      F.list_of_clusters = [] ∧
      F.friends_of_friends fuel tree zbin gal_list = .ok (F1, G1) ∧
      c ∈ F1.list_of_clusters ∧ c.mem.head? = some A ∧ M ∈ c.mem ∧ B ∈ gal_list ∧
      accepted F zbin (pass_radius F zbin A) M B ∧
      ∀ c1 ∈ F1.list_of_clusters, ∀ m ∈ c1.mem, m.num ≠ B.num := by
  rintro ⟨F, tree, zbin, fuel, gal_list, F1, G1, c, A, M, B, hdense, hcover, hsound, hflags,
    hempty, hrun, hc, hA, hM, hB, hacc, hnone⟩
  obtain ⟨c1, hc1, m, hm, hmB⟩ := run_complete F tree zbin fuel gal_list hdense hflags hempty
    hcover hsound F1 G1 hrun c hc A hA M hM B hB hacc
  exact hnone c1 hc1 m hm hmB


/-! ## Clusters and connected components outside mode "spec" -/

/-- The seed phase of the pass of `gi = gal_list[i]` raises the flag of every
galaxy `B` that satisfies the conditions of `friendship` relative to the seed,
when `B` is a member of a node that `node_check` accepts for the seed. -/
theorem seed_scan (F : FoF) (tree : Kdtree) (zbin : Zbin) (i : Nat) (r : ℚ)
    (G0 : List Galaxy) (s s1 : DriverState) (gi : Galaxy) (hd : dense G0)
    (hframe : frame zbin.num G0 s.gal_list) (hgi : vec_get G0 i = some gi)
    (h : loopM (seed_node F zbin i r) tree.node_list s = .ok s1)
    (B : Galaxy) (hB : B ∈ G0) (node : Kdtree_node) (hnode : node ∈ tree.node_list)
    (m : Kdtree_member) (hm : m ∈ node.members) (hmB : m.num = B.num)
    (hcheck : F.node_check gi node r = true) (hacc : accepted F zbin r gi B) :
    flag_of s1.gal_list zbin.num B.num = some true := by
  obtain ⟨_, _, hvis⟩ := loopM_visits_rel
    (fun t : DriverState => frame zbin.num G0 t.gal_list)
    (fun t t1 : DriverState => frame zbin.num t.gal_list t1.gal_list)
    (seed_node F zbin i r) tree.node_list (fun t => frame_refl _ _)
    (fun a b c h1 h2 => frame_trans _ _ _ _ h1 h2)
    (fun t nd t1 _ ht hstep =>
      have h1 := seed_node_frame F zbin i r t.gal_list t t1 nd (frame_refl _ _) hstep
      ⟨frame_trans _ _ _ _ ht h1, h1⟩)
    s s1 hframe h
  obtain ⟨t, t1, ht, hstep, _, hR1⟩ := hvis node hnode
  obtain ⟨gt, hgt, hrt⟩ := frame_vec_get _ _ _ ht i gi hgi
  unfold seed_node at hstep
  have hcheck1 : F.node_check gt node r = true := by
    obtain ⟨_, _, hra, hdec, _⟩ := raised_fields _ _ _ hrt
    rw [node_check_coords F gt gi node r hra hdec]
    exact hcheck
  simp only [hgt, hcheck1, if_true] at hstep
  obtain ⟨_, _, hvis2⟩ := loopM_visits_rel
    (fun u : DriverState => frame zbin.num G0 u.gal_list)
    (fun u u1 : DriverState => frame zbin.num u.gal_list u1.gal_list)
    (seed_member F zbin i r) node.members (fun u => frame_refl _ _)
    (fun a b c h1 h2 => frame_trans _ _ _ _ h1 h2)
    (fun u x u1 _ hu hx =>
      have h1 := seed_member_frame F zbin i r u u1 x hx
      ⟨frame_trans _ _ _ _ hu h1, h1⟩)
    t t1 ht hstep
  obtain ⟨u, u1, hu, hx, _, hR2⟩ := hvis2 m hm
  obtain ⟨gu, hgu, hru⟩ := frame_vec_get _ _ _ hu i gi hgi
  obtain ⟨gal_n, hgn, hraise⟩ := frame_vec_get _ _ _ hu B.num B (dense_mem_vec_get G0 hd B hB)
  rw [← hmB] at hgn
  have hacc1 : accepted F zbin r gu gal_n :=
    (accepted_raised_left F zbin r zbin.num gi gu gal_n hru).mpr
      ((accepted_raised_right F zbin r zbin.num gi B gal_n hraise).mpr hacc)
  have hflag := seed_member_flags F zbin i r u u1 m gu gal_n hgu hgn hacc1 hx
  rw [hmB] at hflag
  exact flag_of_frame_true _ _ _ hR1 _ (flag_of_frame_true _ _ _ hR2 _ hflag)

theorem pass_radius_phot (F : FoF) (zbin : Zbin) (A : Galaxy) (hmode : F.mode ≠ "spec") :
    pass_radius F zbin A = zbin.rfriend := by
  unfold pass_radius
  simp [hmode]

/-- Outside mode "spec" the conditions of `friendship` are symmetric for
galaxies that pass `bin_check`, when the separation is symmetric. -/
theorem accepted_symm (F : FoF) (zbin : Zbin) (r : ℚ) (M B : Galaxy)
    (hmode : F.mode ≠ "spec")
    (hsymm : ∀ a b c d : ℚ, F.astro.angsep a b c d = F.astro.angsep c d a b)
    (hM : F.bin_check zbin M = true) (h : accepted F zbin r M B) :
    accepted F zbin r B M :=
  ⟨fun e => h.1 e.symm, hM, by rw [hsymm]; exact h.2.2.1, fun e => absurd e hmode⟩

theorem accepted_coords (F : FoF) (zbin : Zbin) (r : ℚ) (M M1 B B1 : Galaxy)
    (hMn : M.num = M1.num) (hMra : M.ra = M1.ra) (hMdec : M.dec = M1.dec)
    (hMz : M.z = M1.z) (hMv : M.v = M1.v)
    (hBn : B.num = B1.num) (hBra : B.ra = B1.ra) (hBdec : B.dec = B1.dec)
    (hBz : B.z = B1.z) (hBdz : B.dz = B1.dz) (hBv : B.v = B1.v)
    (h : accepted F zbin r M B) : accepted F zbin r M1 B1 := by
  unfold accepted at h ⊢
  have hb : F.bin_check zbin B1 = F.bin_check zbin B := by
    simp [FoF.bin_check, hBz, hBdz]
  rw [← hMn, ← hMra, ← hMdec, ← hMz, ← hMv, ← hBn, ← hBra, ← hBdec, ← hBv, hb]
  exact h


theorem closure_inv_stable (F : FoF) (zbin : Zbin) :
    update_stable F zbin (closure_inv F zbin) :=
  update_stable_and F zbin _ _ (flagged_member_stable F zbin) (members_checked_stable F zbin)

theorem closure_inv_initial (F : FoF) (zbin : Zbin) (gal_list : List Galaxy)
    (hdense : dense gal_list)
    (hflags : ∀ g ∈ gal_list, vec_get g.in_cluster zbin.num = some false) (cc : Int) :
    closure_inv F zbin ⟨gal_list, [], cc⟩ :=
  ⟨⟨core_inv_initial _ _ hdense _, flagged_member_initial _ _ hflags _ _⟩,
    fun m hm => by simp [all_members] at hm⟩

/-- Outside mode "spec", with a symmetric separation, the cluster that a pass
creates is closed when the pass ends. -/
theorem pass_closed (F : FoF) (tree : Kdtree) (zbin : Zbin) (fuel : Nat)
    (G0 : List Galaxy) (hmode : F.mode ≠ "spec")
    (hsymm : ∀ a b c d : ℚ, F.astro.angsep a b c d = F.astro.angsep c d a b)
    (hd : dense G0) (hcover : index_cover tree G0) (hsound : index_sound F tree G0)
    (i : Nat) (gi : Galaxy) (s0 s1 s2 : DriverState) (rest : List Galaxy)
    (hp : PassRun F tree zbin fuel G0 (closure_inv F zbin) (fun _ c => closed F zbin G0 c)
      i gi s0 s1 s2 rest) :
    closed F zbin G0 ⟨s0.cluster_count + 1, gi :: rest⟩ := by
  intro M hM B hB hacc
  have hcomp := pass_complete F tree zbin fuel G0 hd hcover hsound _ (fun s hs => hs.1.1) _
    i gi s0 s1 s2 rest hp
  have hflag := hcomp gi (by simp) M hM B hB
    (by rw [pass_radius_phot F zbin gi hmode]; exact hacc)
  obtain ⟨g, hg, hfl⟩ := flag_of_cases _ _ _ _ hflag
  have hmem := hp.final.1.2 B.num g hg hfl
  rw [hp.clusters, all_members_append, List.map_append, List.mem_append] at hmem
  have hnew : all_members [(⟨s0.cluster_count + 1, gi :: rest⟩ : Cluster)] = gi :: rest := by
    simp [all_members]
  rcases hmem with hold | hnw
  · exfalso
    obtain ⟨m1, hm1, hm1n⟩ := List.mem_map.mp hold
    obtain ⟨c1, hc1, hm1c⟩ := List.mem_flatMap.mp hm1
    have hframe2 : frame zbin.num G0 s2.gal_list := frame_trans _ _ _ _ hp.start.1 hp.flags
    have hall : M ∈ all_members s2.list_of_clusters := by
      rw [hp.clusters]
      exact List.mem_flatMap.mpr ⟨_, by simp, hM⟩
    obtain ⟨M0, _, hM0, a1, a2, a3, a4, a5, a6⟩ := member_origin zbin.num G0 s2 hd hframe2
      hp.final.1.1 M hall
    obtain ⟨B0, _, hB0, b1, b2, b3, b4, b5, b6⟩ := member_origin zbin.num G0 s0 hd hp.start.1
      hp.start.2.1.1.1 m1 hm1
    have hBe : B0 = B := dense_num_inj G0 hd B0 B hB0 hB (b1.trans hm1n)
    subst hBe
    have hMchk : F.bin_check zbin M = true := hp.final.2 M hall
    have hacc1 : accepted F zbin zbin.rfriend m1 M0 :=
      accepted_coords F zbin zbin.rfriend B0 m1 M M0 b1 b2 b3 b4 b6 a1.symm a2.symm a3.symm
        a4.symm a5.symm a6.symm (accepted_symm F zbin zbin.rfriend M B0 hmode hsymm hMchk hacc)
    obtain ⟨m2, hm2, hm2n⟩ := hp.start.2.2.2.2 c1 hc1 m1 hm1c M0 hM0 hacc1
    have hnd := hp.final.1.1.2.1
    rw [hp.clusters, all_members_append, List.map_append, hnew] at hnd
    have hdisj := (List.nodup_append.mp hnd).2.2
    exact hdisj (List.mem_map.mpr ⟨m2, List.mem_flatMap.mpr ⟨c1, hc1, hm2⟩, rfl⟩)
      (List.mem_map.mpr ⟨M, hM, by rw [hm2n, a1]⟩)
  · rw [hnew] at hnw
    obtain ⟨m1, hm1, hm1n⟩ := List.mem_map.mp hnw
    exact ⟨m1, hm1, hm1n⟩


/-- A bin-compatible galaxy with a bin-compatible galaxy of another `num` within
`zbin.rfriend` has its flag raised when its own pass ends, outside mode "spec"
and between two passes of a run whose clusters are closed. -/
theorem seed_step_flags_friend (F : FoF) (tree : Kdtree) (zbin : Zbin) (fuel : Nat)
    (G0 : List Galaxy) (hmode : F.mode ≠ "spec")
    (hsymm : ∀ a b c d : ℚ, F.astro.angsep a b c d = F.astro.angsep c d a b)
    (hd : dense G0) (hcover : index_cover tree G0) (hsound : index_sound F tree G0)
    (st st1 : DriverState × ℚ) (k : Nat)
    (hs : between_passes F zbin G0 (closure_inv F zbin) (fun _ c => closed F zbin G0 c) st)
    (h : seed_step F tree zbin fuel st k = .ok st1)
    (g : Galaxy) (hgk : vec_get G0 k = some g) (x : Galaxy) (hx : x ∈ G0)
    (hne : g.num ≠ x.num) (hbg : F.bin_check zbin g = true)
    (hbx : F.bin_check zbin x = true)
    (hle : F.astro.angsep g.ra g.dec x.ra x.dec ≤ zbin.rfriend) :
    flag_of st1.1.gal_list zbin.num k = some true := by
  obtain ⟨hframe, hPs, hnum, hrf, hgood⟩ := hs
  have hg : g ∈ G0 := vec_get_mem hgk
  obtain ⟨gal_i, hgi, hr2, hcases⟩ := seed_step_cases F tree zbin fuel st st1 k h
  have hrad : st1.2 = zbin.rfriend := by
    rw [hr2, pass_radius_eq F zbin gal_i st.2 hrf, pass_radius_phot F zbin gal_i hmode]
  obtain ⟨g1, hg1, hraise⟩ := frame_vec_get _ _ _ hframe k g hgk
  rw [hgi] at hg1
  cases hg1
  rcases hcases with ⟨heq, hwhy⟩ | ⟨hfl, hb, s1, hl, hsub⟩
  · rcases hwhy with hfl | hnb
    · rw [heq]
      exact flag_of_some _ _ _ gal_i true hgi hfl
    · rw [bin_check_raised F zbin zbin.num g gal_i hraise] at hnb
      exact absurd hbg hnb
  · have hge := raised_flag_false_eq _ g gal_i hraise hfl
    subst hge
    rw [hrad] at hl hsub
    have hacc : accepted F zbin zbin.rfriend gal_i x :=
      ⟨hne, hbx, hle, fun e => absurd e hmode⟩
    obtain ⟨node, hnode, m, hm, hmx⟩ := hcover x hx
    obtain ⟨B1, hB1, hchk⟩ := hsound node hnode m hm
    rw [hmx, dense_mem_vec_get G0 hd x hx] at hB1
    cases hB1
    have hflagx := seed_scan F tree zbin k zbin.rfriend G0 st.1 s1 gal_i hd hframe hgk hl
      x hx node hnode m hm hmx (hchk gal_i hg zbin.rfriend hle) hacc
    have hQ1 := seed_loop_stable F tree zbin k zbin.rfriend _
      (pass_seed_stable F zbin k zbin.rfriend gal_i st.1 hnum hgi hfl)
      st.1 s1 (Or.inl rfl) hl
    rcases hsub with ⟨hf1, _⟩ | ⟨hf1, hgr⟩
    · exfalso
      rcases hQ1 with h1 | h1
      · rw [h1] at hflagx
        obtain ⟨gx, hgx, hflx⟩ := flag_of_cases _ _ _ _ hflagx
        obtain ⟨m1, hm1, hm1n⟩ := List.mem_map.mp (hPs.1.2 x.num gx hgx hflx)
        obtain ⟨c1, hc1, hm1c⟩ := List.mem_flatMap.mp hm1
        obtain ⟨B0, _, hB0, b1, b2, b3, b4, b5, b6⟩ := member_origin zbin.num G0 st.1 hd
          hframe hPs.1.1 m1 hm1
        have hBe : B0 = x := dense_num_inj G0 hd B0 x hB0 hx (b1.trans hm1n)
        subst hBe
        have hacc1 : accepted F zbin zbin.rfriend m1 gal_i :=
          accepted_coords F zbin zbin.rfriend B0 m1 gal_i gal_i b1 b2 b3 b4 b6 rfl rfl rfl
            rfl rfl rfl (accepted_symm F zbin zbin.rfriend gal_i B0 hmode hsymm hbg hacc)
        obtain ⟨m2, hm2, hm2n⟩ := hgood c1 hc1 m1 hm1c gal_i hg hacc1
        have hflag2 := core_inv_member_flag _ st.1 hPs.1.1 m2
          (List.mem_flatMap.mpr ⟨c1, hc1, hm2⟩)
        rw [hm2n, dense_vec_get G0 hd k gal_i hgk,
          flag_of_some _ _ _ gal_i false hgi hfl] at hflag2
        cases hflag2
      · obtain ⟨_, _, _, _, hflag, _, _⟩ := h1
        rw [hf1] at hflag
        cases hflag
    · exact flag_of_frame_true _ _ _
        (growth_loop_keep F tree zbin zbin.rfriend s1.gal_list fuel 0 s1 st1.1
          (frame_refl _ _) hgr).1 _ hf1


/-- Outside mode "spec", under the preconditions of the driver and with a
symmetric separation: after a run, `closure_inv` holds, every cluster is
closed, and every bin-compatible galaxy that has a bin-compatible galaxy of
another `num` within `zbin.rfriend` has its flag raised. -/
theorem run_closed (F : FoF) (tree : Kdtree) (zbin : Zbin) (fuel : Nat)
    (gal_list : List Galaxy) (hmode : F.mode ≠ "spec")
    (hsymm : ∀ a b c d : ℚ, F.astro.angsep a b c d = F.astro.angsep c d a b)
    (hdense : dense gal_list)
    (hflags : ∀ g ∈ gal_list, vec_get g.in_cluster zbin.num = some false)
    (hempty : F.list_of_clusters = []) (hcover : index_cover tree gal_list)
    (hsound : index_sound F tree gal_list) (F1 : FoF) (G1 : List Galaxy)
    (h : F.friends_of_friends fuel tree zbin gal_list = .ok (F1, G1)) :
    (∃ cc, closure_inv F zbin ⟨G1, F1.list_of_clusters, cc⟩) ∧
    frame zbin.num gal_list G1 ∧
    (∀ c ∈ F1.list_of_clusters, closed F zbin gal_list c) ∧
    (∀ g ∈ gal_list, ∀ x ∈ gal_list, g.num ≠ x.num → F.bin_check zbin g = true →
      F.bin_check zbin x = true → F.astro.angsep g.ra g.dec x.ra x.dec ≤ zbin.rfriend →
      flag_of G1 zbin.num g.num = some true) := by
  unfold FoF.friends_of_friends at h
  simp only at h
  cases hl : loopM (seed_step F tree zbin fuel) (List.range gal_list.length)
      (⟨gal_list, F.list_of_clusters, -1⟩, zbin.rfriend) with
  | error e => simp [hl] at h
  | ok st =>
    simp only [hl, Except.ok.injEq, Prod.mk.injEq] at h
    obtain ⟨hF, hG⟩ := h
    have hpass : ∀ (t t1 : DriverState × ℚ) (i : Nat),
        between_passes F zbin gal_list (closure_inv F zbin)
          (fun _ c => closed F zbin gal_list c) t →
        seed_step F tree zbin fuel t i = .ok t1 →
        between_passes F zbin gal_list (closure_inv F zbin)
          (fun _ c => closed F zbin gal_list c) t1 :=
      fun t t1 i ht hstep =>
        seed_step_pass F tree zbin fuel gal_list _ (closure_inv_stable F zbin) _
          (fun _ _ _ _ hc => hc)
          (fun i gi s0 s1 s2 rest hp =>
            pass_closed F tree zbin fuel gal_list hmode hsymm hdense hcover hsound
              i gi s0 s1 s2 rest hp)
          t t1 i ht hstep
    obtain ⟨hinv, hfr, hvis⟩ := loopM_visits_rel
      (between_passes F zbin gal_list (closure_inv F zbin)
        (fun _ c => closed F zbin gal_list c))
      (fun t t1 : DriverState × ℚ => frame zbin.num t.1.gal_list t1.1.gal_list)
      (seed_step F tree zbin fuel) (List.range gal_list.length)
      (fun t => frame_refl _ _) (fun a b c h1 h2 => frame_trans _ _ _ _ h1 h2)
      (fun t i t1 _ ht hstep =>
        ⟨hpass t t1 i ht hstep,
          (seed_step_invariant F tree zbin _ (update_stable_true F zbin) fuel t t1 i trivial
            hstep).2⟩)
      (⟨gal_list, F.list_of_clusters, -1⟩, zbin.rfriend) st
      (by
        rw [hempty]
        exact ⟨frame_refl _ _, closure_inv_initial F zbin gal_list hdense hflags _, by simp,
          fun _ => rfl, by simp⟩)
      hl
    subst hF hG
    refine ⟨⟨st.1.cluster_count, hinv.2.1⟩, hinv.1, hinv.2.2.2.2, ?_⟩
    intro g hg x hx hne hbg hbx hle
    obtain ⟨k, hk⟩ := List.mem_iff_getElem?.mp hg
    have hklt : k < gal_list.length := (List.getElem?_eq_some_iff.mp hk).1
    have hgk : vec_get gal_list (k : Int) = some g := by rw [vec_get_nat]; exact hk
    obtain ⟨t, t1, ht, hstep, _, hR⟩ := hvis k (List.mem_range.mpr hklt)
    have hflag := seed_step_flags_friend F tree zbin fuel gal_list hmode hsymm hdense hcover
      hsound t t1 k ht hstep g hgk x hx hne hbg hbx hle
    rw [hdense k g hk]
    exact flag_of_frame_true _ _ _ hR _ hflag


/-- With an empty cluster list on entry every cluster of a run is linked. -/
theorem run_linked (F : FoF) (tree : Kdtree) (zbin : Zbin) (fuel : Nat)
    (gal_list : List Galaxy) (hempty : F.list_of_clusters = []) (F1 : FoF)
    (G1 : List Galaxy) (h : F.friends_of_friends fuel tree zbin gal_list = .ok (F1, G1)) :
    ∀ c ∈ F1.list_of_clusters, linked F zbin gal_list c :=
  driver_pass_invariant F tree zbin fuel gal_list (fun _ => True) (update_stable_true F zbin)
    (fun _ c => linked F zbin gal_list c) (fun _ _ _ _ hc => hc)
    (fun i gi _ _ _ rest hp => ⟨i, gi, rest, hp.entry, rfl, hp.second, hp.links⟩)
    F1 G1 hempty trivial h

theorem phot_edge_symm (F : FoF) (zbin : Zbin) (G : List Galaxy)
    (hsymm : ∀ a b c d : ℚ, F.astro.angsep a b c d = F.astro.angsep c d a b) :
    Symmetric (phot_edge F zbin G) := by
  intro g h ⟨h1, h2, h3, h4, h5⟩
  exact ⟨h2, h1, h4, h3, by rw [hsymm]; exact h5⟩

/-- In a linked cluster whose members pass `bin_check`, the galaxy of every
member is joined to the galaxy of the first member by a chain. -/
theorem linked_chain (F : FoF) (zbin : Zbin) (G : List Galaxy) (hd : dense G)
    (A : Galaxy) (rest : List Galaxy) (hl : link_rest F zbin zbin.rfriend A rest)
    (horigin : ∀ m ∈ A :: rest, ∃ g0 ∈ G, g0.num = m.num ∧ g0.ra = m.ra ∧ g0.dec = m.dec ∧
      F.bin_check zbin g0 = true)
    (A0 : Galaxy) (hA0 : A0 ∈ G) (hA0n : A0.num = A.num) :
    ∀ (j : Nat) (M : Galaxy), (A :: rest)[j]? = some M → ∀ M0 ∈ G, M0.num = M.num →
      phot_chain F zbin G A0 M0 := by
  intro j
  induction j using Nat.strong_induction_on with
  | _ j ih =>
    intro M hM M0 hM0 hM0n
    cases j with
    | zero =>
      simp only [List.getElem?_cons_zero, Option.some.injEq] at hM
      subst hM
      have : A0 = M0 := dense_num_inj G hd A0 M0 hA0 hM0 (hA0n.trans hM0n.symm)
      subst this
      exact Relation.ReflTransGen.refl
    | succ j =>
      simp only [List.getElem?_cons_succ] at hM
      obtain ⟨k, M1, hk, hM1, hacc⟩ := hl j M hM
      obtain ⟨g1, hg1, hg1n, hg1ra, hg1dec, hg1b⟩ := horigin M1 (List.getElem?_mem hM1)
      obtain ⟨g2, hg2, hg2n, hg2ra, hg2dec, hg2b⟩ := horigin M
        (List.mem_cons_of_mem _ (List.getElem?_mem hM))
      have hge : g2 = M0 := dense_num_inj G hd g2 M0 hg2 hM0 (hg2n.trans hM0n.symm)
      subst hge
      have hchain := ih k (by omega) M1 hM1 g1 hg1 hg1n
      refine Relation.ReflTransGen.tail hchain ⟨hg1, hg2, hg1b, hg2b, ?_⟩
      rw [hg1ra, hg1dec, hg2ra, hg2dec]
      exact hacc.2.2.1

/-- Galaxies joined by a chain to a galaxy `g1` have the `num` of `g1` or are in
one cluster with it, when the clusters are closed and every galaxy with a
friend is a member of some cluster. -/
theorem chain_same_cluster (F : FoF) (zbin : Zbin) (G : List Galaxy) (hd : dense G)
    (clusters : List Cluster)
    (hclosed : ∀ c ∈ clusters, closed F zbin G c)
    (horigin : ∀ c ∈ clusters, ∀ m ∈ c.mem, ∃ g0 ∈ G, g0.num = m.num ∧ g0.ra = m.ra ∧
      g0.dec = m.dec ∧ g0.z = m.z ∧ g0.v = m.v)
    (hfriend : ∀ g ∈ G, ∀ x ∈ G, g.num ≠ x.num → F.bin_check zbin g = true →
      F.bin_check zbin x = true → F.astro.angsep g.ra g.dec x.ra x.dec ≤ zbin.rfriend →
      ∃ c ∈ clusters, ∃ m ∈ c.mem, m.num = g.num)
    (hmode : F.mode ≠ "spec") (g1 x : Galaxy) (hchain : phot_chain F zbin G g1 x) :
    x.num = g1.num ∨ same_cluster clusters g1.num x.num := by
  induction hchain with
  | refl => exact Or.inl rfl
  | @tail b c1 _ hedge ih =>
    obtain ⟨hb, hc1, hbb, hbc, hle⟩ := hedge
    by_cases hnum : b.num = c1.num
    · have : b = c1 := dense_num_inj G hd b c1 hb hc1 hnum
      subst this
      exact ih
    · have hstep : ∀ c ∈ clusters, ∀ mb ∈ c.mem, mb.num = b.num →
          ∃ m ∈ c.mem, m.num = c1.num := by
        intro c hc mb hmb hmbn
        obtain ⟨g0, hg0, hg0n, hra, hdec, hz, hv⟩ := horigin c hc mb hmb
        have hge : g0 = b := dense_num_inj G hd g0 b hg0 hb (hg0n.trans hmbn)
        subst hge
        exact hclosed c hc mb hmb c1 hc1
          (accepted_coords F zbin zbin.rfriend g0 mb c1 c1 hg0n hra hdec hz hv rfl rfl rfl
            rfl rfl rfl ⟨hnum, hbc, hle, fun e => absurd e hmode⟩)
      rcases ih with heq | ⟨c, hc, ⟨m1, hm1, hm1n⟩, ⟨mb, hmb, hmbn⟩⟩
      · obtain ⟨c, hc, mb, hmb, hmbn⟩ := hfriend b hb c1 hc1 hnum hbb hbc hle
        exact Or.inr ⟨c, hc, ⟨mb, hmb, hmbn.trans heq⟩, hstep c hc mb hmb hmbn⟩
      · exact Or.inr ⟨c, hc, ⟨m1, hm1, hm1n⟩, hstep c hc mb hmb hmbn⟩


theorem bin_check_coords (F : FoF) (zbin : Zbin) (g h : Galaxy) (hz : g.z = h.z)
    (hdz : g.dz = h.dz) : F.bin_check zbin g = F.bin_check zbin h := by
  simp [FoF.bin_check, hz, hdz]

theorem phot_gals_dense : dense phot_gals := by
  intro k g hg
  match k, hg with
  | 0, hg => cases hg; rfl
  | 1, hg => cases hg; rfl
  | 2, hg => cases hg; rfl
  | k + 3, hg => simp [phot_gals] at hg

theorem phot_flags_false :
    ∀ g ∈ phot_gals, vec_get g.in_cluster phot_zbin.num = some false := by
  decide

theorem phot_cover : index_cover phot_tree phot_gals := by
  unfold index_cover
  decide

theorem phot_valid :
    ∀ node ∈ phot_tree.node_list, ∀ m ∈ node.members,
      (vec_get phot_gals m.num).isSome = true := by
  decide

theorem phot_bounds :
    ∀ node ∈ phot_tree.node_list, ∀ m ∈ node.members, ∀ B ∈ phot_gals, B.num = m.num →
      plane_astro.angsep node.ra node.dec B.ra B.dec ≤ node.radius := by
  decide!

theorem phot_node_bounds : node_bounds phot_fof phot_tree phot_gals := by
  intro node hnode m hm
  obtain ⟨B, hB⟩ := Option.isSome_iff_exists.mp (phot_valid node hnode m hm)
  exact ⟨B, hB, phot_bounds node hnode m hm B (vec_get_mem hB)
    (dense_vec_get _ phot_gals_dense _ B hB)⟩

/-- C15: outside mode "spec" the clusters are the connected components of the
friendship graph. Let the separation be symmetric and satisfy the triangle
inequality, let every index member be a galaxy of the list within the radius of
its node from the centroid, every galaxy a member of some node, `num` dense
from 0, all flags of the bin false and the cluster list empty on entry. After
every run of `friends_of_friends` that returns, two galaxies of the list with
distinct `num` are members of one cluster if and only if both pass `bin_check`
and they are joined by a chain of galaxies of the list passing `bin_check` in
which consecutive galaxies are within `zbin.rfriend`; in particular two
bin-compatible galaxies within `zbin.rfriend` of each other are members of one
cluster. The run returns when the fuel is at least the number of galaxies. -/
theorem clusters_are_components (F : FoF) (tree : Kdtree) (zbin : Zbin) (fuel : Nat)
    (gal_list : List Galaxy) (hmode : F.mode ≠ "spec")
    (hsymm : ∀ a b c d : ℚ, F.astro.angsep a b c d = F.astro.angsep c d a b)
    (htri : ∀ a b c d e f : ℚ,
      F.astro.angsep a b e f ≤ F.astro.angsep a b c d + F.astro.angsep c d e f)
    (hbound : node_bounds F tree gal_list) (hcover : index_cover tree gal_list)
    (hdense : dense gal_list)
    (hflags : ∀ g ∈ gal_list, vec_get g.in_cluster zbin.num = some false)
    (hempty : F.list_of_clusters = []) :
    (∀ (F1 : FoF) (G1 : List Galaxy),
      F.friends_of_friends fuel tree zbin gal_list = .ok (F1, G1) →
      (∀ g1 ∈ gal_list, ∀ g2 ∈ gal_list, g1.num ≠ g2.num →
        (same_cluster F1.list_of_clusters g1.num g2.num ↔
          F.bin_check zbin g1 = true ∧ F.bin_check zbin g2 = true ∧
            phot_chain F zbin gal_list g1 g2)) ∧
      (∀ g1 ∈ gal_list, ∀ g2 ∈ gal_list, g1.num ≠ g2.num →
        F.bin_check zbin g1 = true → F.bin_check zbin g2 = true →
        F.astro.angsep g1.ra g1.dec g2.ra g2.dec ≤ zbin.rfriend →
        same_cluster F1.list_of_clusters g1.num g2.num)) ∧
    (gal_list.length ≤ fuel →
      ∃ F1 G1, F.friends_of_friends fuel tree zbin gal_list = .ok (F1, G1)) := by
  have hsound := index_sound_of_bounds F tree gal_list hsymm htri hbound
  refine ⟨?_, fun hfuel => driver_total F tree zbin fuel gal_list hempty
    (node_bounds_valid F tree gal_list hbound) (flags_false_readable _ _ hflags) hfuel⟩
  intro F1 G1 hrun
  obtain ⟨⟨cc, hci⟩, hframe, hclosed, hflagged⟩ := run_closed F tree zbin fuel gal_list hmode
    hsymm hdense hflags hempty hcover hsound F1 G1 hrun
  have hlinked := run_linked F tree zbin fuel gal_list hempty F1 G1 hrun
  have horigin : ∀ c ∈ F1.list_of_clusters, ∀ m ∈ c.mem, ∃ g0 ∈ gal_list,
      g0.num = m.num ∧ g0.ra = m.ra ∧ g0.dec = m.dec ∧ g0.z = m.z ∧ g0.v = m.v ∧
      F.bin_check zbin g0 = true := by
    intro c hc m hm
    have hall : m ∈ all_members F1.list_of_clusters := List.mem_flatMap.mpr ⟨c, hc, hm⟩
    obtain ⟨g0, _, hg0, a1, a2, a3, a4, a5, a6⟩ := member_origin zbin.num gal_list
      ⟨G1, F1.list_of_clusters, cc⟩ hdense hframe hci.1.1 m hall
    exact ⟨g0, hg0, a1, a2, a3, a4, a6, by
      rw [bin_check_coords F zbin g0 m a4 a5]; exact hci.2 m hall⟩
  have hfriend : ∀ g ∈ gal_list, ∀ x ∈ gal_list, g.num ≠ x.num →
      F.bin_check zbin g = true → F.bin_check zbin x = true →
      F.astro.angsep g.ra g.dec x.ra x.dec ≤ zbin.rfriend →
      ∃ c ∈ F1.list_of_clusters, ∃ m ∈ c.mem, m.num = g.num := by
    intro g hg x hx hne hbg hbx hle
    obtain ⟨gx, hgx, hfl⟩ := flag_of_cases _ _ _ _ (hflagged g hg x hx hne hbg hbx hle)
    obtain ⟨m, hm, hmn⟩ := List.mem_map.mp (hci.1.2 g.num gx hgx hfl)
    obtain ⟨c, hc, hmc⟩ := List.mem_flatMap.mp hm
    exact ⟨c, hc, m, hmc, hmn⟩
  have hback : ∀ g1 g2 : Galaxy, g1.num ≠ g2.num → phot_chain F zbin gal_list g1 g2 →
      same_cluster F1.list_of_clusters g1.num g2.num := by
    intro g1 g2 hne hchain
    rcases chain_same_cluster F zbin gal_list hdense F1.list_of_clusters hclosed
      (fun c hc m hm => by
        obtain ⟨g0, hg0, a1, a2, a3, a4, a5, _⟩ := horigin c hc m hm
        exact ⟨g0, hg0, a1, a2, a3, a4, a5⟩)
      hfriend hmode g1 g2 hchain with heq | hsame
    · exact absurd heq.symm hne
    · exact hsame
  constructor
  · intro g1 hg1 g2 hg2 hne
    constructor
    · rintro ⟨c, hc, ⟨m1, hm1, hm1n⟩, ⟨m2, hm2, hm2n⟩⟩
      obtain ⟨i, A, rest, _, hmem, _, hlr⟩ := hlinked c hc
      rw [pass_radius_phot F zbin A hmode] at hlr
      have horg : ∀ m ∈ A :: rest, ∃ g0 ∈ gal_list, g0.num = m.num ∧ g0.ra = m.ra ∧
          g0.dec = m.dec ∧ F.bin_check zbin g0 = true := by
        intro m hm
        obtain ⟨g0, hg0, a1, a2, a3, _, _, a6⟩ := horigin c hc m (by rw [hmem]; exact hm)
        exact ⟨g0, hg0, a1, a2, a3, a6⟩
      obtain ⟨A0, hA0, hA0n, _⟩ := horg A (List.mem_cons_self A rest)
      rw [hmem] at hm1 hm2
      obtain ⟨j1, hj1⟩ := List.mem_iff_getElem?.mp hm1
      obtain ⟨j2, hj2⟩ := List.mem_iff_getElem?.mp hm2
      have hc1 := linked_chain F zbin gal_list hdense A rest hlr horg A0 hA0 hA0n j1 m1 hj1
        g1 hg1 hm1n.symm
      have hc2 := linked_chain F zbin gal_list hdense A rest hlr horg A0 hA0 hA0n j2 m2 hj2
        g2 hg2 hm2n.symm
      obtain ⟨b1, hb1, hb1n, _, _, hb1c⟩ := horg m1 hm1
      obtain ⟨b2, hb2, hb2n, _, _, hb2c⟩ := horg m2 hm2
      have e1 : b1 = g1 := dense_num_inj gal_list hdense b1 g1 hb1 hg1 (hb1n.trans hm1n)
      have e2 : b2 = g2 := dense_num_inj gal_list hdense b2 g2 hb2 hg2 (hb2n.trans hm2n)
      subst e1 e2
      exact ⟨hb1c, hb2c, Relation.ReflTransGen.trans
        (Relation.ReflTransGen.symmetric (phot_edge_symm F zbin gal_list hsymm) hc1) hc2⟩
    · rintro ⟨_, _, hchain⟩
      exact hback g1 g2 hne hchain
  · intro g1 hg1 g2 hg2 hne hb1 hb2 hle
    exact hback g1 g2 hne (Relation.ReflTransGen.single ⟨hg1, hg2, hb1, hb2, hle⟩)

/-- Instance of `clusters_are_components` on `phot_gals`, three galaxies at one
position with redshifts 0.10, 0.50 and 0.12: the run with fuel 3 returns, the
galaxies 0 and 2 are members of one cluster, and the galaxies 0 and 1 are not,
galaxy 1 failing `bin_check`. -/
theorem clusters_are_components_witness :
    ∃ F1 G1, phot_fof.friends_of_friends 3 phot_tree phot_zbin phot_gals = .ok (F1, G1) ∧
      same_cluster F1.list_of_clusters 0 2 ∧ ¬ same_cluster F1.list_of_clusters 0 1 := by
  have h := clusters_are_components phot_fof phot_tree phot_zbin 3 phot_gals (by decide)
    plane_astro_symm plane_astro_triangle phot_node_bounds phot_cover phot_gals_dense
    phot_flags_false rfl
  obtain ⟨F1, G1, hrun⟩ := h.2 (by decide)
  obtain ⟨hiff, hclose⟩ := h.1 F1 G1 hrun
  refine ⟨F1, G1, hrun, ?_, ?_⟩
  · exact hclose (gal_at 0 0 (1 / 10) (2 / 100)) (by simp [phot_gals])
      (gal_at 2 0 (12 / 100) (2 / 100)) (by simp [phot_gals]) (by decide)
      (by decide!) (by decide!) (by decide!)
  · intro hsame
    have := (hiff (gal_at 0 0 (1 / 10) (2 / 100)) (by simp [phot_gals])
      (gal_at 1 0 (1 / 2) (2 / 100)) (by simp [phot_gals]) (by decide)).mp hsame
    have hb : phot_fof.bin_check phot_zbin (gal_at 1 0 (1 / 2) (2 / 100)) = false := by
      decide!
    rw [hb] at this
    exact absurd this.2.1 (by decide)


/-! ## A finder used for two bins -/

theorem reuse_run :
    run_members (run_twice phot_fof 5 reuse_tree far_zbin near_zbin reuse_gals) =
      some [[two_bin_at 3 (1 / 2), two_bin_at 4 (1 / 2), two_bin_at 2 (11 / 100)],
        [two_bin_at 0 (1 / 10), two_bin_at 1 (1 / 10)]] := by
  decide!

/-- When the cluster list is not empty on entry, a cluster can receive a member
that fails `bin_check` for the bin of the cluster. The finder `phot_fof` is
used for the bin `far_zbin` (`z = 0.5`) and then for the bin `near_zbin`
(`z = 0.1`) on the same list. The first call creates the cluster of the
galaxies 3 and 4. In the second call `cluster_count` starts at -1 again: the
pass of galaxy 0 creates the cluster of the galaxies 0 and 1 at position 1 and
inserts galaxy 2, a friend of galaxy 0, at position `cluster_count = 0`, into
the cluster of the galaxies 3 and 4. Galaxy 2 (`z = 0.11`) fails `bin_check`
for `far_zbin`, galaxy 3 (`z = 0.5`) fails it for `near_zbin`, and their
redshifts differ by more than `link_z * (dz + dz) = 0.12`. -/
theorem bin_mix_reused :
    ∃ F1 G1 F2 G2,
      phot_fof.friends_of_friends 5 reuse_tree far_zbin reuse_gals = .ok (F1, G1) ∧
      F1.friends_of_friends 5 reuse_tree near_zbin G1 = .ok (F2, G2) ∧
      ∃ c ∈ F2.list_of_clusters, ∃ g1 ∈ c.mem, ∃ g2 ∈ c.mem,
        phot_fof.bin_check far_zbin g1 = false ∧
        phot_fof.bin_check near_zbin g2 = false ∧
        |g1.z - g2.z| > phot_fof.link_z * (g1.dz + g2.dz) := by
  obtain ⟨F2, G2, hrun, hmem⟩ := run_members_ok _ _ reuse_run
  unfold run_twice at hrun
  cases h1 : phot_fof.friends_of_friends 5 reuse_tree far_zbin reuse_gals with
  | error e => simp [h1] at hrun
  | ok v =>
    obtain ⟨F1, G1⟩ := v
    simp only [h1] at hrun
    refine ⟨F1, G1, F2, G2, rfl, hrun, ?_⟩
    match hF : F2.list_of_clusters, hmem with
    | [c0, c1], hmem =>
      simp only [List.map_cons, List.map_nil, List.cons.injEq, and_true] at hmem
      obtain ⟨h0, _⟩ := hmem
      refine ⟨c0, by simp, two_bin_at 2 (11 / 100), by rw [h0]; simp,
        two_bin_at 3 (1 / 2), by rw [h0]; simp, by decide!, by decide!, ?_⟩
      norm_num [two_bin_at, gal_at, phot_fof, abs]
    | [], hmem => simp at hmem
    | [_], hmem => simp at hmem
    | _ :: _ :: _ :: _, hmem => simp at hmem

end SFoF
